import Mathlib

/-!
# I2C master of the DUNE timing boards (`src/src/I2CMasterNode.cpp`)

Shallow embedding of `pdt::I2CMasterNode`.

* The uhal register interface is a queue: `write` and `read` enqueue an access,
  `dispatch` sends the queued accesses to the hardware in enqueue order and
  resolves the values of the queued reads.  `World` carries the hardware state,
  the queue, the values resolved by the last dispatch and the trace of every
  call the master makes (`Event`), a dispatch with what it sent and got back.
* The hardware behind the registers is a parameter (`Hardware`): how a register
  answers a read and how it reacts to a write.
* C++ exceptions and `assert` are the constructors of `Result`; the world is
  returned next to the result, so what was done before a throw stays visible.
* `uint8_t` and `uint32_t` values are `Nat`; a narrowing conversion of a wider
  value is an explicit `% 256`, 32-bit wrap-around an explicit `% 4294967296`.
* The endpoint packets of `MasterNode` (`src/src/MasterNode.cpp`) come last in
  each part: the async command buffer is a parameter (`AcmdBuf`), the calls made
  are recorded in a list of `MasterEvent`, and an access outside a vector is an
  outcome of its own (`Outcome.outOfBounds`).
-/

namespace pdt

/-! ## Registers, accesses, trace -/

/-- Registers of the OpenCores I2C core, named as in the address table. -/
inductive Reg where
  | ps_hi
  | ps_lo
  | ctrl
  | data
  | cmd_stat
deriving DecidableEq, Repr

def kPreHiNode : Reg := Reg.ps_hi
def kPreLoNode : Reg := Reg.ps_lo
def kCtrlNode : Reg := Reg.ctrl
def kTxNode : Reg := Reg.data
def kRxNode : Reg := Reg.data
def kCmdNode : Reg := Reg.cmd_stat
def kStatusNode : Reg := Reg.cmd_stat

def kStartCmd : Nat := 0x80
def kStopCmd : Nat := 0x40
def kReadFromSlaveCmd : Nat := 0x20
def kWriteToSlaveCmd : Nat := 0x10
def kAckCmd : Nat := 0x08
def kInterruptAck : Nat := 0x01

def kReceivedAckBit : Nat := 0x80
def kBusyBit : Nat := 0x40
def kArbitrationLostBit : Nat := 0x20
def kInProgressBit : Nat := 0x2
def kInterruptBit : Nat := 0x1

/-- One queued register access (`uhal::Node::write` / `uhal::Node::read`). -/
inductive Access where
  | write (r : Reg) (v : Nat)
  | read (r : Reg)
deriving DecidableEq, Repr

/-- One call made by the master, in program order.  A dispatch records the
accesses it sent to the device, each with its result (the value read, or for a
write the value written). -/
inductive Event where
  | enqueue (a : Access)
  | dispatch (sent : List (Access × Nat))
  | usleep (us : Nat)
deriving DecidableEq, Repr

/-- The exceptions of `pdt/TimingIssues.hpp` thrown by the I2C master (the
identifiers they carry are left out, the requested name is kept). -/
inductive I2CException where
  | I2CBusArbitrationLost
  | I2CTransactionTimeout
  | I2CNoAcknowledgeReceived
  | I2CTransferFinishedBusStillBusy
  | I2CDeviceNotFound (name : String)
deriving DecidableEq, Repr

/-- Outcome of a call: normal return, a thrown `I2CException`, or a failed
`assert` (which aborts and is not an exception). -/
inductive Result (α : Type) where
  | ok (v : α)
  | raised (e : I2CException)
  | assertFailed
deriving DecidableEq, Repr

/-- The device behind the register interface: its reaction to a write and its
answer to a read (a read may change the device, e.g. advance a status). -/
structure Hardware (σ : Type) where
  poke : Reg → Nat → σ → σ
  peek : Reg → σ → Nat × σ

/-- State of the register interface as the master sees it. -/
structure World (σ : Type) where
  hw : σ
  queue : List Access
  valid : List Nat
  trace : List Event

/-- Deferred value of a queued read: its position in the queue. -/
structure ValWord where
  slot : Nat
deriving DecidableEq, Repr

variable {σ : Type}

/-- A world with nothing queued and nothing done yet. -/
def World.init (s : σ) : World σ :=
  { hw := s, queue := [], valid := [], trace := [] }

/-- Sends the accesses to the device in order; one result per access (the value
read, or the value written). -/
def Hardware.run (H : Hardware σ) : List Access → σ → List Nat × σ
  | [], s => ([], s)
  | Access.write r v :: rest, s =>
    let out := H.run rest (H.poke r v s)
    (v :: out.1, out.2)
  | Access.read r :: rest, s =>
    let got := H.peek r s
    let out := H.run rest got.2
    (got.1 :: out.1, out.2)

/-- The call `getNode(r).write(v)`: queued, not yet sent. -/
def write (r : Reg) (v : Nat) (w : World σ) : World σ :=
  { w with queue := w.queue ++ [Access.write r v],
           trace := w.trace ++ [Event.enqueue (Access.write r v)] }

/-- The call `getNode(r).read()`: queued, the value is deferred. -/
def read (r : Reg) (w : World σ) : ValWord × World σ :=
  (⟨w.queue.length⟩,
   { w with queue := w.queue ++ [Access.read r],
            trace := w.trace ++ [Event.enqueue (Access.read r)] })

/-- The call `getClient().dispatch()`. -/
def dispatch (H : Hardware σ) (w : World σ) : World σ :=
  let out := H.run w.queue w.hw
  { hw := out.2, queue := [], valid := out.1,
    trace := w.trace ++ [Event.dispatch (w.queue.zip out.1)] }

/-- Value of a deferred read after the dispatch that resolved it. -/
def ValWord.value (v : ValWord) (w : World σ) : Nat :=
  w.valid.getD v.slot 0

/-- The call `usleep(us)`. -/
def usleep (us : Nat) (w : World σ) : World σ :=
  { w with trace := w.trace ++ [Event.usleep us] }

/-! ## The master -/

/-- Data members of `I2CMasterNode` used by the bus engine; the constructor
sets `mClockPrescale = 0x40` (a 16-bit value). -/
structure I2CMasterNode where
  mClockPrescale : Nat

/-- Poll loop of `waitUntilFinished`, `while (lAttempt <= lMaxRetry)`.  The
first argument bounds the number of iterations; `lMaxRetry + 1 - lAttempt`
iterations are always enough (`pollStatus_fuel`).  Returns the locals
`(lAttempt, lReceivedAcknowledge, lBusy)` at loop exit. -/
def pollStatus (H : Hardware σ) (lMaxRetry : Nat) :
    Nat → Nat → Bool → Bool → World σ → Result (Nat × Bool × Bool) × World σ
  | 0, lAttempt, lReceivedAcknowledge, lBusy, w =>
    (Result.ok (lAttempt, lReceivedAcknowledge, lBusy), w)
  | fuel + 1, lAttempt, lReceivedAcknowledge, lBusy, w =>
    if lAttempt ≤ lMaxRetry then
      let w1 := usleep 10 w
      let rd := read kStatusNode w1
      let w2 := dispatch H rd.2
      let i2c_status := rd.1.value w2
      let lReceivedAcknowledge := !(i2c_status &&& kReceivedAckBit != 0)
      let lBusy := i2c_status &&& kBusyBit != 0
      let arbitrationLost := i2c_status &&& kArbitrationLostBit != 0
      let transferInProgress := i2c_status &&& kInProgressBit != 0
      if arbitrationLost then
        (Result.raised I2CException.I2CBusArbitrationLost, w2)
      else if !transferInProgress then
        (Result.ok (lAttempt, lReceivedAcknowledge, lBusy), w2)
      else
        pollStatus H lMaxRetry fuel (lAttempt + 1) lReceivedAcknowledge lBusy w2
    else
      (Result.ok (lAttempt, lReceivedAcknowledge, lBusy), w)

/-- Checks made by `waitUntilFinished` after its loop. -/
def checkFinished (lMaxRetry : Nat) (aRequireAcknowledgement aRequireBusIdleAtEnd : Bool)
    (lAttempt : Nat) (lReceivedAcknowledge lBusy : Bool) : Result Unit :=
  if lAttempt > lMaxRetry then
    Result.raised I2CException.I2CTransactionTimeout
  else if aRequireAcknowledgement && !lReceivedAcknowledge then
    Result.raised I2CException.I2CNoAcknowledgeReceived
  else if aRequireBusIdleAtEnd && lBusy then
    Result.raised I2CException.I2CTransferFinishedBusStillBusy
  else
    Result.ok ()

/-- The retry budget `lMaxRetry` of `waitUntilFinished`. -/
def lMaxRetry : Nat := 20

/-- `I2CMasterNode::waitUntilFinished`.  The locals `lReceivedAcknowledge` and
`lBusy` are uninitialised in the source and assigned in the first iteration,
which always runs (`1 <= 20`); they start as `false` here. -/
def waitUntilFinished (H : Hardware σ) (aRequireAcknowledgement aRequireBusIdleAtEnd : Bool)
    (w : World σ) : Result Unit × World σ :=
  match pollStatus H lMaxRetry lMaxRetry 1 false false w with
  | (Result.ok (lAttempt, lReceivedAcknowledge, lBusy), w1) =>
    (checkFinished lMaxRetry aRequireAcknowledgement aRequireBusIdleAtEnd
      lAttempt lReceivedAcknowledge lBusy, w1)
  | (Result.raised e, w1) => (Result.raised e, w1)
  | (Result.assertFailed, w1) => (Result.assertFailed, w1)

/-- `I2CMasterNode::reset`. -/
def reset (H : Hardware σ) (m : I2CMasterNode) (w : World σ) : World σ :=
  let rc := read kCtrlNode w
  let rh := read kPreHiNode rc.2
  let rl := read kPreLoNode rh.2
  let w1 := dispatch H rl.2
  let preHi := rh.1.value w1
  let preLo := rl.1.value w1
  let lFullReset := m.mClockPrescale != (preHi <<< 8 + preLo) % 4294967296
  if lFullReset then
    let w2 := write kCtrlNode 0x00 w1
    let w3 := dispatch H w2
    let w4 := write kPreHiNode ((m.mClockPrescale &&& 0xff00) >>> 8) w3
    let w5 := write kPreLoNode (m.mClockPrescale &&& 0xff) w4
    let w6 := write kTxNode 0x00 w5
    let w7 := write kCmdNode 0x00 w6
    let w8 := dispatch H w7
    let w9 := write kCtrlNode 0x80 w8
    dispatch H w9
  else
    let w2 := write kTxNode 0x00 w1
    let w3 := write kCmdNode 0x00 w2
    dispatch H w3

/-- `I2CMasterNode::sendI2CCommandAndReadData`. -/
def sendI2CCommandAndReadData (H : Hardware σ) (aCmd : Nat) (w : World σ) :
    Result Nat × World σ :=
  if aCmd &&& kWriteToSlaveCmd != 0 then
    (Result.assertFailed, w)
  else
    let lFullCmd := aCmd ||| kReadFromSlaveCmd
    let w1 := write kCmdNode lFullCmd w
    let w2 := dispatch H w1
    match waitUntilFinished H false (aCmd &&& kStopCmd != 0) w2 with
    | (Result.ok _, w3) =>
      let rd := read kRxNode w3
      let w4 := dispatch H rd.2
      (Result.ok (rd.1.value w4 &&& 0xff), w4)
    | (Result.raised e, w3) => (Result.raised e, w3)
    | (Result.assertFailed, w3) => (Result.assertFailed, w3)

/-- `I2CMasterNode::sendI2CCommandAndWriteData`. -/
def sendI2CCommandAndWriteData (H : Hardware σ) (aCmd aData : Nat) (w : World σ) :
    Result Unit × World σ :=
  if aCmd &&& kReadFromSlaveCmd != 0 then
    (Result.assertFailed, w)
  else
    let lFullCmd := aCmd ||| kWriteToSlaveCmd
    let w1 := write kTxNode aData w
    let w2 := dispatch H w1
    let w3 := write kCmdNode lFullCmd w2
    let w4 := dispatch H w3
    waitUntilFinished H true (aCmd &&& kStopCmd != 0) w4

/-- Loop of `writeBlockI2C`, `for (unsigned iByte = 0; iByte < aArray.size(); iByte++)`.
The first argument bounds the number of iterations (the caller passes
`aArray.size()`); `iByte` is a 32-bit counter, `aArray.size() - 1` a 64-bit
unsigned subtraction.  For an array of 2^32 bytes or more the counter of the
source wraps and its loop does not end; the statements below are for shorter
arrays, for which the bound is never what ends the loop (`writeBytes_fuel`). -/
def writeBytes (H : Hardware σ) (aArray : List Nat) (aSendStop : Bool) :
    Nat → Nat → World σ → Result Unit × World σ
  | 0, _, w => (Result.ok (), w)
  | fuel + 1, iByte, w =>
    if h : iByte < aArray.length then
      let lCmd :=
        if (iByte == (aArray.length + 18446744073709551616 - 1) % 18446744073709551616)
            && aSendStop then kStopCmd else 0x0
      match sendI2CCommandAndWriteData H lCmd aArray[iByte] w with
      | (Result.ok _, w1) => writeBytes H aArray aSendStop fuel ((iByte + 1) % 4294967296) w1
      | (Result.raised e, w1) => (Result.raised e, w1)
      | (Result.assertFailed, w1) => (Result.assertFailed, w1)
    else
      (Result.ok (), w)

/-- `I2CMasterNode::writeBlockI2C`. -/
def writeBlockI2C (H : Hardware σ) (m : I2CMasterNode) (aSlaveAddress : Nat)
    (aArray : List Nat) (aSendStop : Bool) (w : World σ) : Result Unit × World σ :=
  let w1 := reset H m w
  match sendI2CCommandAndWriteData H kStartCmd (((aSlaveAddress <<< 1) &&& 0xfe) % 256) w1 with
  | (Result.ok _, w2) => writeBytes H aArray aSendStop aArray.length 0 w2
  | (Result.raised e, w2) => (Result.raised e, w2)
  | (Result.assertFailed, w2) => (Result.assertFailed, w2)

/-- Loop of `readBlockI2C`, `for (unsigned iByte = 0; iByte < lNumBytes; iByte++)`.
The first argument bounds the number of iterations (the caller passes
`lNumBytes`), and is never what ends the loop (`readBytes_fuel`);
`lNumBytes - 1` is a 32-bit unsigned subtraction. -/
def readBytes (H : Hardware σ) (lNumBytes : Nat) :
    Nat → Nat → List Nat → World σ → Result (List Nat) × World σ
  | 0, _, lArray, w => (Result.ok lArray, w)
  | fuel + 1, iByte, lArray, w =>
    if iByte < lNumBytes then
      let lCmd :=
        if iByte == (lNumBytes + 4294967296 - 1) % 4294967296 then kStopCmd ||| kAckCmd else 0x0
      match sendI2CCommandAndReadData H lCmd w with
      | (Result.ok b, w1) =>
        readBytes H lNumBytes fuel ((iByte + 1) % 4294967296) (lArray ++ [b]) w1
      | (Result.raised e, w1) => (Result.raised e, w1)
      | (Result.assertFailed, w1) => (Result.assertFailed, w1)
    else
      (Result.ok lArray, w)

/-- `I2CMasterNode::readBlockI2C` (`lNumBytes` is a `uint32_t`). -/
def readBlockI2C (H : Hardware σ) (m : I2CMasterNode) (aSlaveAddress : Nat)
    (lNumBytes : Nat) (w : World σ) : Result (List Nat) × World σ :=
  let w1 := reset H m w
  match sendI2CCommandAndWriteData H kStartCmd (((aSlaveAddress <<< 1) ||| 0x01) % 256) w1 with
  | (Result.ok _, w2) => readBytes H lNumBytes lNumBytes 0 [] w2
  | (Result.raised e, w2) => (Result.raised e, w2)
  | (Result.assertFailed, w2) => (Result.assertFailed, w2)

/-- `I2CMasterNode::ping`.  The `catch` clause takes every `I2CException`; a
failed `assert` aborts and is not caught. -/
def ping (H : Hardware σ) (m : I2CMasterNode) (aSlaveAddress : Nat) (w : World σ) :
    Result Bool × World σ :=
  let w1 := reset H m w
  match sendI2CCommandAndWriteData H kStartCmd (((aSlaveAddress <<< 1) ||| 0x01) % 256) w1 with
  | (Result.ok _, w2) =>
    match sendI2CCommandAndReadData H (kStopCmd ||| kAckCmd) w2 with
    | (Result.ok _, w3) => (Result.ok true, w3)
    | (Result.raised _, w3) => (Result.ok false, w3)
    | (Result.assertFailed, w3) => (Result.assertFailed, w3)
  | (Result.raised _, w2) => (Result.ok false, w2)
  | (Result.assertFailed, w2) => (Result.assertFailed, w2)

/-- Loop of `scan`, `for (uint8_t iAddr(0); iAddr < 0x7f; ++iAddr)`; a caught
exception is the `continue`.  The first argument bounds the number of
iterations (the caller passes 0x7f) and is never what ends the loop
(`scanLoop_fuel`). -/
def scanLoop (H : Hardware σ) :
    Nat → Nat → List Nat → World σ → Result (List Nat) × World σ
  | 0, _, lAddrVector, w => (Result.ok lAddrVector, w)
  | fuel + 1, iAddr, lAddrVector, w =>
    if iAddr < 0x7f then
      match sendI2CCommandAndWriteData H kStartCmd (((iAddr <<< 1) ||| 0x01) % 256) w with
      | (Result.ok _, w1) =>
        match sendI2CCommandAndReadData H (kStopCmd ||| kAckCmd) w1 with
        | (Result.ok _, w2) =>
          scanLoop H fuel ((iAddr + 1) % 256) (lAddrVector ++ [iAddr]) w2
        | (Result.raised _, w2) => scanLoop H fuel ((iAddr + 1) % 256) lAddrVector w2
        | (Result.assertFailed, w2) => (Result.assertFailed, w2)
      | (Result.raised _, w1) => scanLoop H fuel ((iAddr + 1) % 256) lAddrVector w1
      | (Result.assertFailed, w1) => (Result.assertFailed, w1)
    else
      (Result.ok lAddrVector, w)

/-- `I2CMasterNode::scan`. -/
def scan (H : Hardware σ) (m : I2CMasterNode) (w : World σ) : Result (List Nat) × World σ :=
  scanLoop H 0x7f 0 [] (reset H m w)

/-! ## The slave registry -/

/-- Modelled from the spec: the slave handle `I2CSlave` (its header is not among
the sources), a view bound to its master and to one bus address; it is kept as
the address given to its constructor, `new I2CSlave(this, lSlaveAddr)`. -/
structure I2CSlave where
  aSlaveAddress : Nat
deriving DecidableEq, Repr

/-- The call `std::unordered_map::find`: the entry with this key, if any. -/
def mapFind {α : Type} (name : String) : List (String × α) → Option α
  | [] => none
  | (k, v) :: rest => if k = name then some v else mapFind name rest

/-- The call `std::unordered_map::insert`: adds the pair when the key is not
in the map yet, and leaves the map as it is otherwise. -/
def mapInsert {α : Type} (map : List (String × α)) (name : String) (v : α) :
    List (String × α) :=
  match mapFind name map with
  | some _ => map
  | none => map ++ [(name, v)]

/-- The two slave maps of `I2CMasterNode`, each an `unordered_map` kept as the
list of its entries.  The place of an entry in the list has no meaning: a
lookup goes by key, and `getSlaves`, the one function that iterates over a map,
takes the iteration order as a parameter. -/
structure SlaveMaps where
  mSlavesAddresses : List (String × Nat)
  mSlaves : List (String × I2CSlave)
deriving DecidableEq, Repr

/-- Value of a string of decimal digits read after the digits worth `acc`. -/
def digitsToNat : List Char → Nat → Option Nat
  | [], acc => some acc
  | c :: cs, acc =>
    if c.isDigit then digitsToNat cs (10 * acc + (c.toNat - 48)) else none

/-- Modelled from the spec: the parser `pdt::stoul<uint32_t>` of
`pdt/toolbox.hpp` (not among the sources), by which "each address string is
parsed as an unsigned integer"; here for decimal strings, `none` when the string
is not a decimal number.  The statements on the registry are for any parser;
this one serves the examples. -/
def stoulDecimal (s : String) : Option Nat :=
  match s.data with
  | [] => none
  | cs => digitsToNat cs 0

/-- Loop of `I2CMasterNode::constructor` over the node parameters, in the order
the iteration yields them.  `stoul` is the parser `pdt::stoul<uint32_t>` of
`pdt/toolbox.hpp` (not among the sources), `none` when the conversion throws;
the masked address is narrowed to the `uint8_t` of the map and of the handle. -/
def buildSlaves (stoul : String → Option Nat) :
    List (String × String) → SlaveMaps → Option SlaveMaps
  | [], maps => some maps
  | (name, text) :: rest, maps =>
    match stoul text with
    | none => none
    | some n =>
      let lSlaveAddr := n &&& 0x7f
      buildSlaves stoul rest
        { mSlavesAddresses := mapInsert maps.mSlavesAddresses name (lSlaveAddr % 256),
          mSlaves := mapInsert maps.mSlaves name ⟨lSlaveAddr % 256⟩ }

/-- `I2CMasterNode::constructor`: the prescale and the slave maps built from
the node parameters `lPars`. -/
def constructor (stoul : String → Option Nat) (lPars : List (String × String)) :
    Option (I2CMasterNode × SlaveMaps) :=
  match buildSlaves stoul lPars { mSlavesAddresses := [], mSlaves := [] } with
  | none => none
  | some maps => some ({ mClockPrescale := 0x40 }, maps)

/-- `I2CMasterNode::getSlaves`: the keys of `mSlavesAddresses`, copied in the
iteration order of the `unordered_map`.  That order is left to the
implementation of the container (it follows the hashes, not the insertions):
`lOrder` gives it, as the rearrangement of the entries that an iteration
yields. -/
def getSlaves (lOrder : List (String × Nat) → List (String × Nat)) (maps : SlaveMaps)
    (w : World σ) : List String × World σ :=
  ((lOrder maps.mSlavesAddresses).map Prod.fst, w)

/-- `I2CMasterNode::getSlaveAddress`. -/
def getSlaveAddress (maps : SlaveMaps) (name : String) (w : World σ) :
    Result Nat × World σ :=
  match mapFind name maps.mSlavesAddresses with
  | none => (Result.raised (I2CException.I2CDeviceNotFound name), w)
  | some lAddr => (Result.ok lAddr, w)

/-- `I2CMasterNode::getSlave`. -/
def getSlave (maps : SlaveMaps) (name : String) (w : World σ) :
    Result I2CSlave × World σ :=
  match mapFind name maps.mSlaves with
  | none => (Result.raised (I2CException.I2CDeviceNotFound name), w)
  | some lSlave => (Result.ok lSlave, w)

/-! ## Simulated devices -/

/-- A bus whose status register answers the successive words of `s` (the state
is the number of status reads so far); the other registers read 0 and writes
are ignored. -/
def statusBus (s : Nat → Nat) : Hardware Nat where
  poke := fun _ _ n => n
  peek := fun r n =>
    match r with
    | Reg.cmd_stat => (s n, n + 1)
    | _ => (0, n)

/-- Status words with the transfer in progress on all twenty polls and the
arbitration lost on the twentieth. -/
def lostOnLastAttempt : Nat → Nat :=
  fun n => if n < 19 then 0x02 else 0x22

/-- Status words that are 0 (finished, acknowledged, idle) but for the third
one read, which has the received-ack bit set (no acknowledge). -/
def nackOnThird : Nat → Nat :=
  fun n => if n = 2 then 0x80 else 0

/-- Status words that are 0 (finished, acknowledged, idle) but for every third
one read, which has the arbitration-lost bit set. -/
def lostEveryThird : Nat → Nat :=
  fun n => if n % 3 = 2 then 0x20 else 0

/-- A register file: every register reads back the value last written to it. -/
def regFile : Hardware (Reg → Nat) where
  poke := fun r v f => fun x => if x = r then v else f x
  peek := fun r f => (f r, f)

/-- State of a simulated I2C core with one slave on the bus that echoes: the
bytes of its last write transaction are what it sends in a read transaction. -/
structure EchoState where
  ps_hi : Nat
  ps_lo : Nat
  ctrl : Nat
  txr : Nat
  rxr : Nat
  status : Nat
  selected : Bool
  reading : Bool
  store : List Nat
  unsent : List Nat

/-- Reaction of the simulated core to a command written to `cmd_stat`; a
transfer completes at once (transfer-in-progress is never seen set), the slave
at address `addr` acknowledges its address and the bytes written to it, and the
bus is busy from a start to the next stop. -/
def echoCommand (addr : Nat) (c : Nat) (s : EchoState) : EchoState :=
  let stop := c &&& kStopCmd != 0
  let busy := if stop then 0 else kBusyBit
  if c &&& kWriteToSlaveCmd != 0 then
    if c &&& kStartCmd != 0 then
      let sel := s.txr >>> 1 == addr
      let toRead := s.txr &&& 1 != 0
      { s with selected := sel && !stop,
               reading := toRead,
               store := if sel && !toRead then [] else s.store,
               unsent := if sel && toRead then s.store else [],
               status := (if sel then 0 else kReceivedAckBit) ||| busy }
    else if s.selected && !s.reading then
      { s with store := s.store ++ [s.txr], selected := !stop, status := busy }
    else
      { s with selected := s.selected && !stop, status := kReceivedAckBit ||| busy }
  else if c &&& kReadFromSlaveCmd != 0 then
    if s.selected && s.reading then
      { s with rxr := s.unsent.headD 0xff, unsent := s.unsent.tail,
               selected := !stop, status := busy }
    else
      { s with rxr := 0xff, selected := s.selected && !stop, status := busy }
  else
    s

/-- The simulated core with an echoing slave at bus address `addr`. -/
def echoBus (addr : Nat) : Hardware EchoState where
  poke := fun r v s =>
    match r with
    | Reg.ps_hi => { s with ps_hi := v }
    | Reg.ps_lo => { s with ps_lo := v }
    | Reg.ctrl => { s with ctrl := v }
    | Reg.data => { s with txr := v }
    | Reg.cmd_stat => echoCommand addr v s
  peek := fun r s =>
    match r with
    | Reg.ps_hi => (s.ps_hi, s)
    | Reg.ps_lo => (s.ps_lo, s)
    | Reg.ctrl => (s.ctrl, s)
    | Reg.data => (s.rxr, s)
    | Reg.cmd_stat => (s.status, s)

/-- State of a simulated I2C core on a bus with several slaves, of which only
the address phase is simulated. -/
structure AckState where
  txr : Nat
  status : Nat

/-- A simulated core on a bus where exactly the addresses `a` with `present a`
acknowledge: a transfer completes at once, the address byte of a start command
is acknowledged when its address is present, and the bus is busy from a start
to the next stop. -/
def ackBus (present : Nat → Bool) : Hardware AckState where
  poke := fun r v s =>
    match r with
    | Reg.data => { s with txr := v }
    | Reg.cmd_stat =>
      if v &&& kWriteToSlaveCmd != 0 then
        if v &&& kStartCmd != 0 then
          { s with status := (if present (s.txr >>> 1) then 0 else kReceivedAckBit) |||
              (if v &&& kStopCmd != 0 then 0 else kBusyBit) }
        else
          { s with status := (s.status &&& kReceivedAckBit) |||
              (if v &&& kStopCmd != 0 then 0 else kBusyBit) }
      else if v &&& kReadFromSlaveCmd != 0 then
        { s with status := if v &&& kStopCmd != 0 then 0 else kBusyBit }
      else
        s
    | _ => s
  peek := fun r s =>
    match r with
    | Reg.cmd_stat => (s.status, s)
    | _ => (0, s)

/-! ## Reading a trace -/

/-- The device state after the three reads (`ctrl`, `ps_hi`, `ps_lo`) that
`reset` dispatches first. -/
def afterResetReads (H : Hardware σ) (s : σ) : σ :=
  (H.peek kPreLoNode (H.peek kPreHiNode (H.peek kCtrlNode s).2).2).2

/-- The prescale latched in the device as `reset` computes it, in 32-bit
unsigned arithmetic, from the words read at its start: `(preHi << 8) + preLo`. -/
def latchedPrescale (H : Hardware σ) (s : σ) : Nat :=
  (((H.peek kPreHiNode (H.peek kCtrlNode s).2).1 <<< 8) +
    (H.peek kPreLoNode (H.peek kPreHiNode (H.peek kCtrlNode s).2).2).1) % 4294967296

/-- A write as it reached the device. -/
def wrote (r : Reg) (v : Nat) : Access × Nat := (Access.write r v, v)

/-- A read as it reached the device, with the value the device answered. -/
def got (r : Reg) (v : Nat) : Access × Nat := (Access.read r, v)

/-- The events with which `reset` starts on a device in state `s`: three reads
queued, one dispatch. -/
def resetReads (H : Hardware σ) (s : σ) : List Event :=
  [Event.enqueue (Access.read kCtrlNode), Event.enqueue (Access.read kPreHiNode),
   Event.enqueue (Access.read kPreLoNode),
   Event.dispatch [got kCtrlNode (H.peek kCtrlNode s).1,
     got kPreHiNode (H.peek kPreHiNode (H.peek kCtrlNode s).2).1,
     got kPreLoNode (H.peek kPreLoNode (H.peek kPreHiNode (H.peek kCtrlNode s).2).2).1]]

/-- Whether a trace queues a write to the control or to a prescale register. -/
def writesControlOrPrescale (t : List Event) : Bool :=
  t.any (fun e =>
    match e with
    | Event.enqueue (Access.write r _) => r == kCtrlNode || r == kPreHiNode || r == kPreLoNode
    | _ => false)

/-- Number of dispatches in a trace. -/
def dispatchCount (t : List Event) : Nat :=
  (t.filter (fun e => match e with | Event.dispatch _ => true | _ => false)).length

/-- Everything the dispatches of a trace sent to the device, in order. -/
def sentOf : List Event → List (Access × Nat)
  | [] => []
  | Event.dispatch sent :: t => sent ++ sentOf t
  | Event.enqueue _ :: t => sentOf t
  | Event.usleep _ :: t => sentOf t

/-- The accesses that reached the device, the polls of the status register
left out. -/
def busLog (t : List Event) : List (Access × Nat) :=
  (sentOf t).filter (fun p => p.1 != Access.read kStatusNode)

/-- The values written to the command register, in order. -/
def commandsOf (l : List (Access × Nat)) : List Nat :=
  l.filterMap (fun p =>
    match p.1 with
    | Access.write Reg.cmd_stat v => some v
    | _ => none)

/-- What the loop of `writeBlockI2C` sends for the bytes that remain: each byte
to the data register with the command `write` (0x10), the last one with
`stop|write` (0x50) when a stop is asked for. -/
def writeXfers (stop : Bool) : List Nat → List (Access × Nat)
  | [] => []
  | [x] => [wrote kTxNode x, wrote kCmdNode (if stop then 0x50 else 0x10)]
  | x :: y :: t => wrote kTxNode x :: wrote kCmdNode 0x10 :: writeXfers stop (y :: t)

/-- What the loop of `readBlockI2C` sends and gets for the bytes that remain,
`d` being the words the data register answers: the command `read` (0x20) and a
read of the data register for each, the last command being `read|stop|ack`
(0x68). -/
def readXfers : List Nat → List (Access × Nat)
  | [] => []
  | [x] => [wrote kCmdNode 0x68, got kRxNode x]
  | x :: y :: t => wrote kCmdNode 0x20 :: got kRxNode x :: readXfers (y :: t)

/-- Whether the probe that `ping` and `scan` make of address `a` (the
start+address(read) command, then the stop|ack read command) completes without
an exception from world `w`. -/
def probeOk (H : Hardware σ) (a : Nat) (w : World σ) : Bool :=
  match sendI2CCommandAndWriteData H kStartCmd (((a <<< 1) ||| 0x01) % 256) w with
  | (Result.ok _, w1) =>
    match sendI2CCommandAndReadData H (kStopCmd ||| kAckCmd) w1 with
    | (Result.ok _, _) => true
    | _ => false
  | _ => false

/-- The world the probe of address `a` leaves, whatever its outcome. -/
def probeWorld (H : Hardware σ) (a : Nat) (w : World σ) : World σ :=
  match sendI2CCommandAndWriteData H kStartCmd (((a <<< 1) ||| 0x01) % 256) w with
  | (Result.ok _, w1) => (sendI2CCommandAndReadData H (kStopCmd ||| kAckCmd) w1).2
  | (_, w1) => w1

/-- The values written to the data register, in order. -/
def dataWrites (l : List (Access × Nat)) : List Nat :=
  l.filterMap (fun p =>
    match p.1 with
    | Access.write Reg.data v => some v
    | _ => none)

/-- The status words the device answered, in order. -/
def statusLog (t : List Event) : List Nat :=
  ((sentOf t).filter (fun p => p.1 == Access.read kStatusNode)).map Prod.snd

/-- The events of one poll of the status register that read the word `v`. -/
def pollEvents (v : Nat) : List Event :=
  [Event.usleep 10, Event.enqueue (Access.read kStatusNode),
   Event.dispatch [got kStatusNode v]]

/-- The events of `k` successive polls that read `s n`, `s (n+1)`, ... -/
def pollTrace (s : Nat → Nat) (n : Nat) : Nat → List Event
  | 0 => []
  | k + 1 => pollEvents (s n) ++ pollTrace s (n + 1) k

/-- One iteration of the poll loop up to the dispatch: sleep, queue the status
read, dispatch. -/
def pollRound (H : Hardware σ) (w : World σ) : World σ :=
  dispatch H (read kStatusNode (usleep 10 w)).2

/-- The world after `k` polls. -/
def polled (H : Hardware σ) : Nat → World σ → World σ
  | 0, w => w
  | k + 1, w => polled H k (pollRound H w)

/-- The status word read by poll number `j` (from 0) starting in world `w`. -/
def statusAt (H : Hardware σ) : Nat → World σ → Nat
  | 0, w => (read kStatusNode (usleep 10 w)).1.value (pollRound H w)
  | j + 1, w => statusAt H j (pollRound H w)

/-! ## Register-addressed transfers -/

/-- Loop of `writeI2CArray`, `for (size_t i(0); i < aData.size(); ++i)
block[i+1] = aData[i]`.  The first argument bounds the number of iterations
(the caller passes `aData.size()`); `i` and `i+1` are 64-bit `size_t` values. -/
def fillBlock (aData : List Nat) : Nat → Nat → List Nat → List Nat
  | 0, _, block => block
  | fuel + 1, i, block =>
    if h : i < aData.length then
      fillBlock aData fuel ((i + 1) % 18446744073709551616)
        (block.set ((i + 1) % 18446744073709551616) aData[i])
    else
      block

/-- `I2CMasterNode::writeI2CArray`: a block of `aData.size() + 1` zero bytes
(a `size_t` sum), whose first byte is set to `i2cAddress & 0xff` narrowed to
`uint8_t` and whose other bytes are filled from `aData`, sent with
`writeBlockI2C`. -/
def writeI2CArray (H : Hardware σ) (m : I2CMasterNode) (aSlaveAddress i2cAddress : Nat)
    (aData : List Nat) (aSendStop : Bool) (w : World σ) : Result Unit × World σ :=
  let block := List.replicate ((aData.length + 1) % 18446744073709551616) 0
  let block := block.set 0 ((i2cAddress &&& 0xff) % 256)
  let block := fillBlock aData aData.length 0 block
  writeBlockI2C H m aSlaveAddress block aSendStop w

/-- `I2CMasterNode::writeI2C`. -/
def writeI2C (H : Hardware σ) (m : I2CMasterNode) (aSlaveAddress i2cAddress aData : Nat)
    (aSendStop : Bool) (w : World σ) : Result Unit × World σ :=
  writeI2CArray H m aSlaveAddress i2cAddress [aData] aSendStop w

/-- Modelled from the spec: the default value of the parameter `aSendStop` of
`writeBlockI2C`, declared in `pdt/I2CMasterNode.hpp` (not among the sources):
"`writeBlock(address, bytes, sendStop=true)`". -/
def aSendStopDefault : Bool := true

/-- `I2CMasterNode::readI2CArray`; the call of `writeBlockI2C` leaves
`aSendStop` to its default. -/
def readI2CArray (H : Hardware σ) (m : I2CMasterNode) (aSlaveAddress i2cAddress aNumWords : Nat)
    (w : World σ) : Result (List Nat) × World σ :=
  let lArray := [(i2cAddress &&& 0xff) % 256]
  match writeBlockI2C H m aSlaveAddress lArray aSendStopDefault w with
  | (Result.ok _, w1) => readBlockI2C H m aSlaveAddress aNumWords w1
  | (Result.raised e, w1) => (Result.raised e, w1)
  | (Result.assertFailed, w1) => (Result.assertFailed, w1)

/-- `I2CMasterNode::readI2C`: element 0 of the vector `readI2CArray` returns.
The result is `none` when that vector has no element 0, where `operator[]` of
the source reads out of bounds. -/
def readI2C (H : Hardware σ) (m : I2CMasterNode) (aSlaveAddress i2cAddress : Nat)
    (w : World σ) : Result (Option Nat) × World σ :=
  match readI2CArray H m aSlaveAddress i2cAddress 1 w with
  | (Result.ok lArray, w1) => (Result.ok lArray[0]?, w1)
  | (Result.raised e, w1) => (Result.raised e, w1)
  | (Result.assertFailed, w1) => (Result.assertFailed, w1)

/-- Whether a value written to the command register has exactly one of the
read-from-slave (0x20) and write-to-slave (0x10) flags. -/
def oneDirection (c : Nat) : Bool :=
  (c &&& kReadFromSlaveCmd != 0) != (c &&& kWriteToSlaveCmd != 0)


/-! ## The master node (`src/src/MasterNode.cpp`) -/

/-- The exceptions thrown in `MasterNode::transmit_async_packet`: the two of
`timing/TimingIssues.hpp` (the second carries the timeout) and the
`std::out_of_range` of `std::vector::at`. -/
inductive MasterException where
  | VLCommandReplyTimeout
  | VLCommandReplyBufferFlagTimeout (timeout : Int)
  | out_of_range
deriving DecidableEq, Repr

/-- Outcome of a call of the master node: normal return, a thrown exception, or
an access outside a vector (an iterator range that ends past the end, `back()`
of an empty vector), which the source does not check. -/
inductive Outcome (α : Type) where
  | ok (v : α)
  | thrown (e : MasterException)
  | outOfBounds
deriving DecidableEq, Repr

/-- One call made by the master node, in program order (`TLOG_DEBUG` output is
left out). -/
inductive MasterEvent where
  | tlog (msg : String)
  | warning (w0 w1 w2 : Nat)
  | reset_sub_nodes (node : String)
  | writeBlock (node : String) (words : List Nat)
  | readBlock (node : String) (size : Nat)
  | read (node : String)
  | dispatch
  | sleep_for (us : Nat)
deriving DecidableEq, Repr

/-- The async command buffer `acmd_buf` as the hardware presents it during one
call of `transmit_async_packet`: the values of `stat.ready` and `stat.timeout`
at each successive poll (from 0), the microseconds by which the clock at each
poll is later than the time slept so far (50 microseconds per earlier poll),
and the words of `rxbuf` when the reply is read. -/
structure AcmdBuf where
  ready : Nat → Nat
  timeout : Nat → Nat
  late : Nat → Nat
  rxbuf : Nat → Nat

/-- Loop of `transmit_async_packet`, `while (true)`, from poll number `i`.
The first argument bounds the number of iterations; the clock passes `timeout`
after `timeout / 50 + 1` sleeps at the latest, so the `timeout / 50 + 2`
iterations the caller passes are always enough (`awaitBuffer_fuel`). -/
def awaitBuffer (B : AcmdBuf) (timeout : Int) :
    Nat → Nat → List MasterEvent → Outcome Unit × List MasterEvent
  | 0, _, t => (Outcome.thrown (MasterException.VLCommandReplyBufferFlagTimeout timeout), t)
  | fuel + 1, i, t =>
    let t1 := t ++ [MasterEvent.read "acmd_buf.stat.ready",
      MasterEvent.read "acmd_buf.stat.timeout", MasterEvent.dispatch]
    let buffer_ready := B.ready i
    let buffer_timeout := B.timeout i
    if buffer_timeout != 0 then
      (Outcome.thrown MasterException.VLCommandReplyTimeout, t1)
    else if buffer_ready != 0 then
      (Outcome.ok (), t1)
    else
      let us_since_start : Int := 50 * (i : Int) + (B.late i : Int)
      if us_since_start > timeout then
        (Outcome.thrown (MasterException.VLCommandReplyBufferFlagTimeout timeout), t1)
      else
        awaitBuffer B timeout fuel (i + 1) (t1 ++ [MasterEvent.sleep_for 50])

/-- `MasterNode::transmit_async_packet`.  `reset_sub_nodes` is a helper of
`timing/toolbox.hpp` (not among the sources) and is recorded as a call; the
reply is the block of 0x20 words read from `acmd_buf.rxbuf`, whose first three
words `at(0)`, `at(1)`, `at(2)` exist. -/
def transmit_async_packet (B : AcmdBuf) (packet : List Nat) (timeout : Int)
    (t : List MasterEvent) : Outcome (List Nat) × List MasterEvent :=
  let t1 := t ++ [MasterEvent.reset_sub_nodes "acmd_buf.txbuf",
    MasterEvent.writeBlock "acmd_buf.txbuf" packet, MasterEvent.dispatch]
  if timeout < 0 then
    (Outcome.ok [], t1)
  else
    match awaitBuffer B timeout (timeout.toNat / 50 + 2) 0 t1 with
    | (Outcome.ok _, t2) =>
      let rx_packet := (List.range 0x20).map B.rxbuf
      let t3 := t2 ++ [MasterEvent.readBlock "acmd_buf.rxbuf" 0x20, MasterEvent.dispatch]
      if rx_packet.getD 0 0 != 0xff || rx_packet.getD 1 0 != 0xff then
        (Outcome.ok rx_packet,
          t3 ++ [MasterEvent.warning (rx_packet.getD 0 0) (rx_packet.getD 1 0)
            (rx_packet.getD 2 0)])
      else
        match packet[2]? with
        | none => (Outcome.thrown MasterException.out_of_range, t3)
        | some p2 =>
          if rx_packet.getD 2 0 != p2 then
            (Outcome.ok rx_packet,
              t3 ++ [MasterEvent.warning (rx_packet.getD 0 0) (rx_packet.getD 1 0)
                (rx_packet.getD 2 0)])
          else
            (Outcome.ok rx_packet, t3)
    | (Outcome.thrown e, t2) => (Outcome.thrown e, t2)
    | (Outcome.outOfBounds, t2) => (Outcome.outOfBounds, t2)

/-- `MasterNode::write_endpoint_data`.  `timeout` is the default of the
parameter `timeout` of `transmit_async_packet`, declared in
`timing/MasterNode.hpp` (not among the sources); the words of `tx_packet` are
`uint32_t`, `data_length` is the `size_t` `data.size()`. -/
def write_endpoint_data (B : AcmdBuf) (timeout : Int) (endpoint_address reg_address : Nat)
    (data : List Nat) (address_mode : Bool) (t : List MasterEvent) :
    Outcome Unit × List MasterEvent :=
  let data_length := data.length
  let t1 := if data_length > 0x3f || data_length == 0 then
      t ++ [MasterEvent.tlog "invalid data length"] else t
  let sequence := 0xab
  let tx_packet := [(endpoint_address &&& 0xff) % 4294967296,
    (endpoint_address >>> 8) % 4294967296,
    sequence,
    ((0x1 <<< 7) ||| reg_address) % 4294967296,
    ((address_mode.toNat <<< 7) ||| (0x3f &&& data_length)) % 4294967296]
  let tx_packet := tx_packet ++ data
  match tx_packet.getLast? with
  | none => (Outcome.outOfBounds, t1)
  | some back =>
    let tx_packet := tx_packet.dropLast ++ [(back ||| (0x1 <<< 8)) % 4294967296]
    match transmit_async_packet B tx_packet timeout t1 with
    | (Outcome.ok _, t2) => (Outcome.ok (), t2)
    | (Outcome.thrown e, t2) => (Outcome.thrown e, t2)
    | (Outcome.outOfBounds, t2) => (Outcome.outOfBounds, t2)

/-- `MasterNode::read_endpoint_data`.  `timeout` is the default of the
parameter `timeout` of `transmit_async_packet`, declared in
`timing/MasterNode.hpp` (not among the sources); `data_length` is a `uint8_t`.
The vector `result_data` is built from the iterator range
`[result.begin()+3, result.begin()+3+data_length)`, which lies in `result`
only when `3 + data_length <= result.size()`. -/
def read_endpoint_data (B : AcmdBuf) (timeout : Int)
    (endpoint_address reg_address data_length : Nat) (address_mode : Bool)
    (t : List MasterEvent) : Outcome (List Nat) × List MasterEvent :=
  let t1 := if data_length > 0x3f || data_length == 0 then
      t ++ [MasterEvent.tlog "invalid data length"] else t
  let sequence := 0xab
  let tx_packet := [(endpoint_address &&& 0xff) % 4294967296,
    (endpoint_address >>> 8) % 4294967296,
    sequence,
    reg_address,
    ((0x1 <<< 8) ||| (address_mode.toNat <<< 7) ||| (0x3f &&& data_length)) % 4294967296]
  match transmit_async_packet B tx_packet timeout t1 with
  | (Outcome.ok result, t2) =>
    if 3 + data_length ≤ result.length then
      let result_data := (result.drop 3).take data_length
      match result_data.getLast? with
      | none => (Outcome.outOfBounds, t2)
      | some back => (Outcome.ok (result_data.dropLast ++ [back &&& 0xff]), t2)
    else
      (Outcome.outOfBounds, t2)
  | (Outcome.thrown e, t2) => (Outcome.thrown e, t2)
  | (Outcome.outOfBounds, t2) => (Outcome.outOfBounds, t2)

/-- A buffer that is ready at the first poll and whose `rxbuf` holds the words
of `reply` (0 beyond them). -/
def readyBuffer (reply : List Nat) : AcmdBuf where
  ready := fun _ => 1
  timeout := fun _ => 0
  late := fun _ => 0
  rxbuf := fun i => reply.getD i 0

/-- The blocks written to `acmd_buf.txbuf`, in order. -/
def txPackets (t : List MasterEvent) : List (List Nat) :=
  t.filterMap (fun e =>
    match e with
    | MasterEvent.writeBlock node words => if node = "acmd_buf.txbuf" then some words else none
    | _ => none)

/-- The messages of `TLOG()`, in order. -/
def tlogs (t : List MasterEvent) : List String :=
  t.filterMap (fun e =>
    match e with
    | MasterEvent.tlog msg => some msg
    | _ => none)

/-- Whether the wait of `transmit_async_packet` finds the buffer ready at poll
`k` (from 0): no timeout flag up to that poll, and at each poll before it the
buffer not ready and the clock not past `timeout`. -/
def readyAt (B : AcmdBuf) (timeout : Int) (k : Nat) : Prop :=
  (∀ j, j ≤ k → B.timeout j = 0) ∧
  (∀ j, j < k → B.ready j = 0 ∧ 50 * (j : Int) + (B.late j : Int) ≤ timeout) ∧
  B.ready k ≠ 0


/-! ## The poll loop -/

theorem pollStatus_succ (H : Hardware σ) (M fuel att : Nat) (a b : Bool) (w : World σ) :
    pollStatus H M (fuel + 1) att a b w =
      if att ≤ M then
        if statusAt H 0 w &&& kArbitrationLostBit != 0 then
          (Result.raised I2CException.I2CBusArbitrationLost, pollRound H w)
        else if !(statusAt H 0 w &&& kInProgressBit != 0) then
          (Result.ok (att, !(statusAt H 0 w &&& kReceivedAckBit != 0),
            statusAt H 0 w &&& kBusyBit != 0), pollRound H w)
        else
          pollStatus H M fuel (att + 1) (!(statusAt H 0 w &&& kReceivedAckBit != 0))
            (statusAt H 0 w &&& kBusyBit != 0) (pollRound H w)
      else (Result.ok (att, a, b), w) := rfl

/-- A status word with arbitration lost, read after `k` words that had the
transfer in progress and no arbitration loss, ends the loop with the throw. -/
theorem pollStatus_lost (H : Hardware σ) (M : Nat) :
    ∀ (k fuel att : Nat) (a b : Bool) (w : World σ), k < fuel → att + k ≤ M →
      (∀ j, j < k → statusAt H j w &&& 32 = 0 ∧ statusAt H j w &&& 2 ≠ 0) →
      statusAt H k w &&& 32 ≠ 0 →
      pollStatus H M fuel att a b w =
        (Result.raised I2CException.I2CBusArbitrationLost, polled H (k + 1) w) := by
  intro k
  induction k with
  | zero =>
    intro fuel att a b w hf hatt _ hl
    obtain ⟨f, rfl⟩ : ∃ f, fuel = f + 1 := ⟨fuel - 1, by omega⟩
    rw [pollStatus_succ]
    have h1 : att ≤ M := by omega
    simp [h1, kArbitrationLostBit, hl, polled]
  | succ k ih =>
    intro fuel att a b w hf hatt hpre hl
    obtain ⟨f, rfl⟩ : ∃ f, fuel = f + 1 := ⟨fuel - 1, by omega⟩
    rw [pollStatus_succ]
    have h1 : att ≤ M := by omega
    have h0 := hpre 0 (by omega)
    simp only [h1, kArbitrationLostBit, kInProgressBit, if_true]
    simp only [h0.1, h0.2, bne_self_eq_false, Bool.false_eq_true, if_false, bne_iff_ne, ne_eq,
      not_false_eq_true, Bool.not_eq_true', if_true]
    simp only [bne_eq_false_iff_eq, h0.2, if_false]
    rw [ih f (att + 1) _ _ (pollRound H w) (by omega) (by omega)
      (fun j hj => hpre (j + 1) (by omega)) hl]
    rfl

/-- A status word with the transfer finished and no arbitration loss, read
after `k` words that had the transfer in progress, ends the loop by `break`
with `lAttempt` not advanced past that poll. -/
theorem pollStatus_done (H : Hardware σ) (M : Nat) :
    ∀ (k fuel att : Nat) (a b : Bool) (w : World σ), k < fuel → att + k ≤ M →
      (∀ j, j < k → statusAt H j w &&& 32 = 0 ∧ statusAt H j w &&& 2 ≠ 0) →
      statusAt H k w &&& 32 = 0 → statusAt H k w &&& 2 = 0 →
      pollStatus H M fuel att a b w =
        (Result.ok (att + k, !(statusAt H k w &&& 128 != 0), statusAt H k w &&& 64 != 0),
          polled H (k + 1) w) := by
  intro k
  induction k with
  | zero =>
    intro fuel att a b w hf hatt _ hl ht
    obtain ⟨f, rfl⟩ : ∃ f, fuel = f + 1 := ⟨fuel - 1, by omega⟩
    rw [pollStatus_succ]
    have h1 : att ≤ M := by omega
    simp [h1, kArbitrationLostBit, kInProgressBit, kReceivedAckBit, kBusyBit, hl, ht, polled]
  | succ k ih =>
    intro fuel att a b w hf hatt hpre hl ht
    obtain ⟨f, rfl⟩ : ∃ f, fuel = f + 1 := ⟨fuel - 1, by omega⟩
    rw [pollStatus_succ]
    have h1 : att ≤ M := by omega
    have h0 := hpre 0 (by omega)
    simp only [h1, kArbitrationLostBit, kInProgressBit, if_true]
    simp only [h0.1, h0.2, bne_self_eq_false, Bool.false_eq_true, if_false, bne_iff_ne, ne_eq,
      not_false_eq_true, Bool.not_eq_true', if_true]
    simp only [bne_eq_false_iff_eq, h0.2, if_false]
    rw [ih f (att + 1) _ _ (pollRound H w) (by omega) (by omega)
      (fun j hj => hpre (j + 1) (by omega)) hl ht]
    have h2 : att + 1 + k = att + (k + 1) := by omega
    rw [h2]
    rfl

/-- With the transfer in progress and no arbitration loss on every poll the
budget allows, the loop ends by its guard with `lAttempt = lMaxRetry + 1`. -/
theorem pollStatus_exhausted (H : Hardware σ) (M : Nat) :
    ∀ (fuel att : Nat) (a b : Bool) (w : World σ), att + fuel = M + 1 →
      (∀ j, j < fuel → statusAt H j w &&& 32 = 0 ∧ statusAt H j w &&& 2 ≠ 0) →
      ∃ a1 b1, pollStatus H M fuel att a b w = (Result.ok (M + 1, a1, b1), polled H fuel w) := by
  intro fuel
  induction fuel with
  | zero =>
    intro att a b w hatt _
    have h1 : att = M + 1 := by omega
    subst h1
    exact ⟨a, b, rfl⟩
  | succ f ih =>
    intro att a b w hatt hpre
    rw [pollStatus_succ]
    have h1 : att ≤ M := by omega
    have h0 := hpre 0 (by omega)
    simp only [h1, kArbitrationLostBit, kInProgressBit, if_true]
    simp only [h0.1, h0.2, bne_self_eq_false, Bool.false_eq_true, if_false, bne_iff_ne, ne_eq,
      not_false_eq_true, Bool.not_eq_true', if_true]
    simp only [bne_eq_false_iff_eq, h0.2, if_false]
    exact ih (att + 1) _ _ (pollRound H w) (by omega) (fun j hj => hpre (j + 1) (by omega))

/-- More fuel than `lMaxRetry + 1 - lAttempt` changes nothing: the bound on the
iterations never cuts the loop of the source short. -/
theorem pollStatus_fuel (H : Hardware σ) (M : Nat) :
    ∀ (fuel extra att : Nat) (a b : Bool) (w : World σ), M + 1 ≤ att + fuel →
      pollStatus H M (fuel + extra) att a b w = pollStatus H M fuel att a b w := by
  intro fuel
  induction fuel with
  | zero =>
    intro extra att a b w hatt
    cases extra with
    | zero => rfl
    | succ e =>
      have h1 : ¬ att ≤ M := by omega
      have h2 : 0 + (e + 1) = e + 1 := by omega
      rw [h2, pollStatus_succ]
      simp [h1, pollStatus]
  | succ f ih =>
    intro extra att a b w hatt
    have h2 : f + 1 + extra = (f + extra) + 1 := by omega
    rw [h2, pollStatus_succ, pollStatus_succ]
    rw [ih extra (att + 1) _ _ (pollRound H w) (by omega)]

/-- Among the first `n` status words either all keep the loop going, or there is
a first one that does not. -/
theorem first_decisive (P : Nat → Prop) (n : Nat) :
    (∀ j, j < n → P j) ∨ ∃ k, k < n ∧ (∀ j, j < k → P j) ∧ ¬ P k := by
  induction n with
  | zero => exact Or.inl (fun j hj => absurd hj (Nat.not_lt_zero j))
  | succ n ih =>
    rcases ih with h | ⟨k, hk, hpre, hnot⟩
    · by_cases hn : P n
      · left
        intro j hj
        rcases Nat.lt_succ_iff_lt_or_eq.mp hj with h1 | h1
        · exact h j h1
        · exact h1 ▸ hn
      · exact Or.inr ⟨n, Nat.lt_succ_self n, h, hn⟩
    · exact Or.inr ⟨k, Nat.lt_succ_of_lt hk, hpre, hnot⟩

/-! ## waitUntilFinished on any device -/

theorem waitUntilFinished_lost (H : Hardware σ) (ack idle : Bool) (w : World σ) (k : Nat)
    (hk : k < 20)
    (hpre : ∀ j, j < k → statusAt H j w &&& 32 = 0 ∧ statusAt H j w &&& 2 ≠ 0)
    (hl : statusAt H k w &&& 32 ≠ 0) :
    waitUntilFinished H ack idle w =
      (Result.raised I2CException.I2CBusArbitrationLost, polled H (k + 1) w) := by
  unfold waitUntilFinished
  rw [pollStatus_lost H lMaxRetry k lMaxRetry 1 false false w hk
    (by unfold lMaxRetry; omega) hpre hl]

theorem waitUntilFinished_done (H : Hardware σ) (ack idle : Bool) (w : World σ) (k : Nat)
    (hk : k < 20)
    (hpre : ∀ j, j < k → statusAt H j w &&& 32 = 0 ∧ statusAt H j w &&& 2 ≠ 0)
    (hl : statusAt H k w &&& 32 = 0) (ht : statusAt H k w &&& 2 = 0) :
    waitUntilFinished H ack idle w =
      (if ack && (statusAt H k w &&& 128 != 0) then
          Result.raised I2CException.I2CNoAcknowledgeReceived
        else if idle && (statusAt H k w &&& 64 != 0) then
          Result.raised I2CException.I2CTransferFinishedBusStillBusy
        else Result.ok (), polled H (k + 1) w) := by
  unfold waitUntilFinished
  rw [pollStatus_done H lMaxRetry k lMaxRetry 1 false false w hk
    (by unfold lMaxRetry; omega) hpre hl ht]
  have h1 : ¬ (1 + k > lMaxRetry) := by unfold lMaxRetry; omega
  simp [checkFinished, h1]

theorem waitUntilFinished_exhausted (H : Hardware σ) (ack idle : Bool) (w : World σ)
    (hpre : ∀ j, j < 20 → statusAt H j w &&& 32 = 0 ∧ statusAt H j w &&& 2 ≠ 0) :
    waitUntilFinished H ack idle w =
      (Result.raised I2CException.I2CTransactionTimeout, polled H 20 w) := by
  unfold waitUntilFinished
  obtain ⟨a1, b1, h⟩ := pollStatus_exhausted H lMaxRetry lMaxRetry 1 false false w
    (by unfold lMaxRetry; omega) hpre
  rw [h]
  simp [checkFinished, lMaxRetry]

/-! ## The status-stream bus -/

theorem statusBus_pollRound (s : Nat → Nat) (w : World Nat) (hq : w.queue = []) :
    pollRound (statusBus s) w =
      { hw := w.hw + 1, queue := [], valid := [s w.hw],
        trace := w.trace ++ pollEvents (s w.hw) } := by
  simp [pollRound, dispatch, read, usleep, hq, Hardware.run, statusBus, kStatusNode,
    pollEvents, got]

theorem statusBus_statusAt (s : Nat → Nat) :
    ∀ (j : Nat) (w : World Nat), w.queue = [] → statusAt (statusBus s) j w = s (w.hw + j) := by
  intro j
  induction j with
  | zero =>
    intro w hq
    simp [statusAt, statusBus_pollRound s w hq, ValWord.value, read, usleep, hq]
  | succ j ih =>
    intro w hq
    have h := ih (pollRound (statusBus s) w) (by rw [statusBus_pollRound s w hq])
    rw [statusBus_pollRound s w hq] at h
    simp only [statusAt]
    rw [statusBus_pollRound s w hq, h]
    simp only []
    congr 1
    omega

theorem statusBus_polled (s : Nat → Nat) :
    ∀ (k : Nat) (w : World Nat), w.queue = [] →
      (polled (statusBus s) k w).hw = w.hw + k ∧
      (polled (statusBus s) k w).trace = w.trace ++ pollTrace s w.hw k ∧
      (polled (statusBus s) k w).queue = [] := by
  intro k
  induction k with
  | zero =>
    intro w hq
    simp [polled, pollTrace, hq]
  | succ k ih =>
    intro w hq
    have h := ih (pollRound (statusBus s) w) (by rw [statusBus_pollRound s w hq])
    rw [statusBus_pollRound s w hq] at h
    simp only [polled, pollTrace]
    rw [statusBus_pollRound s w hq]
    simp only [] at h
    refine ⟨?_, ?_, h.2.2⟩
    · rw [h.1]; omega
    · rw [h.2.1]; simp

theorem sentOf_append (t u : List Event) : sentOf (t ++ u) = sentOf t ++ sentOf u := by
  induction t with
  | nil => rfl
  | cons e t ih =>
    cases e <;> simp [sentOf, ih]

theorem statusLog_append (t u : List Event) : statusLog (t ++ u) = statusLog t ++ statusLog u := by
  simp [statusLog, sentOf_append]

theorem busLog_append (t u : List Event) : busLog (t ++ u) = busLog t ++ busLog u := by
  simp [busLog, sentOf_append]

theorem statusLog_pollTrace (s : Nat → Nat) :
    ∀ (k n : Nat), statusLog (pollTrace s n k) = (List.range k).map (fun j => s (n + j)) := by
  intro k
  induction k with
  | zero => intro n; rfl
  | succ k ih =>
    intro n
    rw [pollTrace, statusLog_append, ih (n + 1), List.range_succ_eq_map]
    simp [statusLog, sentOf, pollEvents, got, kStatusNode, Nat.add_assoc, Nat.add_comm 1]

theorem busLog_pollTrace (s : Nat → Nat) :
    ∀ (k n : Nat), busLog (pollTrace s n k) = [] := by
  intro k
  induction k with
  | zero => intro n; rfl
  | succ k ih =>
    intro n
    rw [pollTrace, busLog_append, ih (n + 1)]
    simp [busLog, sentOf, pollEvents, got, kStatusNode]

/-- Outcome of `waitUntilFinished` on the status stream `s` when the first `k`
words keep the loop going and word `k` has the arbitration lost. -/
theorem statusBus_wait_lost (s : Nat → Nat) (ack idle : Bool) (k : Nat) (hk : k < 20)
    (hpre : ∀ j, j < k → s j &&& 32 = 0 ∧ s j &&& 2 ≠ 0) (hl : s k &&& 32 ≠ 0) :
    waitUntilFinished (statusBus s) ack idle (World.init 0) =
      (Result.raised I2CException.I2CBusArbitrationLost,
        polled (statusBus s) (k + 1) (World.init 0)) := by
  apply waitUntilFinished_lost (statusBus s) ack idle (World.init 0) k hk
  · intro j hj
    rw [statusBus_statusAt s j (World.init 0) rfl]
    simpa [World.init] using hpre j hj
  · rw [statusBus_statusAt s k (World.init 0) rfl]
    simpa [World.init] using hl

theorem statusBus_wait_done (s : Nat → Nat) (ack idle : Bool) (k : Nat) (hk : k < 20)
    (hpre : ∀ j, j < k → s j &&& 32 = 0 ∧ s j &&& 2 ≠ 0)
    (hl : s k &&& 32 = 0) (ht : s k &&& 2 = 0) :
    waitUntilFinished (statusBus s) ack idle (World.init 0) =
      (if ack && (s k &&& 128 != 0) then
          Result.raised I2CException.I2CNoAcknowledgeReceived
        else if idle && (s k &&& 64 != 0) then
          Result.raised I2CException.I2CTransferFinishedBusStillBusy
        else Result.ok (), polled (statusBus s) (k + 1) (World.init 0)) := by
  have h := waitUntilFinished_done (statusBus s) ack idle (World.init 0) k hk
    (by
      intro j hj
      rw [statusBus_statusAt s j (World.init 0) rfl]
      simpa [World.init] using hpre j hj)
    (by
      rw [statusBus_statusAt s k (World.init 0) rfl]
      simpa [World.init] using hl)
    (by
      rw [statusBus_statusAt s k (World.init 0) rfl]
      simpa [World.init] using ht)
  rw [statusBus_statusAt s k (World.init 0) rfl] at h
  simpa [World.init] using h

theorem statusBus_wait_exhausted (s : Nat → Nat) (ack idle : Bool)
    (hpre : ∀ j, j < 20 → s j &&& 32 = 0 ∧ s j &&& 2 ≠ 0) :
    waitUntilFinished (statusBus s) ack idle (World.init 0) =
      (Result.raised I2CException.I2CTransactionTimeout,
        polled (statusBus s) 20 (World.init 0)) := by
  apply waitUntilFinished_exhausted (statusBus s) ack idle (World.init 0)
  intro j hj
  rw [statusBus_statusAt s j (World.init 0) rfl]
  simpa [World.init] using hpre j hj

/-- The world after `k` polls of the status stream from the initial world. -/
theorem statusBus_polled_init (s : Nat → Nat) (k : Nat) :
    (polled (statusBus s) k (World.init 0)).hw = k ∧
    (polled (statusBus s) k (World.init 0)).trace = pollTrace s 0 k ∧
    statusLog (polled (statusBus s) k (World.init 0)).trace = (List.range k).map s := by
  have h := statusBus_polled s k (World.init 0) rfl
  have h1 : (polled (statusBus s) k (World.init 0)).trace = pollTrace s 0 k := by
    simpa [World.init] using h.2.1
  refine ⟨by simpa [World.init] using h.1, h1, ?_⟩
  rw [h1, statusLog_pollTrace]
  simp

/-- The first index at which a status stream stops keeping the loop going is
unique. -/
theorem decisive_unique (P : Nat → Prop) (k k1 : Nat)
    (hpre : ∀ j, j < k → P j) (hnot : ¬ P k)
    (hpre1 : ∀ j, j < k1 → P j) (hnot1 : ¬ P k1) : k1 = k := by
  rcases Nat.lt_trichotomy k1 k with h | h | h
  · exact absurd (hpre k1 h) hnot1
  · exact h
  · exact absurd (hpre1 k h) hnot

/-! ## Claims on `waitUntilFinished` -/

/-- C4: on every stream of status words `s` and for both flags, if the polls
before poll `k+1` (`k < 20`) read words with the transfer in progress and no
arbitration loss, and the word of poll `k+1` has the arbitration-lost bit
(0x20) set, whatever its other bits, `waitUntilFinished` throws
`I2CBusArbitrationLost` and has made exactly `k+1` status reads: the trace is
that of `k+1` polls and the device has answered `s 0 .. s k` and nothing more. -/
theorem C4_arbitration_lost_immediate (s : Nat → Nat)
    (aRequireAcknowledgement aRequireBusIdleAtEnd : Bool) (k : Nat) (hk : k < 20)
    (hbefore : ∀ j, j < k → s j &&& 0x20 = 0 ∧ s j &&& 0x02 ≠ 0)
    (hlost : s k &&& 0x20 ≠ 0) :
    (waitUntilFinished (statusBus s) aRequireAcknowledgement aRequireBusIdleAtEnd
        (World.init 0)).1 = Result.raised I2CException.I2CBusArbitrationLost ∧
    (waitUntilFinished (statusBus s) aRequireAcknowledgement aRequireBusIdleAtEnd
        (World.init 0)).2.trace = pollTrace s 0 (k + 1) ∧
    statusLog (waitUntilFinished (statusBus s) aRequireAcknowledgement aRequireBusIdleAtEnd
        (World.init 0)).2.trace = (List.range (k + 1)).map s ∧
    (waitUntilFinished (statusBus s) aRequireAcknowledgement aRequireBusIdleAtEnd
        (World.init 0)).2.hw = k + 1 := by
  rw [statusBus_wait_lost s _ _ k hk hbefore hlost]
  have h := statusBus_polled_init s (k + 1)
  exact ⟨rfl, h.2.1, h.2.2, h.1⟩

/-- Witness of C4: transfer in progress on attempts 1 and 2, arbitration lost
on attempt 3 of 20: three status reads. -/
theorem C4_arbitration_lost_immediate_witness :
    (2 < 20 ∧
      (∀ j, j < 2 → (fun n => if n < 2 then 0x02 else 0x20) j &&& 0x20 = 0 ∧
        (fun n => if n < 2 then 0x02 else 0x20) j &&& 0x02 ≠ 0) ∧
      (fun n => if n < 2 then 0x02 else 0x20) 2 &&& 0x20 ≠ 0) ∧
    ((waitUntilFinished (statusBus (fun n => if n < 2 then 0x02 else 0x20)) true true
        (World.init 0)).1 = Result.raised I2CException.I2CBusArbitrationLost ∧
    (waitUntilFinished (statusBus (fun n => if n < 2 then 0x02 else 0x20)) true true
        (World.init 0)).2.trace = pollTrace (fun n => if n < 2 then 0x02 else 0x20) 0 (2 + 1) ∧
    statusLog (waitUntilFinished (statusBus (fun n => if n < 2 then 0x02 else 0x20)) true true
        (World.init 0)).2.trace =
      (List.range (2 + 1)).map (fun n => if n < 2 then 0x02 else 0x20) ∧
    (waitUntilFinished (statusBus (fun n => if n < 2 then 0x02 else 0x20)) true true
        (World.init 0)).2.hw = 2 + 1) :=
  ⟨⟨by decide, by decide, by decide⟩,
    C4_arbitration_lost_immediate (fun n => if n < 2 then 0x02 else 0x20) true true 2
      (by decide) (by decide) (by decide)⟩

/-- C5, as stated, fails: on `lostOnLastAttempt` the transfer-in-progress bit
is set in the status word read on each of the 20 attempts, all 20 reads are made,
and `waitUntilFinished` throws `I2CBusArbitrationLost`, not
`I2CTransactionTimeout`. -/
theorem C5_timeout_counterexample :
    (∀ j, j < 20 → lostOnLastAttempt j &&& 0x02 ≠ 0) ∧
    statusLog (waitUntilFinished (statusBus lostOnLastAttempt) true true
        (World.init 0)).2.trace = (List.range 20).map lostOnLastAttempt ∧
    (waitUntilFinished (statusBus lostOnLastAttempt) true true (World.init 0)).1 =
      Result.raised I2CException.I2CBusArbitrationLost ∧
    (waitUntilFinished (statusBus lostOnLastAttempt) true true (World.init 0)).1 ≠
      Result.raised I2CException.I2CTransactionTimeout := by
  have h := statusBus_wait_lost lostOnLastAttempt true true 19 (by decide)
    (by decide) (by decide)
  rw [h]
  exact ⟨by decide, (statusBus_polled_init lostOnLastAttempt 20).2.2, rfl, by decide⟩

/-- C5 amended: `waitUntilFinished` throws `I2CTransactionTimeout` exactly when
the status word read on each of the 20 attempts has the transfer-in-progress bit
(0x02) set and the arbitration-lost bit (0x20) clear, whatever the received-ack
and busy bits and the two flags are; and when the bit 0x02 is first clear at
attempt `k+1 <= 20`, after words with transfer in progress and no arbitration
loss, the loop ends at that attempt (`k+1` status reads) without a timeout. -/
theorem C5_timeout_iff (s : Nat → Nat) (aRequireAcknowledgement aRequireBusIdleAtEnd : Bool) :
    ((waitUntilFinished (statusBus s) aRequireAcknowledgement aRequireBusIdleAtEnd
        (World.init 0)).1 = Result.raised I2CException.I2CTransactionTimeout ↔
      ∀ j, j < 20 → s j &&& 0x02 ≠ 0 ∧ s j &&& 0x20 = 0) ∧
    (∀ k, k < 20 → (∀ j, j < k → s j &&& 0x02 ≠ 0 ∧ s j &&& 0x20 = 0) → s k &&& 0x02 = 0 →
      (waitUntilFinished (statusBus s) aRequireAcknowledgement aRequireBusIdleAtEnd
        (World.init 0)).1 ≠ Result.raised I2CException.I2CTransactionTimeout ∧
      statusLog (waitUntilFinished (statusBus s) aRequireAcknowledgement aRequireBusIdleAtEnd
        (World.init 0)).2.trace = (List.range (k + 1)).map s) := by
  have key : ∀ k, k < 20 → (∀ j, j < k → s j &&& 32 = 0 ∧ s j &&& 2 ≠ 0) →
      ¬ (s k &&& 32 = 0 ∧ s k &&& 2 ≠ 0) →
      (waitUntilFinished (statusBus s) aRequireAcknowledgement aRequireBusIdleAtEnd
        (World.init 0)).1 ≠ Result.raised I2CException.I2CTransactionTimeout ∧
      statusLog (waitUntilFinished (statusBus s) aRequireAcknowledgement aRequireBusIdleAtEnd
        (World.init 0)).2.trace = (List.range (k + 1)).map s := by
    intro k hk hpre hnot
    by_cases hl : s k &&& 32 = 0
    · have ht : s k &&& 2 = 0 := by
        by_contra h
        exact hnot ⟨hl, h⟩
      rw [statusBus_wait_done s _ _ k hk hpre hl ht]
      refine ⟨?_, (statusBus_polled_init s (k + 1)).2.2⟩
      simp only []
      split_ifs <;> simp
    · rw [statusBus_wait_lost s _ _ k hk hpre hl]
      exact ⟨by simp, (statusBus_polled_init s (k + 1)).2.2⟩
  constructor
  · constructor
    · intro h
      rcases first_decisive (fun j => s j &&& 32 = 0 ∧ s j &&& 2 ≠ 0) 20 with hall | ⟨k, hk, hpre, hnot⟩
      · intro j hj
        exact ⟨(hall j hj).2, (hall j hj).1⟩
      · exact absurd h (key k hk hpre hnot).1
    · intro hall
      rw [statusBus_wait_exhausted s _ _ (fun j hj => ⟨(hall j hj).2, (hall j hj).1⟩)]
  · intro k hk hpre ht
    exact key k hk (fun j hj => ⟨(hpre j hj).2, (hpre j hj).1⟩) (fun h => h.2 ht)

/-- C6: `waitUntilFinished` throws `I2CNoAcknowledgeReceived` if and only if
acknowledgment was required and the loop ended at some attempt `k+1 <= 20` whose
status word has transfer-in-progress (0x02) and arbitration-lost (0x20) clear and
the received-ack bit (0x80) set, the words before it having kept the loop going.
So it is never thrown when acknowledgment was not required, and never in place of
`I2CBusArbitrationLost` or `I2CTransactionTimeout`; the word tested is the last
one read (`k+1` status reads were made). -/
theorem C6_no_acknowledge_iff (s : Nat → Nat)
    (aRequireAcknowledgement aRequireBusIdleAtEnd : Bool) :
    ((waitUntilFinished (statusBus s) aRequireAcknowledgement aRequireBusIdleAtEnd
        (World.init 0)).1 = Result.raised I2CException.I2CNoAcknowledgeReceived ↔
      aRequireAcknowledgement = true ∧
      ∃ k, k < 20 ∧ (∀ j, j < k → s j &&& 0x02 ≠ 0 ∧ s j &&& 0x20 = 0) ∧
        s k &&& 0x02 = 0 ∧ s k &&& 0x20 = 0 ∧ s k &&& 0x80 ≠ 0) ∧
    (∀ k, k < 20 → (∀ j, j < k → s j &&& 0x02 ≠ 0 ∧ s j &&& 0x20 = 0) →
      s k &&& 0x02 = 0 → s k &&& 0x20 = 0 →
      statusLog (waitUntilFinished (statusBus s) aRequireAcknowledgement aRequireBusIdleAtEnd
        (World.init 0)).2.trace = (List.range (k + 1)).map s) := by
  constructor
  · constructor
    · intro h
      rcases first_decisive (fun j => s j &&& 32 = 0 ∧ s j &&& 2 ≠ 0) 20 with
        hall | ⟨k, hk, hpre, hnot⟩
      · rw [statusBus_wait_exhausted s _ _ hall] at h
        simp at h
      · by_cases hl : s k &&& 32 = 0
        · have ht : s k &&& 2 = 0 := by
            by_contra h2
            exact hnot ⟨hl, h2⟩
          rw [statusBus_wait_done s _ _ k hk hpre hl ht] at h
          simp only [] at h
          split_ifs at h with h1 h2
          · simp only [Bool.and_eq_true, bne_iff_ne, ne_eq] at h1
            exact ⟨h1.1, k, hk, fun j hj => ⟨(hpre j hj).2, (hpre j hj).1⟩, ht, hl, h1.2⟩
          · simp at h
        · rw [statusBus_wait_lost s _ _ k hk hpre hl] at h
          simp at h
    · rintro ⟨hack, k, hk, hpre, ht, hl, hn⟩
      rw [statusBus_wait_done s _ _ k hk (fun j hj => ⟨(hpre j hj).2, (hpre j hj).1⟩) hl ht]
      simp [hack, hn]
  · intro k hk hpre ht hl
    rw [statusBus_wait_done s _ _ k hk (fun j hj => ⟨(hpre j hj).2, (hpre j hj).1⟩) hl ht]
    exact (statusBus_polled_init s (k + 1)).2.2

/-- C7: `waitUntilFinished` throws `I2CTransferFinishedBusStillBusy` if and only
if the loop ended at some attempt `k+1 <= 20` whose status word has
transfer-in-progress (0x02) and arbitration-lost (0x20) clear, the
acknowledgment check did not fail (not required, or bit 0x80 clear),
bus-idle-at-end was required and the busy bit (0x40) of that word is set; when
both checks are violated the throw is `I2CNoAcknowledgeReceived`. -/
theorem C7_bus_still_busy_iff (s : Nat → Nat)
    (aRequireAcknowledgement aRequireBusIdleAtEnd : Bool) :
    ((waitUntilFinished (statusBus s) aRequireAcknowledgement aRequireBusIdleAtEnd
        (World.init 0)).1 = Result.raised I2CException.I2CTransferFinishedBusStillBusy ↔
      ∃ k, k < 20 ∧ (∀ j, j < k → s j &&& 0x02 ≠ 0 ∧ s j &&& 0x20 = 0) ∧
        s k &&& 0x02 = 0 ∧ s k &&& 0x20 = 0 ∧
        (aRequireAcknowledgement = false ∨ s k &&& 0x80 = 0) ∧
        aRequireBusIdleAtEnd = true ∧ s k &&& 0x40 ≠ 0) ∧
    (∀ k, k < 20 → (∀ j, j < k → s j &&& 0x02 ≠ 0 ∧ s j &&& 0x20 = 0) →
      s k &&& 0x02 = 0 → s k &&& 0x20 = 0 →
      aRequireAcknowledgement = true → s k &&& 0x80 ≠ 0 →
      aRequireBusIdleAtEnd = true → s k &&& 0x40 ≠ 0 →
      (waitUntilFinished (statusBus s) aRequireAcknowledgement aRequireBusIdleAtEnd
        (World.init 0)).1 = Result.raised I2CException.I2CNoAcknowledgeReceived) := by
  constructor
  · constructor
    · intro h
      rcases first_decisive (fun j => s j &&& 32 = 0 ∧ s j &&& 2 ≠ 0) 20 with
        hall | ⟨k, hk, hpre, hnot⟩
      · rw [statusBus_wait_exhausted s _ _ hall] at h
        simp at h
      · by_cases hl : s k &&& 32 = 0
        · have ht : s k &&& 2 = 0 := by
            by_contra h2
            exact hnot ⟨hl, h2⟩
          rw [statusBus_wait_done s _ _ k hk hpre hl ht] at h
          simp only [] at h
          split_ifs at h with h1 h2
          · simp at h
          · simp only [Bool.and_eq_true, bne_iff_ne, ne_eq] at h1 h2
            refine ⟨k, hk, fun j hj => ⟨(hpre j hj).2, (hpre j hj).1⟩, ht, hl, ?_, h2.1, h2.2⟩
            by_cases ha : aRequireAcknowledgement = true
            · right
              by_contra h3
              exact h1 ⟨ha, h3⟩
            · left
              simpa using ha
        · rw [statusBus_wait_lost s _ _ k hk hpre hl] at h
          simp at h
    · rintro ⟨k, hk, hpre, ht, hl, hack, hidle, hb⟩
      rw [statusBus_wait_done s _ _ k hk (fun j hj => ⟨(hpre j hj).2, (hpre j hj).1⟩) hl ht]
      rcases hack with hack | hack <;> simp [hack, hidle, hb]
  · intro k hk hpre ht hl hack hn _ _
    rw [statusBus_wait_done s _ _ k hk (fun j hj => ⟨(hpre j hj).2, (hpre j hj).1⟩) hl ht]
    simp [hack, hn]

/-! ## reset -/

/-- The world `reset` leaves when the prescale differs (any device). -/
theorem reset_full (H : Hardware σ) (m : I2CMasterNode) (w : World σ) (hq : w.queue = [])
    (hne : m.mClockPrescale ≠ latchedPrescale H w.hw) :
    reset H m w =
      { hw := H.poke kCtrlNode 0x80
          (H.poke kCmdNode 0 (H.poke kTxNode 0
            (H.poke kPreLoNode (m.mClockPrescale &&& 0xff)
              (H.poke kPreHiNode ((m.mClockPrescale &&& 0xff00) >>> 8)
                (H.poke kCtrlNode 0 (afterResetReads H w.hw)))))),
        queue := [],
        valid := [0x80],
        trace := w.trace ++ resetReads H w.hw ++
          [Event.enqueue (Access.write kCtrlNode 0x00),
           Event.dispatch [wrote kCtrlNode 0x00],
           Event.enqueue (Access.write kPreHiNode ((m.mClockPrescale &&& 0xff00) >>> 8)),
           Event.enqueue (Access.write kPreLoNode (m.mClockPrescale &&& 0xff)),
           Event.enqueue (Access.write kTxNode 0x00),
           Event.enqueue (Access.write kCmdNode 0x00),
           Event.dispatch [wrote kPreHiNode ((m.mClockPrescale &&& 0xff00) >>> 8),
             wrote kPreLoNode (m.mClockPrescale &&& 0xff), wrote kTxNode 0x00,
             wrote kCmdNode 0x00],
           Event.enqueue (Access.write kCtrlNode 0x80),
           Event.dispatch [wrote kCtrlNode 0x80]] } := by
  unfold latchedPrescale at hne
  simp [reset, read, write, dispatch, ValWord.value, hq, Hardware.run, hne, resetReads,
    afterResetReads, got, wrote]

/-- The world `reset` leaves when the prescale matches (any device). -/
theorem reset_light (H : Hardware σ) (m : I2CMasterNode) (w : World σ) (hq : w.queue = [])
    (heq : m.mClockPrescale = latchedPrescale H w.hw) :
    reset H m w =
      { hw := H.poke kCmdNode 0 (H.poke kTxNode 0 (afterResetReads H w.hw)),
        queue := [],
        valid := [0, 0],
        trace := w.trace ++ resetReads H w.hw ++
          [Event.enqueue (Access.write kTxNode 0x00),
           Event.enqueue (Access.write kCmdNode 0x00),
           Event.dispatch [wrote kTxNode 0x00, wrote kCmdNode 0x00]] } := by
  unfold latchedPrescale at heq
  simp [reset, read, write, dispatch, ValWord.value, hq, Hardware.run, heq, resetReads,
    afterResetReads, got, wrote]

/-- C8: for every device state and every configured prescale, `reset` queues a
write to the control or a prescale register (the full reset) if and only if the
configured prescale differs from the latched value `(ps_hi << 8) + ps_lo` (32-bit
unsigned) read at its start; the events it adds are those of the full reset in
that case and those of the light reset (data and command zeroed) otherwise. -/
theorem C8_full_reset_iff (H : Hardware σ) (m : I2CMasterNode) (w : World σ)
    (hq : w.queue = []) :
    (writesControlOrPrescale ((reset H m w).trace.drop w.trace.length) = true ↔
      m.mClockPrescale ≠ latchedPrescale H w.hw) ∧
    (m.mClockPrescale ≠ latchedPrescale H w.hw →
      (reset H m w).trace = w.trace ++ resetReads H w.hw ++
        [Event.enqueue (Access.write kCtrlNode 0x00),
         Event.dispatch [wrote kCtrlNode 0x00],
         Event.enqueue (Access.write kPreHiNode ((m.mClockPrescale &&& 0xff00) >>> 8)),
         Event.enqueue (Access.write kPreLoNode (m.mClockPrescale &&& 0xff)),
         Event.enqueue (Access.write kTxNode 0x00),
         Event.enqueue (Access.write kCmdNode 0x00),
         Event.dispatch [wrote kPreHiNode ((m.mClockPrescale &&& 0xff00) >>> 8),
           wrote kPreLoNode (m.mClockPrescale &&& 0xff), wrote kTxNode 0x00,
           wrote kCmdNode 0x00],
         Event.enqueue (Access.write kCtrlNode 0x80),
         Event.dispatch [wrote kCtrlNode 0x80]]) ∧
    (m.mClockPrescale = latchedPrescale H w.hw →
      (reset H m w).trace = w.trace ++ resetReads H w.hw ++
        [Event.enqueue (Access.write kTxNode 0x00),
         Event.enqueue (Access.write kCmdNode 0x00),
         Event.dispatch [wrote kTxNode 0x00, wrote kCmdNode 0x00]]) := by
  refine ⟨?_, fun hne => by rw [reset_full H m w hq hne], fun heq => by rw [reset_light H m w hq heq]⟩
  by_cases h : m.mClockPrescale = latchedPrescale H w.hw
  · rw [reset_light H m w hq h]
    simp [h, writesControlOrPrescale, resetReads, kTxNode, kCmdNode, kCtrlNode, kPreHiNode,
      kPreLoNode]
  · rw [reset_full H m w hq h]
    simp [h, writesControlOrPrescale, resetReads, kTxNode, kCmdNode, kCtrlNode, kPreHiNode,
      kPreLoNode]

/-- Witness of C8: a register file holding zeros and the prescale 0x40 of the
constructor. -/
theorem C8_full_reset_iff_witness :
    (World.init (fun _ : Reg => 0)).queue = [] ∧
    ((writesControlOrPrescale ((reset regFile ⟨0x40⟩ (World.init (fun _ : Reg => 0))).trace.drop
        (World.init (fun _ : Reg => 0)).trace.length) = true ↔
      (⟨0x40⟩ : I2CMasterNode).mClockPrescale ≠ latchedPrescale regFile
        (World.init (fun _ : Reg => 0)).hw)) :=
  ⟨rfl, (C8_full_reset_iff regFile ⟨0x40⟩ (World.init (fun _ : Reg => 0)) rfl).1⟩

/-- C9, as stated, fails: on a register file holding zeros with the prescale
0x40, the full reset queues the two prescale writes and the data and command
writes together and one dispatch sends the four of them; the write steps are
followed by three dispatches, not four. -/
theorem C9_commit_counterexample :
    (reset regFile ⟨0x40⟩ (World.init (fun _ : Reg => 0))).trace =
      [Event.enqueue (Access.read Reg.ctrl), Event.enqueue (Access.read Reg.ps_hi),
       Event.enqueue (Access.read Reg.ps_lo),
       Event.dispatch [got Reg.ctrl 0, got Reg.ps_hi 0, got Reg.ps_lo 0],
       Event.enqueue (Access.write Reg.ctrl 0x00),
       Event.dispatch [wrote Reg.ctrl 0x00],
       Event.enqueue (Access.write Reg.ps_hi 0x00),
       Event.enqueue (Access.write Reg.ps_lo 0x40),
       Event.enqueue (Access.write Reg.data 0x00),
       Event.enqueue (Access.write Reg.cmd_stat 0x00),
       Event.dispatch [wrote Reg.ps_hi 0x00, wrote Reg.ps_lo 0x40, wrote Reg.data 0x00,
         wrote Reg.cmd_stat 0x00],
       Event.enqueue (Access.write Reg.ctrl 0x80),
       Event.dispatch [wrote Reg.ctrl 0x80]] ∧
    dispatchCount ((reset regFile ⟨0x40⟩ (World.init (fun _ : Reg => 0))).trace.drop 4) = 3 ∧
    dispatchCount ((reset regFile ⟨0x40⟩ (World.init (fun _ : Reg => 0))).trace.drop 4) ≠ 4 := by
  refine ⟨by decide, by decide, by decide⟩

/-- C9 amended: when the latched prescale differs from the configured prescale
`P`, `reset` queues, after its reads, control := 0x00 and dispatches it alone;
then ps_hi := (P & 0xFF00) >> 8, ps_lo := P & 0xFF, data := 0 and command := 0,
which one dispatch sends together in this order; then control := 0x80 with its
own dispatch: three dispatches for the writes. -/
theorem C9_full_reset_order (H : Hardware σ) (m : I2CMasterNode) (w : World σ)
    (hq : w.queue = []) (hdiff : m.mClockPrescale ≠ latchedPrescale H w.hw) :
    (reset H m w).trace = w.trace ++ resetReads H w.hw ++
      [Event.enqueue (Access.write kCtrlNode 0x00),
       Event.dispatch [wrote kCtrlNode 0x00],
       Event.enqueue (Access.write kPreHiNode ((m.mClockPrescale &&& 0xff00) >>> 8)),
       Event.enqueue (Access.write kPreLoNode (m.mClockPrescale &&& 0xff)),
       Event.enqueue (Access.write kTxNode 0x00),
       Event.enqueue (Access.write kCmdNode 0x00),
       Event.dispatch [wrote kPreHiNode ((m.mClockPrescale &&& 0xff00) >>> 8),
         wrote kPreLoNode (m.mClockPrescale &&& 0xff), wrote kTxNode 0x00,
         wrote kCmdNode 0x00],
       Event.enqueue (Access.write kCtrlNode 0x80),
       Event.dispatch [wrote kCtrlNode 0x80]] ∧
    dispatchCount ((reset H m w).trace.drop (w.trace.length + 4)) = 3 ∧
    (reset H m w).queue = [] := by
  rw [reset_full H m w hq hdiff]
  refine ⟨rfl, ?_, rfl⟩
  simp [resetReads, dispatchCount, List.drop_append]

/-- Witness of C9 amended: a register file holding zeros, prescale 0x40. -/
theorem C9_full_reset_order_witness :
    ((World.init (fun _ : Reg => 0)).queue = [] ∧
      (⟨0x40⟩ : I2CMasterNode).mClockPrescale ≠
        latchedPrescale regFile (World.init (fun _ : Reg => 0)).hw) ∧
    dispatchCount ((reset regFile ⟨0x40⟩ (World.init (fun _ : Reg => 0))).trace.drop
      ((World.init (fun _ : Reg => 0)).trace.length + 4)) = 3 :=
  ⟨⟨rfl, by decide⟩,
    (C9_full_reset_order regFile ⟨0x40⟩ (World.init (fun _ : Reg => 0)) rfl (by decide)).2.1⟩

/-- C10: when the latched prescale equals the configured one, `reset` queues,
after its three reads, only data := 0 and command := 0 and sends them with one
dispatch, so the device receives these two writes and no other; on a register
file (each register reads back the last value written) the control, prescale-high
and prescale-low registers hold what they held before, and data and command
hold 0. -/
theorem C10_light_reset_frame :
    (∀ (τ : Type) (H : Hardware τ) (m : I2CMasterNode) (w : World τ), w.queue = [] →
      m.mClockPrescale = latchedPrescale H w.hw →
      (reset H m w).trace = w.trace ++ resetReads H w.hw ++
        [Event.enqueue (Access.write kTxNode 0x00),
         Event.enqueue (Access.write kCmdNode 0x00),
         Event.dispatch [wrote kTxNode 0x00, wrote kCmdNode 0x00]] ∧
      (reset H m w).hw = H.poke kCmdNode 0 (H.poke kTxNode 0 (afterResetReads H w.hw)) ∧
      writesControlOrPrescale ((reset H m w).trace.drop w.trace.length) = false) ∧
    (∀ (m : I2CMasterNode) (w : World (Reg → Nat)), w.queue = [] →
      m.mClockPrescale = ((w.hw Reg.ps_hi <<< 8) + w.hw Reg.ps_lo) % 4294967296 →
      (reset regFile m w).hw Reg.ctrl = w.hw Reg.ctrl ∧
      (reset regFile m w).hw Reg.ps_hi = w.hw Reg.ps_hi ∧
      (reset regFile m w).hw Reg.ps_lo = w.hw Reg.ps_lo ∧
      (reset regFile m w).hw Reg.data = 0 ∧
      (reset regFile m w).hw Reg.cmd_stat = 0) := by
  constructor
  · intro τ H m w hq hsame
    rw [reset_light H m w hq hsame]
    refine ⟨rfl, rfl, ?_⟩
    simp [writesControlOrPrescale, resetReads, kTxNode, kCmdNode, kCtrlNode, kPreHiNode,
      kPreLoNode]
  · intro m w hq hsame
    have h : m.mClockPrescale = latchedPrescale regFile w.hw := by
      rw [hsame]
      rfl
    rw [reset_light regFile m w hq h]
    simp [regFile, afterResetReads, kTxNode, kCmdNode, kCtrlNode, kPreHiNode, kPreLoNode]

/-- Witness of C10: a register file whose prescale registers hold 0x00 and 0x40
and whose control register holds 0x80, with the prescale 0x40 configured. -/
theorem C10_light_reset_frame_witness :
    ((World.init (fun r : Reg => if r = Reg.ps_lo then 0x40 else if r = Reg.ctrl then 0x80
        else 0)).queue = [] ∧
      (⟨0x40⟩ : I2CMasterNode).mClockPrescale =
        (((fun r : Reg => if r = Reg.ps_lo then 0x40 else if r = Reg.ctrl then 0x80 else 0)
          Reg.ps_hi <<< 8) +
          (fun r : Reg => if r = Reg.ps_lo then 0x40 else if r = Reg.ctrl then 0x80 else 0)
            Reg.ps_lo) % 4294967296) ∧
    (reset regFile ⟨0x40⟩ (World.init (fun r : Reg => if r = Reg.ps_lo then 0x40
        else if r = Reg.ctrl then 0x80 else 0))).hw Reg.ctrl = 0x80 :=
  ⟨⟨rfl, by decide⟩,
    (C10_light_reset_frame.2 ⟨0x40⟩ (World.init (fun r : Reg => if r = Reg.ps_lo then 0x40
        else if r = Reg.ctrl then 0x80 else 0)) rfl (by decide)).1⟩

/-! ## Single commands on any device -/

theorem pollRound_eq (H : Hardware σ) (w : World σ) (hq : w.queue = []) :
    pollRound H w =
      { hw := (H.peek kStatusNode w.hw).2, queue := [],
        valid := [(H.peek kStatusNode w.hw).1],
        trace := w.trace ++ pollEvents (H.peek kStatusNode w.hw).1 } := by
  simp [pollRound, dispatch, read, usleep, hq, Hardware.run, pollEvents, got]

theorem statusAt_zero (H : Hardware σ) (w : World σ) (hq : w.queue = []) :
    statusAt H 0 w = (H.peek kStatusNode w.hw).1 := by
  simp [statusAt, pollRound_eq H w hq, ValWord.value, read, usleep, hq]

theorem busLog_pollEvents (v : Nat) : busLog (pollEvents v) = [] := by
  simp [busLog, sentOf, pollEvents, got]

/-- Polling adds to the trace nothing but polls of the status register, and
leaves the queue empty. -/
theorem polled_spec (H : Hardware σ) :
    ∀ (k : Nat) (w : World σ), w.queue = [] →
      (polled H k w).queue = [] ∧
      ∃ rest, (polled H k w).trace = w.trace ++ rest ∧ busLog rest = [] := by
  intro k
  induction k with
  | zero =>
    intro w hq
    exact ⟨hq, [], by simp [polled], rfl⟩
  | succ k ih =>
    intro w hq
    have h := ih (pollRound H w) (by rw [pollRound_eq H w hq])
    obtain ⟨h1, rest, h2, h3⟩ := h
    refine ⟨h1, pollEvents (H.peek kStatusNode w.hw).1 ++ rest, ?_, ?_⟩
    · simp only [polled]
      rw [h2, pollRound_eq H w hq]
      simp
    · rw [busLog_append, busLog_pollEvents, h3]
      rfl

/-- The world the poll loop leaves is the world after some number of polls. -/
theorem pollStatus_world (H : Hardware σ) (M : Nat) :
    ∀ (fuel att : Nat) (a b : Bool) (w : World σ),
      ∃ k, (pollStatus H M fuel att a b w).2 = polled H k w := by
  intro fuel
  induction fuel with
  | zero =>
    intro att a b w
    exact ⟨0, rfl⟩
  | succ f ih =>
    intro att a b w
    rw [pollStatus_succ]
    split_ifs
    · exact ⟨1, rfl⟩
    · exact ⟨1, rfl⟩
    · obtain ⟨k, hk⟩ := ih (att + 1) (!(statusAt H 0 w &&& kReceivedAckBit != 0))
        (statusAt H 0 w &&& kBusyBit != 0) (pollRound H w)
      exact ⟨k + 1, by rw [hk]; rfl⟩
    · exact ⟨0, rfl⟩

theorem waitUntilFinished_world (H : Hardware σ) (ack idle : Bool) (w : World σ) :
    ∃ k, (waitUntilFinished H ack idle w).2 = polled H k w := by
  obtain ⟨k, hk⟩ := pollStatus_world H lMaxRetry lMaxRetry 1 false false w
  refine ⟨k, ?_⟩
  unfold waitUntilFinished
  rw [← hk]
  rcases hp : pollStatus H lMaxRetry lMaxRetry 1 false false w with ⟨r, w1⟩
  cases r with
  | ok v => rfl
  | raised e => rfl
  | assertFailed => rfl

/-- The wait adds to the trace nothing but polls of the status register. -/
theorem waitUntilFinished_spec (H : Hardware σ) (ack idle : Bool) (w : World σ)
    (hq : w.queue = []) :
    (waitUntilFinished H ack idle w).2.queue = [] ∧
    ∃ rest, (waitUntilFinished H ack idle w).2.trace = w.trace ++ rest ∧ busLog rest = [] := by
  obtain ⟨k, hk⟩ := waitUntilFinished_world H ack idle w
  rw [hk]
  exact polled_spec H k w hq

/-- The wait never ends with a failed assertion. -/
theorem waitUntilFinished_no_abort (H : Hardware σ) (ack idle : Bool) (w : World σ) :
    (waitUntilFinished H ack idle w).1 ≠ Result.assertFailed := by
  have h : ∀ (fuel att : Nat) (a b : Bool) (w : World σ),
      (pollStatus H lMaxRetry fuel att a b w).1 ≠ Result.assertFailed := by
    intro fuel
    induction fuel with
    | zero => intro att a b w; simp [pollStatus]
    | succ f ih =>
      intro att a b w
      rw [pollStatus_succ]
      split_ifs
      · simp
      · simp
      · exact ih _ _ _ _
      · simp
  have h1 := h lMaxRetry 1 false false w
  unfold waitUntilFinished
  rcases hp : pollStatus H lMaxRetry lMaxRetry 1 false false w with ⟨r, w1⟩
  rw [hp] at h1
  cases r with
  | ok v =>
    simp only [checkFinished]
    split_ifs <;> simp
  | raised e => simp
  | assertFailed => exact absurd rfl h1

/-- What one call of `sendI2CCommandAndWriteData` sends to the device, whatever
its outcome: the data byte, then the command with the write flag. -/
theorem sendWrite_spec (H : Hardware σ) (aCmd aData : Nat) (w : World σ)
    (hq : w.queue = []) (hc : aCmd &&& kReadFromSlaveCmd = 0) :
    (sendI2CCommandAndWriteData H aCmd aData w).2.queue = [] ∧
    ∃ rest, (sendI2CCommandAndWriteData H aCmd aData w).2.trace = w.trace ++ rest ∧
      busLog rest = [wrote kTxNode aData, wrote kCmdNode (aCmd ||| kWriteToSlaveCmd)] := by
  have hw4 : (dispatch H (write kCmdNode (aCmd ||| kWriteToSlaveCmd)
      (dispatch H (write kTxNode aData w)))).trace =
      w.trace ++ [Event.enqueue (Access.write kTxNode aData),
        Event.dispatch [wrote kTxNode aData],
        Event.enqueue (Access.write kCmdNode (aCmd ||| kWriteToSlaveCmd)),
        Event.dispatch [wrote kCmdNode (aCmd ||| kWriteToSlaveCmd)]] := by
    simp [dispatch, write, hq, Hardware.run, wrote]
  obtain ⟨h1, rest, h2, h3⟩ := waitUntilFinished_spec H true (aCmd &&& kStopCmd != 0)
    (dispatch H (write kCmdNode (aCmd ||| kWriteToSlaveCmd)
      (dispatch H (write kTxNode aData w)))) rfl
  simp only [sendI2CCommandAndWriteData, hc, bne_self_eq_false, Bool.false_eq_true, if_false]
  refine ⟨h1, _, by rw [h2, hw4, List.append_assoc], ?_⟩
  rw [busLog_append, h3]
  simp [busLog, sentOf, wrote, kTxNode, kCmdNode, kStatusNode]

/-- What one successful call of `sendI2CCommandAndReadData` sends to the device
and returns: the command with the read flag, then a read of the data register,
whose low byte is the result. -/
theorem sendRead_spec (H : Hardware σ) (aCmd : Nat) (w : World σ)
    (hq : w.queue = []) (hc : aCmd &&& kWriteToSlaveCmd = 0) :
    (sendI2CCommandAndReadData H aCmd w).2.queue = [] ∧
    ∃ rest, (sendI2CCommandAndReadData H aCmd w).2.trace = w.trace ++ rest ∧
      ∀ b, (sendI2CCommandAndReadData H aCmd w).1 = Result.ok b →
        ∃ d, b = d &&& 0xff ∧
          busLog rest = [wrote kCmdNode (aCmd ||| kReadFromSlaveCmd), got kRxNode d] := by
  have hw2 : (dispatch H (write kCmdNode (aCmd ||| kReadFromSlaveCmd) w)).trace =
      w.trace ++ [Event.enqueue (Access.write kCmdNode (aCmd ||| kReadFromSlaveCmd)),
        Event.dispatch [wrote kCmdNode (aCmd ||| kReadFromSlaveCmd)]] := by
    simp [dispatch, write, hq, Hardware.run, wrote]
  obtain ⟨h1, rest, h2, h3⟩ := waitUntilFinished_spec H false (aCmd &&& kStopCmd != 0)
    (dispatch H (write kCmdNode (aCmd ||| kReadFromSlaveCmd) w)) rfl
  simp only [sendI2CCommandAndReadData, hc, bne_self_eq_false, Bool.false_eq_true, if_false]
  rcases hp : waitUntilFinished H false (aCmd &&& kStopCmd != 0)
    (dispatch H (write kCmdNode (aCmd ||| kReadFromSlaveCmd) w)) with ⟨r, w3⟩
  rw [hp] at h1 h2
  simp only [] at h1 h2
  cases r with
  | ok u =>
    simp only []
    refine ⟨rfl, [Event.enqueue (Access.write kCmdNode (aCmd ||| kReadFromSlaveCmd)),
        Event.dispatch [wrote kCmdNode (aCmd ||| kReadFromSlaveCmd)]] ++ rest ++
        [Event.enqueue (Access.read kRxNode),
         Event.dispatch [got kRxNode (H.peek kRxNode w3.hw).1]], ?_, ?_⟩
    · simp [dispatch, read, write, hq, h1, h2, Hardware.run, got, wrote]
    · intro b hb
      refine ⟨(H.peek kRxNode w3.hw).1, ?_, ?_⟩
      · simp [dispatch, read, h1, Hardware.run, ValWord.value] at hb
        exact hb.symm
      · rw [busLog_append, busLog_append, h3]
        simp [busLog, sentOf, wrote, got, kRxNode, kCmdNode, kStatusNode]
  | raised e =>
    simp only []
    exact ⟨h1, _, by rw [h2, hw2, List.append_assoc], fun b hb => by simp at hb⟩
  | assertFailed =>
    simp only []
    exact ⟨h1, _, by rw [h2, hw2, List.append_assoc], fun b hb => by simp at hb⟩

/-! ## The block loops on any device -/

theorem writeBytes_succ (H : Hardware σ) (aArray : List Nat) (stop : Bool) (fuel iByte : Nat)
    (w : World σ) (h : iByte < aArray.length) :
    writeBytes H aArray stop (fuel + 1) iByte w =
      match sendI2CCommandAndWriteData H
        (if (iByte == (aArray.length + 18446744073709551616 - 1) % 18446744073709551616)
            && stop then kStopCmd else 0x0) aArray[iByte] w with
      | (Result.ok _, w1) => writeBytes H aArray stop fuel ((iByte + 1) % 4294967296) w1
      | (Result.raised e, w1) => (Result.raised e, w1)
      | (Result.assertFailed, w1) => (Result.assertFailed, w1) := by
  simp only [writeBytes, h, dite_true]

theorem writeBytes_spec (H : Hardware σ) (stop : Bool) :
    ∀ (suf pre : List Nat) (w : World σ), w.queue = [] →
      (pre ++ suf).length < 4294967296 →
      (writeBytes H (pre ++ suf) stop suf.length pre.length w).1 = Result.ok () →
      (writeBytes H (pre ++ suf) stop suf.length pre.length w).2.queue = [] ∧
      ∃ rest, (writeBytes H (pre ++ suf) stop suf.length pre.length w).2.trace =
          w.trace ++ rest ∧ busLog rest = writeXfers stop suf := by
  intro suf
  induction suf with
  | nil =>
    intro pre w hq _ _
    refine ⟨hq, [], ?_, rfl⟩
    rw [List.append_nil, List.append_nil]
    rfl
  | cons x t ih =>
    intro pre w hq hlen hok
    have hlt : pre.length < (pre ++ x :: t).length := by
      rw [List.length_append, List.length_cons]
      omega
    have hx : (pre ++ x :: t)[pre.length] = x := by
      rw [List.getElem_append_right (Nat.le_refl _)]
      simp
    have hsz : ((pre ++ x :: t).length + 18446744073709551616 - 1) % 18446744073709551616
        = pre.length + t.length := by
      simp only [List.length_append, List.length_cons] at hlen ⊢
      omega
    have hnext : (pre.length + 1) % 4294967296 = (pre ++ [x]).length := by
      simp only [List.length_append, List.length_cons, List.length_nil] at hlen ⊢
      omega
    have hsplit : pre ++ x :: t = (pre ++ [x]) ++ t := by simp
    simp only [List.length_cons] at hok ⊢
    rw [writeBytes_succ H _ stop _ _ w hlt] at hok ⊢
    rw [hx, hsz] at hok ⊢
    have hcmd : (if (pre.length == pre.length + t.length) && stop then kStopCmd else 0x0)
        &&& kReadFromSlaveCmd = 0 := by
      split_ifs <;> decide
    obtain ⟨h1, rest1, h2, h3⟩ := sendWrite_spec H _ x w hq hcmd
    rcases hp : sendI2CCommandAndWriteData H
      (if (pre.length == pre.length + t.length) && stop then kStopCmd else 0x0) x w with ⟨r, w1⟩
    rw [hp] at hok h1 h2
    cases r with
    | ok u =>
      simp only [] at hok h1 h2 ⊢
      rw [hnext] at hok ⊢
      rw [hsplit] at hok hlen ⊢
      obtain ⟨g1, rest2, g2, g3⟩ := ih (pre ++ [x]) w1 h1 hlen hok
      refine ⟨g1, rest1 ++ rest2, by rw [g2, h2, List.append_assoc], ?_⟩
      rw [busLog_append, h3, g3]
      cases t with
      | nil =>
        cases stop <;> simp [writeXfers, kStopCmd, kWriteToSlaveCmd]
      | cons y t2 =>
        have hne : ¬ (pre.length = pre.length + (y :: t2).length) := by
          simp only [List.length_cons]
          omega
        simp [writeXfers, hne, kWriteToSlaveCmd]
    | raised e => simp at hok
    | assertFailed => simp at hok

theorem readBytes_succ (H : Hardware σ) (n fuel iByte : Nat) (acc : List Nat) (w : World σ)
    (h : iByte < n) :
    readBytes H n (fuel + 1) iByte acc w =
      match sendI2CCommandAndReadData H
        (if iByte == (n + 4294967296 - 1) % 4294967296 then kStopCmd ||| kAckCmd else 0x0) w with
      | (Result.ok b, w1) =>
        readBytes H n fuel ((iByte + 1) % 4294967296) (acc ++ [b]) w1
      | (Result.raised e, w1) => (Result.raised e, w1)
      | (Result.assertFailed, w1) => (Result.assertFailed, w1) := by
  simp only [readBytes, h, if_true]

theorem readBytes_spec (H : Hardware σ) (n : Nat) (hn : n < 4294967296) :
    ∀ (fuel iByte : Nat) (acc : List Nat) (w : World σ), w.queue = [] → iByte + fuel = n →
      ∀ bytes, (readBytes H n fuel iByte acc w).1 = Result.ok bytes →
        (readBytes H n fuel iByte acc w).2.queue = [] ∧
        ∃ rest d, (readBytes H n fuel iByte acc w).2.trace = w.trace ++ rest ∧
          d.length = fuel ∧ bytes = acc ++ d.map (fun x => x &&& 0xff) ∧
          busLog rest = readXfers d := by
  intro fuel
  induction fuel with
  | zero =>
    intro iByte acc w hq _ bytes hok
    simp only [readBytes] at hok ⊢
    refine ⟨hq, [], [], by simp, rfl, ?_, rfl⟩
    simp only [Result.ok.injEq] at hok
    simp [hok]
  | succ f ih =>
    intro iByte acc w hq hsum bytes hok
    have hlt : iByte < n := by omega
    have hsz : (n + 4294967296 - 1) % 4294967296 = iByte + f := by omega
    have hnext : (iByte + 1) % 4294967296 = iByte + 1 := by omega
    rw [readBytes_succ H n f iByte acc w hlt] at hok ⊢
    rw [hsz, hnext] at hok ⊢
    have hcmd : (if iByte == iByte + f then kStopCmd ||| kAckCmd else 0x0)
        &&& kWriteToSlaveCmd = 0 := by
      split_ifs <;> decide
    obtain ⟨h1, rest1, h2, h3⟩ := sendRead_spec H _ w hq hcmd
    rcases hp : sendI2CCommandAndReadData H
      (if iByte == iByte + f then kStopCmd ||| kAckCmd else 0x0) w with ⟨r, w1⟩
    rw [hp] at hok h1 h2 h3
    cases r with
    | ok b =>
      simp only [] at hok h1 h2 h3 ⊢
      obtain ⟨d0, hb, hlog⟩ := h3 b rfl
      obtain ⟨g1, rest2, d1, g2, g3, g4, g5⟩ := ih (iByte + 1) (acc ++ [b]) w1 h1 (by omega)
        bytes hok
      refine ⟨g1, rest1 ++ rest2, d0 :: d1, by rw [g2, h2, List.append_assoc], by simp [g3], ?_,
        ?_⟩
      · rw [g4, hb]
        simp
      · rw [busLog_append, hlog, g5]
        cases d1 with
        | nil =>
          have hf : f = 0 := by simpa using g3.symm
          subst hf
          simp [readXfers, kStopCmd, kAckCmd, kReadFromSlaveCmd]
        | cons y t2 =>
          have hne : ¬ (iByte = iByte + f) := by
            simp only [List.length_cons] at g3
            omega
          simp [readXfers, hne, kReadFromSlaveCmd]
    | raised e => simp at hok
    | assertFailed => simp at hok

/-- For an array shorter than 2^32, more fuel than the bytes that remain changes
nothing: the bound on the iterations never cuts the write loop short. -/
theorem writeBytes_fuel (H : Hardware σ) (aArray : List Nat) (stop : Bool)
    (hlen : aArray.length < 4294967296) :
    ∀ (fuel extra iByte : Nat) (w : World σ), iByte + fuel = aArray.length →
      writeBytes H aArray stop (fuel + extra) iByte w = writeBytes H aArray stop fuel iByte w := by
  intro fuel
  induction fuel with
  | zero =>
    intro extra iByte w hsum
    cases extra with
    | zero => rfl
    | succ e =>
      have h1 : ¬ iByte < aArray.length := by omega
      have h2 : 0 + (e + 1) = e + 1 := by omega
      rw [h2]
      simp only [writeBytes, h1, dite_false]
  | succ f ih =>
    intro extra iByte w hsum
    have h1 : iByte < aArray.length := by omega
    have h2 : f + 1 + extra = (f + extra) + 1 := by omega
    have h3 : (iByte + 1) % 4294967296 = iByte + 1 := by omega
    rw [h2, writeBytes_succ H aArray stop _ iByte w h1, writeBytes_succ H aArray stop _ iByte w h1]
    rcases sendI2CCommandAndWriteData H
      (if (iByte == (aArray.length + 18446744073709551616 - 1) % 18446744073709551616)
          && stop then kStopCmd else 0x0) aArray[iByte] w with ⟨r, w1⟩
    cases r with
    | ok u =>
      simp only []
      rw [h3]
      exact ih extra (iByte + 1) w1 (by omega)
    | raised e => rfl
    | assertFailed => rfl

/-- More fuel than the bytes that remain changes nothing: the bound on the
iterations never cuts the read loop short. -/
theorem readBytes_fuel (H : Hardware σ) (n : Nat) (hn : n < 4294967296) :
    ∀ (fuel extra iByte : Nat) (acc : List Nat) (w : World σ), iByte + fuel = n →
      readBytes H n (fuel + extra) iByte acc w = readBytes H n fuel iByte acc w := by
  intro fuel
  induction fuel with
  | zero =>
    intro extra iByte acc w hsum
    cases extra with
    | zero => rfl
    | succ e =>
      have h1 : ¬ iByte < n := by omega
      have h2 : 0 + (e + 1) = e + 1 := by omega
      rw [h2]
      simp only [readBytes, h1, if_false]
  | succ f ih =>
    intro extra iByte acc w hsum
    have h1 : iByte < n := by omega
    have h2 : f + 1 + extra = (f + extra) + 1 := by omega
    have h3 : (iByte + 1) % 4294967296 = iByte + 1 := by omega
    rw [h2, readBytes_succ H n _ iByte acc w h1, readBytes_succ H n _ iByte acc w h1]
    rcases sendI2CCommandAndReadData H
      (if iByte == (n + 4294967296 - 1) % 4294967296 then kStopCmd ||| kAckCmd else 0x0) w
      with ⟨r, w1⟩
    cases r with
    | ok b =>
      simp only []
      rw [h3]
      exact ih extra (iByte + 1) (acc ++ [b]) w1 (by omega)
    | raised e => rfl
    | assertFailed => rfl

theorem readXfers_concat :
    ∀ (front : List Nat) (last : Nat),
      readXfers (front ++ [last]) =
        front.flatMap (fun d => [wrote kCmdNode 0x20, got kRxNode d]) ++
          [wrote kCmdNode 0x68, got kRxNode last] := by
  intro front
  induction front with
  | nil => intro last; rfl
  | cons x t ih =>
    intro last
    cases t with
    | nil => simp [readXfers, List.flatMap]
    | cons y t2 =>
      have h := ih last
      simp only [List.cons_append] at h ⊢
      simp only [readXfers]
      rw [h]
      simp [List.flatMap]

theorem reset_queue (H : Hardware σ) (m : I2CMasterNode) (w : World σ) :
    (reset H m w).queue = [] := by
  unfold reset
  simp only []
  split_ifs <;> rfl

theorem and_fe_mod (x : Nat) : (x &&& 0xfe) % 256 = x &&& 0xfe := by
  have h : x &&& 0xfe ≤ 0xfe := Nat.and_le_right
  omega

/-! ## Claims on the block transfers -/

/-- C2: for every slave address `a` and every count `n` with `1 <= n < 2^32`,
on any device and from any world, when `readBlockI2C` returns normally (every
completion wait succeeded) its trace is that of `reset` followed by events that
send to the device, polls of the status register apart, exactly: data
`((a << 1) | 0x01) mod 256` with command 0x90; then `n - 1` times the command
0x20 followed by a read of the data register; then the command 0x68 followed by
a read of the data register.  The result has exactly `n` bytes, the i-th being
the low 8 bits of the word the i-th of these reads returned. -/
theorem C2_readBlockI2C_sequence (H : Hardware σ) (m : I2CMasterNode) (a n : Nat)
    (w : World σ) (hn1 : 1 ≤ n) (hn : n < 4294967296) (bytes : List Nat)
    (hok : (readBlockI2C H m a n w).1 = Result.ok bytes) :
    ∃ rest front last,
      (readBlockI2C H m a n w).2.trace = (reset H m w).trace ++ rest ∧
      front.length + 1 = n ∧
      bytes.length = n ∧
      bytes = (front ++ [last]).map (fun d => d &&& 0xFF) ∧
      busLog rest =
        [wrote Reg.data (((a <<< 1) ||| 0x01) % 256), wrote Reg.cmd_stat 0x90] ++
          front.flatMap (fun d => [wrote Reg.cmd_stat 0x20, got Reg.data d]) ++
          [wrote Reg.cmd_stat 0x68, got Reg.data last] := by
  unfold readBlockI2C at hok ⊢
  simp only [] at hok ⊢
  obtain ⟨h1, rest1, h2, h3⟩ := sendWrite_spec H kStartCmd (((a <<< 1) ||| 0x01) % 256)
    (reset H m w) (reset_queue H m w) (by decide)
  rcases hp : sendI2CCommandAndWriteData H kStartCmd (((a <<< 1) ||| 0x01) % 256) (reset H m w)
    with ⟨r, w2⟩
  rw [hp] at hok h1 h2
  cases r with
  | ok u =>
    simp only [] at hok h1 h2 ⊢
    obtain ⟨_, rest2, d, g2, g3, g4, g5⟩ :=
      readBytes_spec H n hn n 0 [] w2 h1 (by omega) bytes hok
    have hd : d ≠ [] := by
      intro h
      rw [h] at g3
      simp at g3
      omega
    obtain ⟨front, last, hfl⟩ : ∃ front last, d = front ++ [last] :=
      ⟨d.dropLast, d.getLast hd, (List.dropLast_append_getLast hd).symm⟩
    subst hfl
    refine ⟨rest1 ++ rest2, front, last, by rw [g2, h2, List.append_assoc], ?_, ?_, ?_, ?_⟩
    · simpa using g3
    · rw [g4]
      simpa using g3
    · simpa using g4
    · rw [busLog_append, h3, g5, readXfers_concat]
      simp [kTxNode, kCmdNode, kRxNode, kStartCmd, kWriteToSlaveCmd]
  | raised e => simp at hok
  | assertFailed => simp at hok

/-- Witness of C2: three bytes read from address 0x55 on a bus whose registers
always read 0. -/
theorem C2_readBlockI2C_sequence_witness :
    (1 ≤ 3 ∧ 3 < 4294967296 ∧
      (readBlockI2C (statusBus (fun _ => 0)) ⟨0x40⟩ 0x55 3 (World.init 0)).1 =
        Result.ok [0, 0, 0]) ∧
    ∃ rest front last,
      (readBlockI2C (statusBus (fun _ => 0)) ⟨0x40⟩ 0x55 3 (World.init 0)).2.trace =
        (reset (statusBus (fun _ => 0)) ⟨0x40⟩ (World.init 0)).trace ++ rest ∧
      front.length + 1 = 3 ∧
      ([0, 0, 0] : List Nat).length = 3 ∧
      [0, 0, 0] = (front ++ [last]).map (fun d => d &&& 0xFF) ∧
      busLog rest =
        [wrote Reg.data (((0x55 <<< 1) ||| 0x01) % 256), wrote Reg.cmd_stat 0x90] ++
          front.flatMap (fun d => [wrote Reg.cmd_stat 0x20, got Reg.data d]) ++
          [wrote Reg.cmd_stat 0x68, got Reg.data last] :=
  ⟨⟨by decide, by decide, by decide⟩,
    C2_readBlockI2C_sequence (statusBus (fun _ => 0)) ⟨0x40⟩ 0x55 3 (World.init 0)
      (by decide) (by decide) [0, 0, 0] (by decide)⟩

/-! ## Commands that complete at the first poll -/

/-- A wait whose first status word shows the transfer finished, no arbitration
loss, and nothing the caller requires missing, returns after one poll. -/
theorem waitUntilFinished_ready (H : Hardware σ) (ack idle : Bool) (w : World σ)
    (hq : w.queue = [])
    (h32 : (H.peek kStatusNode w.hw).1 &&& 32 = 0)
    (h2 : (H.peek kStatusNode w.hw).1 &&& 2 = 0)
    (hack : ack = true → (H.peek kStatusNode w.hw).1 &&& 128 = 0)
    (hidle : idle = true → (H.peek kStatusNode w.hw).1 &&& 64 = 0) :
    waitUntilFinished H ack idle w = (Result.ok (), pollRound H w) := by
  have h0 := statusAt_zero H w hq
  rw [waitUntilFinished_done H ack idle w 0 (by decide)
    (fun j hj => absurd hj (Nat.not_lt_zero j)) (by rw [h0]; exact h32) (by rw [h0]; exact h2)]
  rw [h0]
  have e1 : (ack && ((H.peek kStatusNode w.hw).1 &&& 128 != 0)) = false := by
    cases ack with
    | false => rfl
    | true => simp [hack rfl]
  have e2 : (idle && ((H.peek kStatusNode w.hw).1 &&& 64 != 0)) = false := by
    cases idle with
    | false => rfl
    | true => simp [hidle rfl]
  simp only [e1, e2, Bool.false_eq_true, if_false]
  rfl

theorem sendWrite_ready (H : Hardware σ) (aCmd aData : Nat) (w : World σ)
    (hq : w.queue = []) (hc : aCmd &&& kReadFromSlaveCmd = 0)
    (h32 : (H.peek kStatusNode (H.poke kCmdNode (aCmd ||| kWriteToSlaveCmd)
      (H.poke kTxNode aData w.hw))).1 &&& 32 = 0)
    (h2 : (H.peek kStatusNode (H.poke kCmdNode (aCmd ||| kWriteToSlaveCmd)
      (H.poke kTxNode aData w.hw))).1 &&& 2 = 0)
    (hack : (H.peek kStatusNode (H.poke kCmdNode (aCmd ||| kWriteToSlaveCmd)
      (H.poke kTxNode aData w.hw))).1 &&& 128 = 0)
    (hidle : (aCmd &&& kStopCmd != 0) = true →
      (H.peek kStatusNode (H.poke kCmdNode (aCmd ||| kWriteToSlaveCmd)
        (H.poke kTxNode aData w.hw))).1 &&& 64 = 0) :
    (sendI2CCommandAndWriteData H aCmd aData w).1 = Result.ok () ∧
    (sendI2CCommandAndWriteData H aCmd aData w).2.hw =
      (H.peek kStatusNode (H.poke kCmdNode (aCmd ||| kWriteToSlaveCmd)
        (H.poke kTxNode aData w.hw))).2 ∧
    (sendI2CCommandAndWriteData H aCmd aData w).2.queue = [] := by
  have hhw : (dispatch H (write kCmdNode (aCmd ||| kWriteToSlaveCmd)
      (dispatch H (write kTxNode aData w)))).hw =
      H.poke kCmdNode (aCmd ||| kWriteToSlaveCmd) (H.poke kTxNode aData w.hw) := by
    simp [dispatch, write, hq, Hardware.run]
  simp only [sendI2CCommandAndWriteData, hc, bne_self_eq_false, Bool.false_eq_true, if_false]
  rw [waitUntilFinished_ready H true (aCmd &&& kStopCmd != 0) _ rfl
    (by rw [hhw]; exact h32) (by rw [hhw]; exact h2) (by intro _; rw [hhw]; exact hack)
    (by intro h; rw [hhw]; exact hidle h)]
  rw [pollRound_eq H _ rfl, hhw]
  exact ⟨rfl, rfl, rfl⟩

theorem sendRead_ready (H : Hardware σ) (aCmd : Nat) (w : World σ)
    (hq : w.queue = []) (hc : aCmd &&& kWriteToSlaveCmd = 0)
    (h32 : (H.peek kStatusNode (H.poke kCmdNode (aCmd ||| kReadFromSlaveCmd) w.hw)).1
      &&& 32 = 0)
    (h2 : (H.peek kStatusNode (H.poke kCmdNode (aCmd ||| kReadFromSlaveCmd) w.hw)).1
      &&& 2 = 0)
    (hidle : (aCmd &&& kStopCmd != 0) = true →
      (H.peek kStatusNode (H.poke kCmdNode (aCmd ||| kReadFromSlaveCmd) w.hw)).1 &&& 64 = 0) :
    (sendI2CCommandAndReadData H aCmd w).1 =
      Result.ok ((H.peek kRxNode (H.peek kStatusNode
        (H.poke kCmdNode (aCmd ||| kReadFromSlaveCmd) w.hw)).2).1 &&& 0xff) ∧
    (sendI2CCommandAndReadData H aCmd w).2.hw =
      (H.peek kRxNode (H.peek kStatusNode
        (H.poke kCmdNode (aCmd ||| kReadFromSlaveCmd) w.hw)).2).2 ∧
    (sendI2CCommandAndReadData H aCmd w).2.queue = [] := by
  have hhw : (dispatch H (write kCmdNode (aCmd ||| kReadFromSlaveCmd) w)).hw =
      H.poke kCmdNode (aCmd ||| kReadFromSlaveCmd) w.hw := by
    simp [dispatch, write, hq, Hardware.run]
  simp only [sendI2CCommandAndReadData, hc, bne_self_eq_false, Bool.false_eq_true, if_false]
  rw [waitUntilFinished_ready H false (aCmd &&& kStopCmd != 0) _ rfl
    (by rw [hhw]; exact h32) (by rw [hhw]; exact h2) (by intro h; simp at h)
    (by intro h; rw [hhw]; exact hidle h)]
  rw [pollRound_eq H _ rfl, hhw]
  simp [dispatch, read, Hardware.run, ValWord.value]

/-! ## The echoing slave -/

theorem addr_write_bits : ∀ A, A < 128 →
    (((A <<< 1) &&& 0xfe) % 256) >>> 1 = A ∧ (((A <<< 1) &&& 0xfe) % 256) &&& 1 = 0 := by
  decide

theorem addr_read_bits : ∀ A, A < 128 →
    (((A <<< 1) ||| 0x01) % 256) >>> 1 = A ∧ (((A <<< 1) ||| 0x01) % 256) &&& 1 = 1 := by
  decide

theorem byte_mask (b : Nat) (h : b < 256) : b &&& 0xff = b :=
  Nat.and_pow_two_sub_one_of_lt_two_pow (n := 8) h

/-- The start command with the write flag addresses the slave. -/
theorem echoCommand_start (A : Nat) (s : EchoState) :
    echoCommand A 144 s =
      { s with selected := s.txr >>> 1 == A,
               reading := s.txr &&& 1 != 0,
               store := if (s.txr >>> 1 == A) && !(s.txr &&& 1 != 0) then [] else s.store,
               unsent := if (s.txr >>> 1 == A) && (s.txr &&& 1 != 0) then s.store else [],
               status := (if s.txr >>> 1 == A then 0 else kReceivedAckBit) ||| kBusyBit } := by
  have e1 : (144 &&& 64 : Nat) = 0 := by decide
  have e2 : (144 &&& 16 : Nat) = 16 := by decide
  have e3 : (144 &&& 128 : Nat) = 128 := by decide
  simp [echoCommand, kStopCmd, kWriteToSlaveCmd, kStartCmd, e1, e2, e3]

/-- A data byte written to the selected slave is stored. -/
theorem echoCommand_write (A : Nat) (stop : Bool) (s : EchoState)
    (hsel : s.selected = true) (hdir : s.reading = false) :
    echoCommand A ((if stop then kStopCmd else 0x0) ||| kWriteToSlaveCmd) s =
      { s with store := s.store ++ [s.txr], selected := !stop,
               status := if stop then 0 else kBusyBit } := by
  have e1 : (16 &&& 64 : Nat) = 0 := by decide
  have e2 : (16 &&& 16 : Nat) = 16 := by decide
  have e3 : (16 &&& 128 : Nat) = 0 := by decide
  have e4 : (80 &&& 64 : Nat) = 64 := by decide
  have e5 : (80 &&& 16 : Nat) = 16 := by decide
  have e6 : (80 &&& 128 : Nat) = 0 := by decide
  cases stop <;>
    simp [echoCommand, kStopCmd, kWriteToSlaveCmd, kStartCmd, kBusyBit, hsel, hdir,
      e1, e2, e3, e4, e5, e6]

/-- A read command makes the selected slave send its next byte. -/
theorem echoCommand_read (A : Nat) (stop : Bool) (s : EchoState)
    (hsel : s.selected = true) (hdir : s.reading = true) :
    echoCommand A ((if stop then kStopCmd ||| kAckCmd else 0x0) ||| kReadFromSlaveCmd) s =
      { s with rxr := s.unsent.headD 0xff, unsent := s.unsent.tail, selected := !stop,
               status := if stop then 0 else kBusyBit } := by
  have e1 : (32 &&& 64 : Nat) = 0 := by decide
  have e2 : (32 &&& 16 : Nat) = 0 := by decide
  have e3 : (32 &&& 32 : Nat) = 32 := by decide
  have e4 : (104 &&& 64 : Nat) = 64 := by decide
  have e5 : (104 &&& 16 : Nat) = 0 := by decide
  have e6 : (104 &&& 32 : Nat) = 32 := by decide
  cases stop <;>
    simp [echoCommand, kStopCmd, kWriteToSlaveCmd, kReadFromSlaveCmd, kAckCmd, kBusyBit,
      hsel, hdir, e1, e2, e3, e4, e5, e6]

/-- On the echo bus `reset` leaves the queue empty and the slave's store as it
was. -/
theorem echo_reset (A : Nat) (m : I2CMasterNode) (w : World EchoState) (hq : w.queue = []) :
    (reset (echoBus A) m w).queue = [] ∧ (reset (echoBus A) m w).hw.store = w.hw.store := by
  have e1 : (0 &&& 16 : Nat) = 0 := by decide
  have e2 : (0 &&& 32 : Nat) = 0 := by decide
  refine ⟨reset_queue _ m w, ?_⟩
  by_cases h : m.mClockPrescale = latchedPrescale (echoBus A) w.hw
  · rw [reset_light _ m w hq h]
    simp [echoBus, afterResetReads, kTxNode, kCmdNode, kCtrlNode, kPreHiNode, kPreLoNode,
      echoCommand, kWriteToSlaveCmd, kReadFromSlaveCmd, e1, e2]
  · rw [reset_full _ m w hq h]
    simp [echoBus, afterResetReads, kTxNode, kCmdNode, kCtrlNode, kPreHiNode, kPreLoNode,
      echoCommand, kWriteToSlaveCmd, kReadFromSlaveCmd, e1, e2]

theorem echo_after_write (A c d : Nat) (s : EchoState) :
    (echoBus A).peek kStatusNode
      ((echoBus A).poke kCmdNode c ((echoBus A).poke kTxNode d s)) =
      ((echoCommand A c { s with txr := d }).status, echoCommand A c { s with txr := d }) := rfl

theorem echo_after_read (A c : Nat) (s : EchoState) :
    (echoBus A).peek kStatusNode ((echoBus A).poke kCmdNode c s) =
      ((echoCommand A c s).status, echoCommand A c s) := rfl

/-- Opening a transaction to the slave's own address succeeds and selects it,
in the direction given by bit 0 of the address byte `t`. -/
theorem echo_open (A t : Nat) (ht : t >>> 1 = A) (w : World EchoState) (hq : w.queue = []) :
    (sendI2CCommandAndWriteData (echoBus A) kStartCmd t w).1 = Result.ok () ∧
    (sendI2CCommandAndWriteData (echoBus A) kStartCmd t w).2.queue = [] ∧
    (sendI2CCommandAndWriteData (echoBus A) kStartCmd t w).2.hw =
      { w.hw with txr := t, selected := true, reading := t &&& 1 != 0,
                  store := if !(t &&& 1 != 0) then [] else w.hw.store,
                  unsent := if t &&& 1 != 0 then w.hw.store else [],
                  status := 64 } := by
  have hc : kStartCmd ||| kWriteToSlaveCmd = 144 := by decide
  have e1 : (64 &&& 32 : Nat) = 0 := by decide
  have e2 : (64 &&& 2 : Nat) = 0 := by decide
  have e3 : (64 &&& 128 : Nat) = 0 := by decide
  have hst : echoCommand A 144 { w.hw with txr := t } =
      { w.hw with txr := t, selected := true, reading := t &&& 1 != 0,
                  store := if !(t &&& 1 != 0) then [] else w.hw.store,
                  unsent := if t &&& 1 != 0 then w.hw.store else [],
                  status := 64 } := by
    rw [echoCommand_start]
    simp [ht, kBusyBit]
  have h := sendWrite_ready (echoBus A) kStartCmd t w hq (by decide)
    (by rw [echo_after_write, hc, hst]; exact e1)
    (by rw [echo_after_write, hc, hst]; exact e2)
    (by rw [echo_after_write, hc, hst]; exact e3)
    (by intro h; exact absurd h (by decide))
  rw [echo_after_write, hc, hst] at h
  exact ⟨h.1, h.2.2, h.2.1⟩

/-- A byte sent to the selected slave in a write transaction succeeds and is
appended to its store. -/
theorem echo_put (A : Nat) (stop : Bool) (x : Nat) (w : World EchoState) (hq : w.queue = [])
    (hsel : w.hw.selected = true) (hdir : w.hw.reading = false) :
    (sendI2CCommandAndWriteData (echoBus A) (if stop then kStopCmd else 0x0) x w).1 =
      Result.ok () ∧
    (sendI2CCommandAndWriteData (echoBus A) (if stop then kStopCmd else 0x0) x w).2.queue = [] ∧
    (sendI2CCommandAndWriteData (echoBus A) (if stop then kStopCmd else 0x0) x w).2.hw =
      { w.hw with txr := x, store := w.hw.store ++ [x], selected := !stop,
                  status := if stop then 0 else kBusyBit } := by
  have e1 : (64 &&& 32 : Nat) = 0 := by decide
  have e2 : (64 &&& 2 : Nat) = 0 := by decide
  have e3 : (64 &&& 128 : Nat) = 0 := by decide
  have hst := echoCommand_write A stop { w.hw with txr := x } hsel hdir
  have hread : (if stop then kStopCmd else 0x0) &&& kReadFromSlaveCmd = 0 := by
    cases stop <;> decide
  have h := sendWrite_ready (echoBus A) (if stop then kStopCmd else 0x0) x w hq hread
    (by rw [echo_after_write, hst]; cases stop <;> simp [kBusyBit, e1])
    (by rw [echo_after_write, hst]; cases stop <;> simp [kBusyBit, e2])
    (by rw [echo_after_write, hst]; cases stop <;> simp [kBusyBit, e3])
    (by
      intro h
      rw [echo_after_write, hst]
      cases stop with
      | false => exact absurd h (by decide)
      | true => simp)
  rw [echo_after_write, hst] at h
  exact ⟨h.1, h.2.2, h.2.1⟩

/-- A read command to the selected slave in a read transaction succeeds and
returns the next byte the slave has to send. -/
theorem echo_get (A : Nat) (stop : Bool) (w : World EchoState) (hq : w.queue = [])
    (hsel : w.hw.selected = true) (hdir : w.hw.reading = true) :
    (sendI2CCommandAndReadData (echoBus A) (if stop then kStopCmd ||| kAckCmd else 0x0) w).1 =
      Result.ok (w.hw.unsent.headD 0xff &&& 0xff) ∧
    (sendI2CCommandAndReadData (echoBus A)
      (if stop then kStopCmd ||| kAckCmd else 0x0) w).2.queue = [] ∧
    (sendI2CCommandAndReadData (echoBus A) (if stop then kStopCmd ||| kAckCmd else 0x0) w).2.hw =
      { w.hw with rxr := w.hw.unsent.headD 0xff, unsent := w.hw.unsent.tail,
                  selected := !stop, status := if stop then 0 else kBusyBit } := by
  have e1 : (64 &&& 32 : Nat) = 0 := by decide
  have e2 : (64 &&& 2 : Nat) = 0 := by decide
  have hst := echoCommand_read A stop w.hw hsel hdir
  have hwr : (if stop then kStopCmd ||| kAckCmd else 0x0) &&& kWriteToSlaveCmd = 0 := by
    cases stop <;> decide
  have h := sendRead_ready (echoBus A) (if stop then kStopCmd ||| kAckCmd else 0x0) w hq hwr
    (by rw [echo_after_read, hst]; cases stop <;> simp [kBusyBit, e1])
    (by rw [echo_after_read, hst]; cases stop <;> simp [kBusyBit, e2])
    (by
      intro h
      rw [echo_after_read, hst]
      cases stop with
      | false => exact absurd h (by decide)
      | true => simp)
  rw [echo_after_read, hst] at h
  exact ⟨h.1, h.2.2, h.2.1⟩

/-- The write loop on the echo bus: every byte is acknowledged and stored. -/
theorem echo_writeBytes (A : Nat) (stop : Bool) :
    ∀ (suf pre : List Nat) (w : World EchoState), w.queue = [] →
      (pre ++ suf).length < 4294967296 →
      w.hw.selected = true → w.hw.reading = false →
      (writeBytes (echoBus A) (pre ++ suf) stop suf.length pre.length w).1 = Result.ok () ∧
      (writeBytes (echoBus A) (pre ++ suf) stop suf.length pre.length w).2.queue = [] ∧
      (writeBytes (echoBus A) (pre ++ suf) stop suf.length pre.length w).2.hw.store =
        w.hw.store ++ suf := by
  intro suf
  induction suf with
  | nil =>
    intro pre w hq _ _ _
    rw [List.append_nil, List.append_nil]
    exact ⟨rfl, hq, rfl⟩
  | cons x t ih =>
    intro pre w hq hlen hsel hdir
    have hlt : pre.length < (pre ++ x :: t).length := by
      rw [List.length_append, List.length_cons]
      omega
    have hx : (pre ++ x :: t)[pre.length] = x := by
      rw [List.getElem_append_right (Nat.le_refl _)]
      simp
    have hsz : ((pre ++ x :: t).length + 18446744073709551616 - 1) % 18446744073709551616
        = pre.length + t.length := by
      simp only [List.length_append, List.length_cons] at hlen ⊢
      omega
    have hnext : (pre.length + 1) % 4294967296 = (pre ++ [x]).length := by
      simp only [List.length_append, List.length_cons, List.length_nil] at hlen ⊢
      omega
    have hsplit : pre ++ x :: t = (pre ++ [x]) ++ t := by simp
    simp only [List.length_cons]
    rw [writeBytes_succ (echoBus A) _ stop _ _ w hlt, hx, hsz]
    obtain ⟨p1, p2, p3⟩ := echo_put A ((pre.length == pre.length + t.length) && stop) x w hq
      hsel hdir
    rcases hp : sendI2CCommandAndWriteData (echoBus A)
      (if ((pre.length == pre.length + t.length) && stop) = true then kStopCmd else 0x0) x w
      with ⟨r, w1⟩
    rw [hp] at p1 p2 p3
    simp only [] at p1 p2 p3
    subst p1
    simp only []
    rw [hnext, hsplit]
    cases t with
    | nil =>
      simp only [List.length_nil, writeBytes]
      refine ⟨trivial, p2, ?_⟩
      rw [p3]
    | cons y t2 =>
      have hne : ((pre.length == pre.length + (y :: t2).length) && stop) = false := by
        have h1 : (pre.length == pre.length + (y :: t2).length) = false := by
          simp only [List.length_cons, beq_eq_false_iff_ne, ne_eq]
          omega
        rw [h1]
        rfl
      rw [hne] at p3
      rw [hsplit] at hlen
      obtain ⟨q1, q2, q3⟩ := ih (pre ++ [x]) w1 p2 hlen (by rw [p3]; rfl) (by rw [p3]; exact hdir)
      refine ⟨q1, q2, ?_⟩
      rw [q3, p3]
      simp

/-- The read loop on the echo bus: the slave sends back its unsent bytes in
order. -/
theorem echo_readBytes (A n : Nat) (hn : n < 4294967296) :
    ∀ (u : List Nat) (iByte : Nat) (acc : List Nat) (w : World EchoState), w.queue = [] →
      iByte + u.length = n → w.hw.selected = true → w.hw.reading = true →
      w.hw.unsent = u → (∀ b, b ∈ u → b < 256) →
      (readBytes (echoBus A) n u.length iByte acc w).1 = Result.ok (acc ++ u) := by
  intro u
  induction u with
  | nil =>
    intro iByte acc w _ _ _ _ _ _
    simp [readBytes]
  | cons x t ih =>
    intro iByte acc w hq hsum hsel hdir hun hbytes
    simp only [List.length_cons] at hsum ⊢
    have hlt : iByte < n := by omega
    have hsz : (n + 4294967296 - 1) % 4294967296 = iByte + t.length := by omega
    have hnext : (iByte + 1) % 4294967296 = iByte + 1 := by omega
    rw [readBytes_succ (echoBus A) n _ iByte acc w hlt, hsz, hnext]
    obtain ⟨p1, p2, p3⟩ := echo_get A (iByte == iByte + t.length) w hq hsel hdir
    rcases hp : sendI2CCommandAndReadData (echoBus A)
      (if (iByte == iByte + t.length) = true then kStopCmd ||| kAckCmd else 0x0) w with ⟨r, w1⟩
    rw [hp] at p1 p2 p3
    simp only [] at p1 p2 p3
    subst p1
    simp only []
    have hhead : w.hw.unsent.headD 0xff &&& 0xff = x := by
      rw [hun]
      exact byte_mask x (hbytes x (List.mem_cons_self x t))
    rw [hhead]
    cases t with
    | nil =>
      simp [readBytes]
    | cons y t2 =>
      have hne : (iByte == iByte + (y :: t2).length) = false := by
        simp only [List.length_cons, beq_eq_false_iff_ne, ne_eq]
        omega
      rw [hne] at p3
      have h := ih (iByte + 1) (acc ++ [x]) w1 p2 (by simp only [List.length_cons] at hsum ⊢; omega)
        (by rw [p3]; rfl) (by rw [p3]; exact hdir) (by rw [p3, hun]; rfl)
        (fun b hb => hbytes b (List.mem_cons_of_mem x hb))
      rw [h]
      simp

/-- On the echo bus a block write to the slave's address succeeds and leaves
the block in the slave's store. -/
theorem echo_writeBlock (A : Nat) (hA : A < 128) (B : List Nat) (hlen : B.length < 4294967296)
    (m : I2CMasterNode) (stop : Bool) (w : World EchoState) (hq : w.queue = []) :
    (writeBlockI2C (echoBus A) m A B stop w).1 = Result.ok () ∧
    (writeBlockI2C (echoBus A) m A B stop w).2.queue = [] ∧
    (writeBlockI2C (echoBus A) m A B stop w).2.hw.store = B := by
  obtain ⟨r1, _⟩ := echo_reset A m w hq
  obtain ⟨a1, a2⟩ := addr_write_bits A hA
  obtain ⟨p1, p2, p3⟩ := echo_open A (((A <<< 1) &&& 0xfe) % 256) a1 (reset (echoBus A) m w) r1
  unfold writeBlockI2C
  simp only []
  rcases hp : sendI2CCommandAndWriteData (echoBus A) kStartCmd (((A <<< 1) &&& 0xfe) % 256)
    (reset (echoBus A) m w) with ⟨r, w2⟩
  rw [hp] at p1 p2 p3
  simp only [] at p1 p2 p3
  subst p1
  simp only []
  rw [a2] at p3
  obtain ⟨q1, q2, q3⟩ := echo_writeBytes A stop B [] w2 p2 hlen (by rw [p3]) (by rw [p3]; rfl)
  refine ⟨q1, q2, ?_⟩
  have q3a : (writeBytes (echoBus A) B stop B.length 0 w2).2.hw.store = w2.hw.store ++ B := q3
  rw [q3a, p3]
  rfl

/-- On the echo bus a block read of as many bytes as the slave has stored
returns the store. -/
theorem echo_readBlock (A : Nat) (hA : A < 128) (B : List Nat) (hlen : B.length < 4294967296)
    (hbytes : ∀ b, b ∈ B → b < 256)
    (m : I2CMasterNode) (w : World EchoState) (hq : w.queue = []) (hst : w.hw.store = B) :
    (readBlockI2C (echoBus A) m A B.length w).1 = Result.ok B := by
  obtain ⟨r1, r2⟩ := echo_reset A m w hq
  obtain ⟨a1, a2⟩ := addr_read_bits A hA
  obtain ⟨p1, p2, p3⟩ := echo_open A (((A <<< 1) ||| 0x01) % 256) a1 (reset (echoBus A) m w) r1
  unfold readBlockI2C
  simp only []
  rcases hp : sendI2CCommandAndWriteData (echoBus A) kStartCmd (((A <<< 1) ||| 0x01) % 256)
    (reset (echoBus A) m w) with ⟨r, w2⟩
  rw [hp] at p1 p2 p3
  simp only [] at p1 p2 p3
  subst p1
  simp only []
  rw [a2, r2, hst] at p3
  have h := echo_readBytes A B.length hlen B 0 [] w2 p2 (by omega) (by rw [p3]) (by rw [p3]; rfl)
    (by rw [p3]; rfl) hbytes
  simpa using h

/-- C3: round trip.  For every 7-bit address `A`, every byte sequence `B`
(bytes below 256, length below 2^32, so in particular every length 1..K) and
either value of `aSendStop`, on the simulated bus whose slave at address `A`
echoes what was written to it, `writeBlockI2C(A, B)` returns normally and
`readBlockI2C(A, |B|)` run after it returns `B` unchanged. -/
theorem C3_round_trip (A : Nat) (hA : A < 128) (B : List Nat)
    (hlen : B.length < 4294967296) (hbytes : ∀ b, b ∈ B → b < 256)
    (m : I2CMasterNode) (aSendStop : Bool) (w : World EchoState) (hq : w.queue = []) :
    (writeBlockI2C (echoBus A) m A B aSendStop w).1 = Result.ok () ∧
    (readBlockI2C (echoBus A) m A B.length
      (writeBlockI2C (echoBus A) m A B aSendStop w).2).1 = Result.ok B := by
  obtain ⟨h1, h2, h3⟩ := echo_writeBlock A hA B hlen m aSendStop w hq
  exact ⟨h1, echo_readBlock A hA B hlen hbytes m _ h2 h3⟩

/-- Witness of C3: the bytes 1, 2, 3 written to and read back from the slave at
address 0x55. -/
theorem C3_round_trip_witness :
    (0x55 < 128 ∧ ([1, 2, 3] : List Nat).length < 4294967296 ∧
      (∀ b, b ∈ ([1, 2, 3] : List Nat) → b < 256) ∧
      (World.init (⟨0, 0, 0, 0, 0, 0, false, false, [], []⟩ : EchoState)).queue = []) ∧
    ((writeBlockI2C (echoBus 0x55) ⟨0x40⟩ 0x55 [1, 2, 3] true
        (World.init ⟨0, 0, 0, 0, 0, 0, false, false, [], []⟩)).1 = Result.ok () ∧
    (readBlockI2C (echoBus 0x55) ⟨0x40⟩ 0x55 ([1, 2, 3] : List Nat).length
      (writeBlockI2C (echoBus 0x55) ⟨0x40⟩ 0x55 [1, 2, 3] true
        (World.init ⟨0, 0, 0, 0, 0, 0, false, false, [], []⟩)).2).1 = Result.ok [1, 2, 3]) :=
  ⟨⟨by decide, by decide, by decide, rfl⟩,
    C3_round_trip 0x55 (by decide) [1, 2, 3] (by decide) (by decide) ⟨0x40⟩ true
      (World.init ⟨0, 0, 0, 0, 0, 0, false, false, [], []⟩) rfl⟩

/-! ## ping and scan on any device -/

theorem sendWrite_no_abort (H : Hardware σ) (aCmd aData : Nat) (w : World σ)
    (hc : aCmd &&& kReadFromSlaveCmd = 0) :
    (sendI2CCommandAndWriteData H aCmd aData w).1 ≠ Result.assertFailed := by
  simp only [sendI2CCommandAndWriteData, hc, bne_self_eq_false, Bool.false_eq_true, if_false]
  exact waitUntilFinished_no_abort H _ _ _

theorem sendRead_no_abort (H : Hardware σ) (aCmd : Nat) (w : World σ)
    (hc : aCmd &&& kWriteToSlaveCmd = 0) :
    (sendI2CCommandAndReadData H aCmd w).1 ≠ Result.assertFailed := by
  have h := waitUntilFinished_no_abort H false (aCmd &&& kStopCmd != 0)
    (dispatch H (write kCmdNode (aCmd ||| kReadFromSlaveCmd) w))
  simp only [sendI2CCommandAndReadData, hc, bne_self_eq_false, Bool.false_eq_true, if_false]
  rcases hp : waitUntilFinished H false (aCmd &&& kStopCmd != 0)
    (dispatch H (write kCmdNode (aCmd ||| kReadFromSlaveCmd) w)) with ⟨r, w3⟩
  rw [hp] at h
  cases r with
  | ok u => simp
  | raised e => simp
  | assertFailed => exact absurd rfl h

theorem start_no_read_flag : kStartCmd &&& kReadFromSlaveCmd = 0 := by decide

theorem stop_ack_no_write_flag : (kStopCmd ||| kAckCmd) &&& kWriteToSlaveCmd = 0 := by decide

/-- The probe leaves the queue empty. -/
theorem probeWorld_queue (H : Hardware σ) (a : Nat) (w : World σ) (hq : w.queue = []) :
    (probeWorld H a w).queue = [] := by
  have h1 := (sendWrite_spec H kStartCmd (((a <<< 1) ||| 0x01) % 256) w hq
    start_no_read_flag).1
  unfold probeWorld
  rcases hp : sendI2CCommandAndWriteData H kStartCmd (((a <<< 1) ||| 0x01) % 256) w
    with ⟨r, w1⟩
  rw [hp] at h1
  cases r with
  | ok u => exact (sendRead_spec H (kStopCmd ||| kAckCmd) w1 h1 stop_ack_no_write_flag).1
  | raised e => exact h1
  | assertFailed => exact h1

/-- What `ping` does after its reset is the probe. -/
theorem ping_eq (H : Hardware σ) (m : I2CMasterNode) (a : Nat) (w : World σ) :
    ping H m a w = (Result.ok (probeOk H a (reset H m w)), probeWorld H a (reset H m w)) := by
  have h1 := sendWrite_no_abort H kStartCmd (((a <<< 1) ||| 0x01) % 256) (reset H m w)
    start_no_read_flag
  unfold ping probeOk probeWorld
  simp only []
  rcases hp : sendI2CCommandAndWriteData H kStartCmd (((a <<< 1) ||| 0x01) % 256)
    (reset H m w) with ⟨r, w1⟩
  rw [hp] at h1
  cases r with
  | ok u =>
    have h2 := sendRead_no_abort H (kStopCmd ||| kAckCmd) w1 stop_ack_no_write_flag
    simp only []
    rcases hp2 : sendI2CCommandAndReadData H (kStopCmd ||| kAckCmd) w1 with ⟨r2, w2⟩
    rw [hp2] at h2
    cases r2 with
    | ok b => rfl
    | raised e => rfl
    | assertFailed => exact absurd rfl h2
  | raised e => rfl
  | assertFailed => exact absurd rfl h1

/-- One iteration of the loop of `scan` is the probe of `iAddr`. -/
theorem scanLoop_succ (H : Hardware σ) (fuel iAddr : Nat) (acc : List Nat) (w : World σ)
    (h : iAddr < 0x7f) :
    scanLoop H (fuel + 1) iAddr acc w =
      scanLoop H fuel (iAddr + 1) (if probeOk H iAddr w then acc ++ [iAddr] else acc)
        (probeWorld H iAddr w) := by
  have h1 := sendWrite_no_abort H kStartCmd (((iAddr <<< 1) ||| 0x01) % 256) w
    start_no_read_flag
  have hnext : (iAddr + 1) % 256 = iAddr + 1 := by omega
  simp only [scanLoop, h, if_true, hnext]
  unfold probeOk probeWorld
  rcases hp : sendI2CCommandAndWriteData H kStartCmd (((iAddr <<< 1) ||| 0x01) % 256) w
    with ⟨r, w1⟩
  rw [hp] at h1
  cases r with
  | ok u =>
    have h2 := sendRead_no_abort H (kStopCmd ||| kAckCmd) w1 stop_ack_no_write_flag
    simp only []
    obtain ⟨r2, w2, hp2⟩ : ∃ r2 w2,
        sendI2CCommandAndReadData H (kStopCmd ||| kAckCmd) w1 = (r2, w2) := ⟨_, _, rfl⟩
    rw [hp2] at h2
    simp only [hp2]
    cases r2 with
    | ok b => simp
    | raised e => simp
    | assertFailed => exact absurd rfl h2
  | raised e => simp
  | assertFailed => exact absurd rfl h1

/-- More fuel than the addresses that remain changes nothing: the bound on the
iterations never cuts the loop of `scan` short. -/
theorem scanLoop_fuel (H : Hardware σ) :
    ∀ (fuel extra iAddr : Nat) (acc : List Nat) (w : World σ), iAddr + fuel = 0x7f →
      scanLoop H (fuel + extra) iAddr acc w = scanLoop H fuel iAddr acc w := by
  intro fuel
  induction fuel with
  | zero =>
    intro extra iAddr acc w hsum
    cases extra with
    | zero => rfl
    | succ e =>
      have h1 : ¬ iAddr < 0x7f := by omega
      have h2 : 0 + (e + 1) = e + 1 := by omega
      rw [h2]
      simp only [scanLoop, h1, if_false]
  | succ f ih =>
    intro extra iAddr acc w hsum
    have h1 : iAddr < 0x7f := by omega
    have h2 : f + 1 + extra = (f + extra) + 1 := by omega
    rw [h2, scanLoop_succ H _ iAddr acc w h1, scanLoop_succ H _ iAddr acc w h1]
    exact ih extra (iAddr + 1) _ _ (by omega)

/-- The loop of `scan` returns normally, and what it appends is a sublist of
the addresses it still had to visit. -/
theorem scanLoop_sublist (H : Hardware σ) :
    ∀ (fuel iAddr : Nat) (acc : List Nat) (w : World σ), iAddr + fuel = 0x7f →
      ∃ l, (scanLoop H fuel iAddr acc w).1 = Result.ok (acc ++ l) ∧
        List.Sublist l (List.range' iAddr fuel) := by
  intro fuel
  induction fuel with
  | zero =>
    intro iAddr acc w _
    exact ⟨[], by simp [scanLoop], by simp⟩
  | succ f ih =>
    intro iAddr acc w hsum
    have h1 : iAddr < 0x7f := by omega
    rw [scanLoop_succ H f iAddr acc w h1, List.range'_succ]
    obtain ⟨l, hl, hsub⟩ := ih (iAddr + 1)
      (if probeOk H iAddr w then acc ++ [iAddr] else acc) (probeWorld H iAddr w) (by omega)
    by_cases hp : probeOk H iAddr w = true
    · rw [if_pos hp] at hl ⊢
      exact ⟨iAddr :: l, by rw [hl]; simp, List.Sublist.cons₂ iAddr hsub⟩
    · rw [if_neg hp] at hl ⊢
      exact ⟨l, hl, List.Sublist.cons iAddr hsub⟩

/-- On a bus whose answer to a probe depends only on the address, the loop of
`scan` appends the addresses whose probe succeeds. -/
theorem scanLoop_filter (H : Hardware σ) (w0 : World σ) (hq0 : w0.queue = [])
    (hstable : ∀ a, a < 0x7f → ∀ w1 w2 : World σ, w1.queue = [] → w2.queue = [] →
      probeOk H a w1 = probeOk H a w2) :
    ∀ (fuel iAddr : Nat) (acc : List Nat) (w : World σ), w.queue = [] → iAddr + fuel = 0x7f →
      (scanLoop H fuel iAddr acc w).1 =
        Result.ok (acc ++ (List.range' iAddr fuel).filter (fun a => probeOk H a w0)) := by
  intro fuel
  induction fuel with
  | zero =>
    intro iAddr acc w _ _
    simp [scanLoop]
  | succ f ih =>
    intro iAddr acc w hq hsum
    have h1 : iAddr < 0x7f := by omega
    rw [scanLoop_succ H f iAddr acc w h1, List.range'_succ,
      ih (iAddr + 1) _ (probeWorld H iAddr w) (probeWorld_queue H iAddr w hq) (by omega),
      hstable iAddr h1 w w0 hq hq0]
    by_cases hp : probeOk H iAddr w0 = true
    · simp [hp]
    · simp [hp]

/-- Whatever its outcome, `sendI2CCommandAndReadData` sends the command with
the read flag first and writes nothing to the data register. -/
theorem sendRead_log (H : Hardware σ) (aCmd : Nat) (w : World σ)
    (hq : w.queue = []) (hc : aCmd &&& kWriteToSlaveCmd = 0) :
    ∃ rest, (sendI2CCommandAndReadData H aCmd w).2.trace = w.trace ++ rest ∧
      commandsOf (busLog rest) = [aCmd ||| kReadFromSlaveCmd] ∧
      dataWrites (busLog rest) = [] := by
  have hw2 : (dispatch H (write kCmdNode (aCmd ||| kReadFromSlaveCmd) w)).trace =
      w.trace ++ [Event.enqueue (Access.write kCmdNode (aCmd ||| kReadFromSlaveCmd)),
        Event.dispatch [wrote kCmdNode (aCmd ||| kReadFromSlaveCmd)]] := by
    simp [dispatch, write, hq, Hardware.run, wrote]
  have hlog : busLog [Event.enqueue (Access.write kCmdNode (aCmd ||| kReadFromSlaveCmd)),
      Event.dispatch [wrote kCmdNode (aCmd ||| kReadFromSlaveCmd)]] =
      [wrote kCmdNode (aCmd ||| kReadFromSlaveCmd)] := by
    simp [busLog, sentOf, wrote, kCmdNode, kStatusNode]
  obtain ⟨h1, rest, h2, h3⟩ := waitUntilFinished_spec H false (aCmd &&& kStopCmd != 0)
    (dispatch H (write kCmdNode (aCmd ||| kReadFromSlaveCmd) w)) rfl
  simp only [sendI2CCommandAndReadData, hc, bne_self_eq_false, Bool.false_eq_true, if_false]
  obtain ⟨r, w3, hp⟩ : ∃ r w3, waitUntilFinished H false (aCmd &&& kStopCmd != 0)
    (dispatch H (write kCmdNode (aCmd ||| kReadFromSlaveCmd) w)) = (r, w3) := ⟨_, _, rfl⟩
  rw [hp] at h1 h2
  simp only [hp]
  simp only [] at h1 h2
  cases r with
  | ok u =>
    simp only []
    refine ⟨[Event.enqueue (Access.write kCmdNode (aCmd ||| kReadFromSlaveCmd)),
        Event.dispatch [wrote kCmdNode (aCmd ||| kReadFromSlaveCmd)]] ++ rest ++
        [Event.enqueue (Access.read kRxNode),
         Event.dispatch [got kRxNode (H.peek kRxNode w3.hw).1]], ?_, ?_, ?_⟩
    · simp [dispatch, read, write, hq, h1, h2, Hardware.run, got, wrote]
    · rw [busLog_append, busLog_append, h3, hlog]
      simp [busLog, sentOf, commandsOf, wrote, got, kRxNode, kCmdNode, kStatusNode]
    · rw [busLog_append, busLog_append, h3, hlog]
      simp [busLog, sentOf, dataWrites, wrote, got, kRxNode, kCmdNode, kStatusNode]
  | raised e =>
    simp only []
    refine ⟨_, by rw [h2, hw2, List.append_assoc], ?_, ?_⟩
    · rw [busLog_append, h3, hlog]
      simp [commandsOf, wrote, kCmdNode]
    · rw [busLog_append, h3, hlog]
      simp [dataWrites, wrote, kCmdNode]
  | assertFailed =>
    simp only []
    refine ⟨_, by rw [h2, hw2, List.append_assoc], ?_, ?_⟩
    · rw [busLog_append, h3, hlog]
      simp [commandsOf, wrote, kCmdNode]
    · rw [busLog_append, h3, hlog]
      simp [dataWrites, wrote, kCmdNode]

theorem dataWrites_append (l1 l2 : List (Access × Nat)) :
    dataWrites (l1 ++ l2) = dataWrites l1 ++ dataWrites l2 := by
  simp [dataWrites]

theorem commandsOf_append (l1 l2 : List (Access × Nat)) :
    commandsOf (l1 ++ l2) = commandsOf l1 ++ commandsOf l2 := by
  simp [commandsOf]

/-- Whatever its outcome, the probe of address `a` writes one byte to the data
register, the address byte with the read bit, and issues the start|write
command first, followed by the stop|ack read command when the first
succeeded. -/
theorem probe_log (H : Hardware σ) (a : Nat) (w : World σ) (hq : w.queue = []) :
    ∃ rest, (probeWorld H a w).trace = w.trace ++ rest ∧
      dataWrites (busLog rest) = [((a <<< 1) ||| 0x01) % 256] ∧
      commandsOf (busLog rest) =
        (if (sendI2CCommandAndWriteData H kStartCmd (((a <<< 1) ||| 0x01) % 256) w).1
            = Result.ok () then [0x90, 0x68] else [0x90]) := by
  obtain ⟨h1, rest1, h2, h3⟩ := sendWrite_spec H kStartCmd (((a <<< 1) ||| 0x01) % 256) w hq
    start_no_read_flag
  unfold probeWorld
  obtain ⟨r, w1, hp⟩ : ∃ r w1,
      sendI2CCommandAndWriteData H kStartCmd (((a <<< 1) ||| 0x01) % 256) w = (r, w1) :=
    ⟨_, _, rfl⟩
  rw [hp] at h1 h2
  simp only [hp]
  simp only [] at h1 h2
  have hd : dataWrites (busLog rest1) = [((a <<< 1) ||| 0x01) % 256] := by
    rw [h3]
    simp [dataWrites, wrote, kTxNode, kCmdNode]
  have hcm : commandsOf (busLog rest1) = [0x90] := by
    rw [h3]
    simp [commandsOf, wrote, kTxNode, kCmdNode, kStartCmd, kWriteToSlaveCmd]
  cases r with
  | ok u =>
    obtain ⟨rest2, g2, g3, g4⟩ := sendRead_log H (kStopCmd ||| kAckCmd) w1 h1
      stop_ack_no_write_flag
    refine ⟨rest1 ++ rest2, by simp only []; rw [g2, h2, List.append_assoc], ?_, ?_⟩
    · rw [busLog_append, dataWrites_append, hd, g4]
      rfl
    · rw [busLog_append, commandsOf_append, hcm, g3]
      simp [kStopCmd, kAckCmd, kReadFromSlaveCmd]
  | raised e =>
    exact ⟨rest1, h2, hd, by rw [hcm]; simp⟩
  | assertFailed =>
    exact ⟨rest1, h2, hd, by rw [hcm]; simp⟩

/-- The loop of `scan` writes to the data register the address bytes of the
addresses it still had to visit, in order, and nothing else. -/
theorem scanLoop_addresses (H : Hardware σ) :
    ∀ (fuel iAddr : Nat) (acc : List Nat) (w : World σ), w.queue = [] → iAddr + fuel = 0x7f →
      ∃ rest, (scanLoop H fuel iAddr acc w).2.trace = w.trace ++ rest ∧
        dataWrites (busLog rest) =
          (List.range' iAddr fuel).map (fun a => ((a <<< 1) ||| 0x01) % 256) := by
  intro fuel
  induction fuel with
  | zero =>
    intro iAddr acc w _ _
    exact ⟨[], by simp [scanLoop], rfl⟩
  | succ f ih =>
    intro iAddr acc w hq hsum
    have h1 : iAddr < 0x7f := by omega
    rw [scanLoop_succ H f iAddr acc w h1, List.range'_succ]
    obtain ⟨rest1, p1, p2, _⟩ := probe_log H iAddr w hq
    obtain ⟨rest2, q1, q2⟩ := ih (iAddr + 1)
      (if probeOk H iAddr w then acc ++ [iAddr] else acc) (probeWorld H iAddr w)
      (probeWorld_queue H iAddr w hq) (by omega)
    refine ⟨rest1 ++ rest2, by rw [q1, p1, List.append_assoc], ?_⟩
    rw [busLog_append, dataWrites_append, p2, q2]
    rfl

/-! ## Claims on ping and scan -/

/-- C12: on any device and from any world, for every address, `ping` returns a
boolean and neither throws nor aborts.  It returns true exactly when the
start+address(read) write command and the stop|ack read command after it both
complete without an exception; it returns false when either throws, whatever
the exception.  When the address command throws, `ping` ends in the world that
command left: after the reset the only command issued is 0x90, the read command
0x68 is issued only after a successful address command. -/
theorem C12_ping_boolean (H : Hardware σ) (m : I2CMasterNode) (a : Nat) (w : World σ) :
    (∃ b, (ping H m a w).1 = Result.ok b) ∧
    ((ping H m a w).1 = Result.ok true ↔
      (sendI2CCommandAndWriteData H kStartCmd (((a <<< 1) ||| 0x01) % 256)
        (reset H m w)).1 = Result.ok () ∧
      ∃ v, (sendI2CCommandAndReadData H (kStopCmd ||| kAckCmd)
        (sendI2CCommandAndWriteData H kStartCmd (((a <<< 1) ||| 0x01) % 256)
          (reset H m w)).2).1 = Result.ok v) ∧
    (∀ e, (sendI2CCommandAndWriteData H kStartCmd (((a <<< 1) ||| 0x01) % 256)
        (reset H m w)).1 = Result.raised e →
      (ping H m a w).1 = Result.ok false ∧
      (ping H m a w).2 = (sendI2CCommandAndWriteData H kStartCmd (((a <<< 1) ||| 0x01) % 256)
        (reset H m w)).2) ∧
    (∀ e, (sendI2CCommandAndWriteData H kStartCmd (((a <<< 1) ||| 0x01) % 256)
        (reset H m w)).1 = Result.ok () →
      (sendI2CCommandAndReadData H (kStopCmd ||| kAckCmd)
        (sendI2CCommandAndWriteData H kStartCmd (((a <<< 1) ||| 0x01) % 256)
          (reset H m w)).2).1 = Result.raised e →
      (ping H m a w).1 = Result.ok false) ∧
    (∃ rest, (ping H m a w).2.trace = (reset H m w).trace ++ rest ∧
      commandsOf (busLog rest) =
        (if (sendI2CCommandAndWriteData H kStartCmd (((a <<< 1) ||| 0x01) % 256)
            (reset H m w)).1 = Result.ok () then [0x90, 0x68] else [0x90])) := by
  obtain ⟨rest, t1, _, t3⟩ := probe_log H a (reset H m w) (reset_queue H m w)
  rw [ping_eq]
  refine ⟨⟨_, rfl⟩, ?_, ?_, ?_, ⟨rest, t1, t3⟩⟩
  · unfold probeOk
    obtain ⟨r, w1, hp⟩ : ∃ r w1, sendI2CCommandAndWriteData H kStartCmd
        (((a <<< 1) ||| 0x01) % 256) (reset H m w) = (r, w1) := ⟨_, _, rfl⟩
    simp only [hp]
    cases r with
    | ok u =>
      obtain ⟨r2, w2, hp2⟩ : ∃ r2 w2,
          sendI2CCommandAndReadData H (kStopCmd ||| kAckCmd) w1 = (r2, w2) := ⟨_, _, rfl⟩
      simp only [hp2]
      cases r2 <;> simp
    | raised e => simp
    | assertFailed => simp
  · intro e he
    unfold probeOk probeWorld
    obtain ⟨r, w1, hp⟩ : ∃ r w1, sendI2CCommandAndWriteData H kStartCmd
        (((a <<< 1) ||| 0x01) % 256) (reset H m w) = (r, w1) := ⟨_, _, rfl⟩
    rw [hp] at he
    simp only [hp]
    simp only [] at he
    subst he
    exact ⟨rfl, rfl⟩
  · intro e h1 h2
    unfold probeOk
    obtain ⟨r, w1, hp⟩ : ∃ r w1, sendI2CCommandAndWriteData H kStartCmd
        (((a <<< 1) ||| 0x01) % 256) (reset H m w) = (r, w1) := ⟨_, _, rfl⟩
    rw [hp] at h1 h2
    simp only [hp]
    simp only [] at h1 h2
    subst h1
    obtain ⟨r2, w2, hp2⟩ : ∃ r2 w2,
        sendI2CCommandAndReadData H (kStopCmd ||| kAckCmd) w1 = (r2, w2) := ⟨_, _, rfl⟩
    rw [hp2] at h2
    simp only [hp2]
    simp only [] at h2
    subst h2
    rfl

/-- C14: on any device and from any world, `scan` returns normally (it neither
throws nor aborts), the list it returns is strictly increasing with every
element at most 0x7E, hence without duplicates and of at most 127 entries; the
address bytes it writes are those of the addresses 0 .. 0x7E in order, so the
byte 0xFF of address 0x7F is never written. -/
theorem C14_scan_increasing (H : Hardware σ) (m : I2CMasterNode) (w : World σ) :
    ∃ l, (scan H m w).1 = Result.ok l ∧
      List.Pairwise (fun x y => x < y) l ∧
      (∀ a, a ∈ l → a ≤ 0x7E) ∧
      l.Nodup ∧
      l.length ≤ 127 ∧
      ∃ rest, (scan H m w).2.trace = (reset H m w).trace ++ rest ∧
        dataWrites (busLog rest) =
          (List.range 0x7f).map (fun a => ((a <<< 1) ||| 0x01) % 256) ∧
        0xFF ∉ dataWrites (busLog rest) := by
  obtain ⟨l, hl, hsub⟩ := scanLoop_sublist H 0x7f 0 [] (reset H m w) (by omega)
  obtain ⟨rest, r1, r2⟩ := scanLoop_addresses H 0x7f 0 [] (reset H m w) (reset_queue H m w)
    (by omega)
  refine ⟨l, by simpa [scan] using hl, ?_, ?_, ?_, ?_, rest, r1, ?_, ?_⟩
  · exact List.Pairwise.sublist hsub (List.pairwise_lt_range' 0 0x7f)
  · intro a ha
    have h := hsub.subset ha
    rw [List.mem_range'_1] at h
    omega
  · exact List.Nodup.sublist hsub (List.nodup_range' 0 0x7f)
  · have h := hsub.length_le
    rw [List.length_range'] at h
    exact h
  · rw [r2, List.range_eq_range']
  · rw [r2]
    decide

/-- A write command whose first status word shows the transfer finished, no
arbitration loss and no acknowledge throws `I2CNoAcknowledgeReceived`. -/
theorem sendWrite_nack (H : Hardware σ) (aCmd aData : Nat) (w : World σ)
    (hq : w.queue = []) (hc : aCmd &&& kReadFromSlaveCmd = 0)
    (h32 : (H.peek kStatusNode (H.poke kCmdNode (aCmd ||| kWriteToSlaveCmd)
      (H.poke kTxNode aData w.hw))).1 &&& 32 = 0)
    (h2 : (H.peek kStatusNode (H.poke kCmdNode (aCmd ||| kWriteToSlaveCmd)
      (H.poke kTxNode aData w.hw))).1 &&& 2 = 0)
    (hnack : (H.peek kStatusNode (H.poke kCmdNode (aCmd ||| kWriteToSlaveCmd)
      (H.poke kTxNode aData w.hw))).1 &&& 128 ≠ 0) :
    (sendI2CCommandAndWriteData H aCmd aData w).1 =
      Result.raised I2CException.I2CNoAcknowledgeReceived := by
  have hhw : (dispatch H (write kCmdNode (aCmd ||| kWriteToSlaveCmd)
      (dispatch H (write kTxNode aData w)))).hw =
      H.poke kCmdNode (aCmd ||| kWriteToSlaveCmd) (H.poke kTxNode aData w.hw) := by
    simp [dispatch, write, hq, Hardware.run]
  have h0 := statusAt_zero H (dispatch H (write kCmdNode (aCmd ||| kWriteToSlaveCmd)
      (dispatch H (write kTxNode aData w)))) rfl
  rw [hhw] at h0
  simp only [sendI2CCommandAndWriteData, hc, bne_self_eq_false, Bool.false_eq_true, if_false]
  rw [waitUntilFinished_done H true (aCmd &&& kStopCmd != 0) _ 0 (by decide)
    (fun j hj => absurd hj (Nat.not_lt_zero j)) (by rw [h0]; exact h32) (by rw [h0]; exact h2)]
  rw [h0]
  simp [hnack]

theorem ackBus_start (present : Nat → Bool) (d : Nat) (s : AckState) :
    (ackBus present).peek kStatusNode
      ((ackBus present).poke kCmdNode (kStartCmd ||| kWriteToSlaveCmd)
        ((ackBus present).poke kTxNode d s)) =
      ((if present (d >>> 1) then 0 else 128) ||| 64,
        { txr := d, status := (if present (d >>> 1) then 0 else 128) ||| 64 }) := by
  have e1 : (144 &&& 64 : Nat) = 0 := by decide
  have e2 : (144 &&& 16 : Nat) = 16 := by decide
  have e3 : (144 &&& 128 : Nat) = 128 := by decide
  simp [ackBus, kStatusNode, kCmdNode, kTxNode, kStartCmd, kWriteToSlaveCmd, kStopCmd,
    kReceivedAckBit, kBusyBit, e1, e2, e3]

theorem ackBus_stop_read (present : Nat → Bool) (s : AckState) :
    (ackBus present).peek kStatusNode
      ((ackBus present).poke kCmdNode ((kStopCmd ||| kAckCmd) ||| kReadFromSlaveCmd) s) =
      (0, { s with status := 0 }) := by
  have e1 : (104 &&& 64 : Nat) = 64 := by decide
  have e2 : (104 &&& 16 : Nat) = 0 := by decide
  have e3 : (104 &&& 32 : Nat) = 32 := by decide
  simp [ackBus, kStatusNode, kCmdNode, kAckCmd, kReadFromSlaveCmd, kWriteToSlaveCmd, kStopCmd,
    e1, e2, e3]

/-- On the bus of acknowledging addresses the probe of a 7-bit address succeeds
exactly when the address is present, whatever the state of the core. -/
theorem ackBus_probe (present : Nat → Bool) (a : Nat) (ha : a < 128) (w : World AckState)
    (hq : w.queue = []) :
    probeOk (ackBus present) a w = present a := by
  have hshift : (((a <<< 1) ||| 0x01) % 256) >>> 1 = a := (addr_read_bits a ha).1
  have e1 : (64 &&& 32 : Nat) = 0 := by decide
  have e2 : (64 &&& 2 : Nat) = 0 := by decide
  have e3 : (64 &&& 128 : Nat) = 0 := by decide
  have e4 : (192 &&& 32 : Nat) = 0 := by decide
  have e5 : (192 &&& 2 : Nat) = 0 := by decide
  have e6 : (192 &&& 128 : Nat) = 128 := by decide
  unfold probeOk
  by_cases hp : present a = true
  · obtain ⟨p1, _, p3⟩ := sendWrite_ready (ackBus present) kStartCmd
      (((a <<< 1) ||| 0x01) % 256) w hq start_no_read_flag
      (by rw [ackBus_start, hshift]; simp [hp, e1])
      (by rw [ackBus_start, hshift]; simp [hp, e2])
      (by rw [ackBus_start, hshift]; simp [hp, e3])
      (by intro h; exact absurd h (by decide))
    obtain ⟨r, w1, hw⟩ : ∃ r w1, sendI2CCommandAndWriteData (ackBus present) kStartCmd
        (((a <<< 1) ||| 0x01) % 256) w = (r, w1) := ⟨_, _, rfl⟩
    rw [hw] at p1 p3
    simp only [hw]
    simp only [] at p1 p3
    subst p1
    obtain ⟨q1, _, _⟩ := sendRead_ready (ackBus present) (kStopCmd ||| kAckCmd) w1 p3
      stop_ack_no_write_flag
      (by rw [ackBus_stop_read]; exact Nat.zero_and 32)
      (by rw [ackBus_stop_read]; exact Nat.zero_and 2)
      (by intro _; rw [ackBus_stop_read]; exact Nat.zero_and 64)
    obtain ⟨r2, w2, hw2⟩ : ∃ r2 w2, sendI2CCommandAndReadData (ackBus present)
        (kStopCmd ||| kAckCmd) w1 = (r2, w2) := ⟨_, _, rfl⟩
    rw [hw2] at q1
    simp only [hw2]
    simp only [] at q1
    subst q1
    simp [hp]
  · have p1 := sendWrite_nack (ackBus present) kStartCmd (((a <<< 1) ||| 0x01) % 256) w hq
      start_no_read_flag
      (by rw [ackBus_start, hshift]; simp [hp, e4])
      (by rw [ackBus_start, hshift]; simp [hp, e5])
      (by rw [ackBus_start, hshift]; simp [hp, e6])
    obtain ⟨r, w1, hw⟩ : ∃ r w1, sendI2CCommandAndWriteData (ackBus present) kStartCmd
        (((a <<< 1) ||| 0x01) % 256) w = (r, w1) := ⟨_, _, rfl⟩
    rw [hw] at p1
    simp only [hw]
    simp only [] at p1
    subst p1
    simp [hp]

/-- C13, as stated, fails: `scan` resets the bus once and then probes the 127
addresses one after the other, while `ping` resets before its probe.  On the
bus whose status reads 0 but for every third word, which has the arbitration
lost, `ping(a)` returns true for every address of 0 .. 0x7E (its two commands
read the first two status words), yet `scan` returns the even addresses only:
the address command of every odd address reads a third word and throws. -/
theorem C13_scan_ping_counterexample :
    (ping (statusBus lostEveryThird) ⟨0x40⟩ 1 (World.init 0)).1 = Result.ok true ∧
    (List.range 0x7f).filter (fun a =>
        decide ((ping (statusBus lostEveryThird) ⟨0x40⟩ a (World.init 0)).1 = Result.ok true)) =
      List.range 0x7f ∧
    (scan (statusBus lostEveryThird) ⟨0x40⟩ (World.init 0)).1 =
      Result.ok ((List.range 0x7f).filter (fun a => a % 2 == 0)) ∧
    (scan (statusBus lostEveryThird) ⟨0x40⟩ (World.init 0)).1 ≠
      Result.ok ((List.range 0x7f).filter (fun a =>
        decide ((ping (statusBus lostEveryThird) ⟨0x40⟩ a (World.init 0)).1 =
          Result.ok true))) := by
  refine ⟨by decide, by decide, by decide, by decide⟩

/-- C13 amended: on a bus whose answer to a probe (the start+address(read)
command followed by the stop|ack read command) depends only on the address
probed, `scan` returns exactly the addresses `a` of 0 .. 0x7E, in ascending
order, for which `ping(a)` returns true.  This holds on the simulated bus where
exactly the addresses in a given set acknowledge, where `ping(a)` is true
exactly for the addresses of the set; with the set {0x10, 0x42} `scan` returns
[0x10, 0x42]. -/
theorem C13_scan_is_ping_filter :
    (∀ (τ : Type) (H : Hardware τ) (m : I2CMasterNode) (w : World τ),
      (∀ a, a < 0x7f → ∀ w1 w2 : World τ, w1.queue = [] → w2.queue = [] →
        probeOk H a w1 = probeOk H a w2) →
      (scan H m w).1 = Result.ok
        ((List.range 0x7f).filter (fun a => decide ((ping H m a w).1 = Result.ok true)))) ∧
    (∀ (present : Nat → Bool) (m : I2CMasterNode) (w : World AckState),
      (scan (ackBus present) m w).1 = Result.ok ((List.range 0x7f).filter present) ∧
      ∀ a, a < 0x7f → (ping (ackBus present) m a w).1 = Result.ok (present a)) ∧
    (∀ (m : I2CMasterNode) (w : World AckState),
      (scan (ackBus (fun a => a == 0x10 || a == 0x42)) m w).1 = Result.ok [0x10, 0x42]) := by
  have general : ∀ (τ : Type) (H : Hardware τ) (m : I2CMasterNode) (w : World τ),
      (∀ a, a < 0x7f → ∀ w1 w2 : World τ, w1.queue = [] → w2.queue = [] →
        probeOk H a w1 = probeOk H a w2) →
      (scan H m w).1 = Result.ok
        ((List.range 0x7f).filter (fun a => probeOk H a (reset H m w))) := by
    intro τ H m w hstable
    have h := scanLoop_filter H (reset H m w) (reset_queue H m w) hstable 0x7f 0 []
      (reset H m w) (reset_queue H m w) (by omega)
    rw [List.range_eq_range']
    simpa [scan] using h
  have onAck : ∀ (present : Nat → Bool) (m : I2CMasterNode) (w : World AckState),
      (scan (ackBus present) m w).1 = Result.ok ((List.range 0x7f).filter present) := by
    intro present m w
    rw [general AckState (ackBus present) m w (fun a ha w1 w2 h1 h2 => by
      rw [ackBus_probe present a (by omega) w1 h1, ackBus_probe present a (by omega) w2 h2])]
    congr 1
    apply List.filter_congr
    intro a ha
    rw [List.mem_range] at ha
    exact ackBus_probe present a (by omega) _ (reset_queue _ m w)
  refine ⟨?_, ?_, ?_⟩
  · intro τ H m w hstable
    rw [general τ H m w hstable]
    congr 1
    apply List.filter_congr
    intro a _
    rw [ping_eq]
    cases probeOk H a (reset H m w) <;> simp
  · intro present m w
    refine ⟨onAck present m w, ?_⟩
    intro a ha
    rw [ping_eq]
    simp only []
    rw [ackBus_probe present a (by omega) _ (reset_queue _ m w)]
  · intro m w
    rw [onAck]
    congr 1

/-- Witness of C13 amended: the bus where only 0x10 and 0x42 acknowledge answers
a probe by the address alone, and `scan` on it is the list of the addresses
`ping` finds. -/
theorem C13_scan_is_ping_filter_witness :
    (scan (ackBus (fun a => a == 0x10 || a == 0x42)) ⟨0x40⟩ (World.init ⟨0, 0⟩)).1 =
      Result.ok ((List.range 0x7f).filter (fun a =>
        decide ((ping (ackBus (fun a => a == 0x10 || a == 0x42)) ⟨0x40⟩ a
          (World.init ⟨0, 0⟩)).1 = Result.ok true))) :=
  C13_scan_is_ping_filter.1 AckState (ackBus (fun a => a == 0x10 || a == 0x42)) ⟨0x40⟩
    (World.init ⟨0, 0⟩)
    (fun a ha w1 w2 h1 h2 => by
      rw [ackBus_probe _ a (by omega) w1 h1, ackBus_probe _ a (by omega) w2 h2])

/-! ## reset twice -/

theorem hi_byte (P : Nat) (h : P < 65536) : (P &&& 0xff00) >>> 8 = P / 256 := by
  have h256 : P / 256 = P >>> 8 := by
    rw [Nat.shiftRight_eq_div_pow]
  rw [h256]
  apply Nat.eq_of_testBit_eq
  intro i
  rw [Nat.testBit_shiftRight, Nat.testBit_shiftRight, Nat.testBit_and]
  by_cases hi : i < 8
  · have hbit : (0xff00 : Nat).testBit (8 + i) = true := by
      interval_cases i <;> decide
    rw [hbit, Bool.and_true]
  · have hP : P.testBit (8 + i) = false := by
      apply Nat.testBit_lt_two_pow
      calc P < 2 ^ 16 := h
        _ ≤ 2 ^ (8 + i) := Nat.pow_le_pow_right (by decide) (by omega)
    rw [hP, Bool.false_and]

/-- The two prescale bytes `reset` writes recombine to a 16-bit prescale. -/
theorem prescale_split (P : Nat) (h : P < 65536) :
    ((((P &&& 0xff00) >>> 8) <<< 8) + (P &&& 0xff)) % 4294967296 = P := by
  have h1 : P &&& 0xff = P % 256 := Nat.and_pow_two_sub_one_eq_mod P 8
  rw [hi_byte P h, h1, Nat.shiftLeft_eq]
  omega

theorem regFile_latched (f : Reg → Nat) :
    latchedPrescale regFile f = ((f Reg.ps_hi <<< 8) + f Reg.ps_lo) % 4294967296 := rfl

/-- On a register file, after `reset` the prescale registers hold the
configured 16-bit prescale and the data and command registers hold 0. -/
theorem regFile_after_reset (m : I2CMasterNode) (w : World (Reg → Nat)) (hq : w.queue = [])
    (hP : m.mClockPrescale < 65536) :
    m.mClockPrescale = latchedPrescale regFile (reset regFile m w).hw ∧
    (reset regFile m w).hw Reg.data = 0 ∧ (reset regFile m w).hw Reg.cmd_stat = 0 := by
  by_cases h : m.mClockPrescale = latchedPrescale regFile w.hw
  · rw [reset_light regFile m w hq h]
    refine ⟨?_, ?_, ?_⟩
    · rw [h, regFile_latched, regFile_latched]
      simp [regFile, afterResetReads, kTxNode, kCmdNode, kCtrlNode, kPreHiNode, kPreLoNode]
    · simp [regFile, kTxNode, kCmdNode]
    · simp [regFile, kTxNode, kCmdNode]
  · rw [reset_full regFile m w hq h]
    refine ⟨?_, ?_, ?_⟩
    · rw [regFile_latched]
      simp only [regFile, kTxNode, kCmdNode, kCtrlNode, kPreHiNode, kPreLoNode]
      simp only [reduceCtorEq, if_false, if_true]
      exact (prescale_split m.mClockPrescale hP).symm
    · simp [regFile, kTxNode, kCmdNode, kCtrlNode]
    · simp [regFile, kTxNode, kCmdNode, kCtrlNode]

/-- C11: on a register file (each register reads back the value last written),
for every register contents and every 16-bit configured prescale, a second
`reset` right after a first one leaves every register as the first one left
it, and takes the light path: after the first run `(ps_hi << 8) + ps_lo` equals
the configured prescale, and the second run adds its three reads and the
zeroing of data and command, nothing else. -/
theorem C11_reset_idempotent (m : I2CMasterNode) (w : World (Reg → Nat))
    (hq : w.queue = []) (hP : m.mClockPrescale < 65536) :
    (reset regFile m (reset regFile m w)).hw = (reset regFile m w).hw ∧
    m.mClockPrescale = latchedPrescale regFile (reset regFile m w).hw ∧
    (reset regFile m (reset regFile m w)).trace =
      (reset regFile m w).trace ++ resetReads regFile (reset regFile m w).hw ++
        [Event.enqueue (Access.write kTxNode 0x00),
         Event.enqueue (Access.write kCmdNode 0x00),
         Event.dispatch [wrote kTxNode 0x00, wrote kCmdNode 0x00]] := by
  obtain ⟨h1, h2, h3⟩ := regFile_after_reset m w hq hP
  rw [reset_light regFile m (reset regFile m w) (reset_queue regFile m w) h1]
  refine ⟨?_, h1, rfl⟩
  funext r
  have e : ∀ x : Reg, (regFile.poke kCmdNode 0 (regFile.poke kTxNode 0
      (afterResetReads regFile (reset regFile m w).hw))) x =
      if x = Reg.cmd_stat then 0 else if x = Reg.data then 0 else (reset regFile m w).hw x := by
    intro x
    rfl
  show (regFile.poke kCmdNode 0 (regFile.poke kTxNode 0
      (afterResetReads regFile (reset regFile m w).hw))) r = (reset regFile m w).hw r
  rw [e]
  cases r with
  | ps_hi => rfl
  | ps_lo => rfl
  | ctrl => rfl
  | data => exact h2.symm
  | cmd_stat => exact h3.symm

/-- Witness of C11: a register file holding 7 in every register, prescale
0x1234. -/
theorem C11_reset_idempotent_witness :
    ((World.init (fun _ : Reg => 7)).queue = [] ∧
      (⟨0x1234⟩ : I2CMasterNode).mClockPrescale < 65536) ∧
    ((reset regFile ⟨0x1234⟩ (reset regFile ⟨0x1234⟩ (World.init (fun _ : Reg => 7)))).hw =
      (reset regFile ⟨0x1234⟩ (World.init (fun _ : Reg => 7))).hw ∧
    (⟨0x1234⟩ : I2CMasterNode).mClockPrescale =
      latchedPrescale regFile (reset regFile ⟨0x1234⟩ (World.init (fun _ : Reg => 7))).hw) :=
  ⟨⟨rfl, by decide⟩,
    (C11_reset_idempotent ⟨0x1234⟩ (World.init (fun _ : Reg => 7)) rfl (by decide)).1,
    (C11_reset_idempotent ⟨0x1234⟩ (World.init (fun _ : Reg => 7)) rfl (by decide)).2.1⟩

/-! ## The slave maps -/

theorem mapFind_append {α : Type} (name : String) (l1 l2 : List (String × α)) :
    mapFind name (l1 ++ l2) =
      match mapFind name l1 with
      | some v => some v
      | none => mapFind name l2 := by
  induction l1 with
  | nil => rfl
  | cons p t ih =>
    obtain ⟨k, v⟩ := p
    by_cases h : k = name
    · simp [mapFind, h]
    · simp [mapFind, h, ih]

theorem mapFind_none_iff {α : Type} (name : String) (l : List (String × α)) :
    mapFind name l = none ↔ name ∉ l.map Prod.fst := by
  induction l with
  | nil => simp [mapFind]
  | cons p t ih =>
    obtain ⟨k, v⟩ := p
    by_cases h : k = name
    · simp [mapFind, h]
    · have h2 : ¬ name = k := fun e => h e.symm
      simp [mapFind, h, h2, ih]

/-- After an insert a key is found as before if it was in the map, and with
the inserted value if it is the inserted key and was not. -/
theorem mapFind_insert {α : Type} (name k : String) (v : α) (l : List (String × α)) :
    mapFind name (mapInsert l k v) =
      match mapFind name l with
      | some x => some x
      | none => if k = name then some v else none := by
  unfold mapInsert
  cases hk : mapFind k l with
  | some y =>
    simp only []
    cases hn : mapFind name l with
    | some x => rfl
    | none =>
      have hne : ¬ k = name := by
        intro e
        rw [e, hn] at hk
        exact absurd hk (by simp)
      simp [hne]
  | none =>
    simp only []
    rw [mapFind_append]
    cases hn : mapFind name l with
    | some x => rfl
    | none => simp [mapFind]

theorem mapInsert_keys_nodup {α : Type} (k : String) (v : α) (l : List (String × α))
    (h : (l.map Prod.fst).Nodup) : ((mapInsert l k v).map Prod.fst).Nodup := by
  unfold mapInsert
  cases hk : mapFind k l with
  | some y => exact h
  | none =>
    simp only []
    rw [List.map_append, List.nodup_append]
    refine ⟨h, by simp, ?_⟩
    intro a ha hb
    have hnot := (mapFind_none_iff k l).mp hk
    simp only [List.map_cons, List.map_nil, List.mem_singleton] at hb
    rw [hb] at ha
    exact hnot ha

theorem mapInsert_map {α β : Type} (f : α → β) (k : String) (v : α) (l : List (String × α)) :
    mapInsert (l.map (fun p => (p.1, f p.2))) k (f v) =
      (mapInsert l k v).map (fun p => (p.1, f p.2)) := by
  have hfind : ∀ l : List (String × α),
      mapFind k (l.map (fun p => (p.1, f p.2))) = (mapFind k l).map f := by
    intro l
    induction l with
    | nil => rfl
    | cons p t ih =>
      obtain ⟨k1, v1⟩ := p
      by_cases h : k1 = k
      · simp [mapFind, h]
      · simp [mapFind, h, ih]
  unfold mapInsert
  rw [hfind]
  cases mapFind k l with
  | some y => rfl
  | none => simp

theorem mapFind_map {α β : Type} (f : α → β) (name : String) (l : List (String × α)) :
    mapFind name (l.map (fun p => (p.1, f p.2))) = (mapFind name l).map f := by
  induction l with
  | nil => rfl
  | cons p t ih =>
    obtain ⟨k1, v1⟩ := p
    by_cases h : k1 = name
    · simp [mapFind, h]
    · simp [mapFind, h, ih]

theorem mask_narrow (n : Nat) : (n &&& 0x7f) % 256 = n &&& 0x7f := by
  have h : n &&& 0x7f ≤ 0x7f := Nat.and_le_right
  omega

/-- What the loop of the constructor builds: the handle map mirrors the address
map, the names stay distinct, every address is at most 0x7F, and a name is found
with the address it had before, or else with the masked address of the
parameter that `mapFind` finds under that name. -/
theorem buildSlaves_spec (stoul : String → Option Nat) :
    ∀ (lPars : List (String × String)) (maps out : SlaveMaps),
      buildSlaves stoul lPars maps = some out →
      maps.mSlaves = maps.mSlavesAddresses.map (fun p => (p.1, I2CSlave.mk p.2)) →
      (maps.mSlavesAddresses.map Prod.fst).Nodup →
      (∀ p, p ∈ maps.mSlavesAddresses → p.2 ≤ 0x7f) →
      out.mSlaves = out.mSlavesAddresses.map (fun p => (p.1, I2CSlave.mk p.2)) ∧
      (out.mSlavesAddresses.map Prod.fst).Nodup ∧
      (∀ p, p ∈ out.mSlavesAddresses → p.2 ≤ 0x7f) ∧
      ∀ name, mapFind name out.mSlavesAddresses =
        match mapFind name maps.mSlavesAddresses with
        | some a => some a
        | none => (mapFind name lPars).bind (fun text =>
            (stoul text).map (fun n => n &&& 0x7f)) := by
  intro lPars
  induction lPars with
  | nil =>
    intro maps out hb hpair hnd hle
    simp only [buildSlaves, Option.some.injEq] at hb
    subst hb
    refine ⟨hpair, hnd, hle, ?_⟩
    intro name
    cases mapFind name maps.mSlavesAddresses <;> simp [mapFind]
  | cons p t ih =>
    intro maps out hb hpair hnd hle
    obtain ⟨k, text⟩ := p
    simp only [buildSlaves] at hb
    cases hs : stoul text with
    | none =>
      rw [hs] at hb
      simp at hb
    | some n =>
      rw [hs] at hb
      simp only [mask_narrow] at hb
      have hpair2 : mapInsert maps.mSlaves k (I2CSlave.mk (n &&& 0x7f)) =
          (mapInsert maps.mSlavesAddresses k (n &&& 0x7f)).map
            (fun p => (p.1, I2CSlave.mk p.2)) := by
        rw [hpair]
        exact mapInsert_map I2CSlave.mk k (n &&& 0x7f) maps.mSlavesAddresses
      have hle2 : ∀ p, p ∈ mapInsert maps.mSlavesAddresses k (n &&& 0x7f) → p.2 ≤ 0x7f := by
        intro p hp
        unfold mapInsert at hp
        cases hk : mapFind k maps.mSlavesAddresses with
        | some y =>
          rw [hk] at hp
          exact hle p hp
        | none =>
          rw [hk] at hp
          simp only [List.mem_append, List.mem_singleton] at hp
          rcases hp with hp | hp
          · exact hle p hp
          · rw [hp]
            exact Nat.and_le_right
      obtain ⟨r1, r2, r3, r4⟩ := ih _ out hb hpair2
        (mapInsert_keys_nodup k (n &&& 0x7f) maps.mSlavesAddresses hnd) hle2
      refine ⟨r1, r2, r3, ?_⟩
      intro name
      rw [r4 name]
      simp only []
      rw [mapFind_insert]
      cases hn : mapFind name maps.mSlavesAddresses with
      | some a => rfl
      | none =>
        by_cases hkn : k = name
        · simp [mapFind, hkn, hs]
        · simp [mapFind, hkn]

/-- The maps of a constructed master. -/
theorem constructor_spec (stoul : String → Option Nat) (lPars : List (String × String))
    (m : I2CMasterNode) (maps : SlaveMaps) (h : constructor stoul lPars = some (m, maps)) :
    m.mClockPrescale = 0x40 ∧
    maps.mSlaves = maps.mSlavesAddresses.map (fun p => (p.1, I2CSlave.mk p.2)) ∧
    (maps.mSlavesAddresses.map Prod.fst).Nodup ∧
    (∀ p, p ∈ maps.mSlavesAddresses → p.2 ≤ 0x7f) ∧
    ∀ name, mapFind name maps.mSlavesAddresses =
      (mapFind name lPars).bind (fun text => (stoul text).map (fun n => n &&& 0x7f)) := by
  unfold constructor at h
  cases hb : buildSlaves stoul lPars { mSlavesAddresses := [], mSlaves := [] } with
  | none =>
    rw [hb] at h
    simp at h
  | some out =>
    rw [hb] at h
    simp only [Option.some.injEq, Prod.mk.injEq] at h
    obtain ⟨hm, hmaps⟩ := h
    subst hmaps
    obtain ⟨r1, r2, r3, r4⟩ := buildSlaves_spec stoul lPars _ out hb rfl (by simp) (by simp)
    refine ⟨by rw [← hm], r1, r2, r3, ?_⟩
    intro name
    rw [r4 name]
    rfl

theorem mapFind_mem {α : Type} (name : String) (v : α) (l : List (String × α))
    (h : mapFind name l = some v) : (name, v) ∈ l := by
  induction l with
  | nil => simp [mapFind] at h
  | cons p t ih =>
    obtain ⟨k1, v1⟩ := p
    by_cases hk : k1 = name
    · simp only [mapFind, hk, if_true, Option.some.injEq] at h
      rw [hk, h]
      exact List.mem_cons_self _ _
    · simp only [mapFind, hk, if_false] at h
      exact List.mem_cons_of_mem _ (ih h)

theorem mapFind_of_mem_nodup {α : Type} (name : String) (v : α) (l : List (String × α))
    (hnd : (l.map Prod.fst).Nodup) (h : (name, v) ∈ l) : mapFind name l = some v := by
  induction l with
  | nil => simp at h
  | cons p t ih =>
    obtain ⟨k1, v1⟩ := p
    simp only [List.map_cons, List.nodup_cons] at hnd
    rcases List.mem_cons.mp h with h1 | h1
    · simp only [Prod.mk.injEq] at h1
      simp [mapFind, h1.1, h1.2]
    · have hne : ¬ k1 = name := by
        intro e
        apply hnd.1
        rw [e]
        exact List.mem_map_of_mem Prod.fst h1
      simp only [mapFind, hne, if_false]
      exact ih hnd.2 h1

/-- A construction that succeeds has parsed every address string. -/
theorem buildSlaves_parses (stoul : String → Option Nat) :
    ∀ (lPars : List (String × String)) (maps out : SlaveMaps),
      buildSlaves stoul lPars maps = some out →
      ∀ p, p ∈ lPars → ∃ n, stoul p.2 = some n := by
  intro lPars
  induction lPars with
  | nil =>
    intro maps out _ p hp
    simp at hp
  | cons q t ih =>
    intro maps out hb p hp
    obtain ⟨k, text⟩ := q
    simp only [buildSlaves] at hb
    cases hs : stoul text with
    | none =>
      rw [hs] at hb
      simp at hb
    | some n =>
      rw [hs] at hb
      rcases List.mem_cons.mp hp with h1 | h1
      · rw [h1]
        exact ⟨n, hs⟩
      · exact ih _ out hb p h1

/-- The names of a constructed registry are the names of the parameters. -/
theorem constructor_names (stoul : String → Option Nat) (lPars : List (String × String))
    (m : I2CMasterNode) (maps : SlaveMaps) (h : constructor stoul lPars = some (m, maps))
    (name : String) :
    mapFind name maps.mSlavesAddresses = none ↔ name ∉ lPars.map Prod.fst := by
  obtain ⟨_, _, _, _, r4⟩ := constructor_spec stoul lPars m maps h
  have hparse : ∀ p, p ∈ lPars → ∃ n, stoul p.2 = some n := by
    unfold constructor at h
    cases hb : buildSlaves stoul lPars { mSlavesAddresses := [], mSlaves := [] } with
    | none =>
      rw [hb] at h
      simp at h
    | some out => exact buildSlaves_parses stoul lPars _ out hb
  rw [r4 name, ← mapFind_none_iff]
  cases hf : mapFind name lPars with
  | none => simp
  | some text =>
    obtain ⟨n, hn⟩ := hparse (name, text) (mapFind_mem name text lPars hf)
    simp only [] at hn
    simp [hn]

/-- Whatever the iteration order of the map, `getSlaves` lists the keys of
`mSlavesAddresses`. -/
theorem getSlaves_mem (lOrder : List (String × Nat) → List (String × Nat))
    (hOrder : ∀ l, (lOrder l).Perm l) (maps : SlaveMaps) (name : String) (w : World σ) :
    name ∉ (getSlaves lOrder maps w).1 ↔ name ∉ maps.mSlavesAddresses.map Prod.fst := by
  unfold getSlaves
  simp only []
  rw [((hOrder maps.mSlavesAddresses).map Prod.fst).mem_iff]

/-- Whatever the iteration order of the map, `getSlaves` lists each key as many
times as `mSlavesAddresses` has it. -/
theorem getSlaves_nodup (lOrder : List (String × Nat) → List (String × Nat))
    (hOrder : ∀ l, (lOrder l).Perm l) (maps : SlaveMaps) (w : World σ)
    (h : (maps.mSlavesAddresses.map Prod.fst).Nodup) : (getSlaves lOrder maps w).1.Nodup := by
  unfold getSlaves
  simp only []
  exact (((hOrder maps.mSlavesAddresses).map Prod.fst).nodup_iff).mpr h

/-! ## Claims on the registry -/

/-- C15: for every registry built by the constructor and every name,
`getSlaveAddress(name)` fails if and only if the name is absent from the
registry, and then with `I2CDeviceNotFound` carrying the name; the same holds
of `getSlave(name)`, so the two fail on exactly the same names, and succeed on
the others; neither touches the register interface (the world is returned as
it was). -/
theorem C15_device_not_found (stoul : String → Option Nat) (lPars : List (String × String))
    (m : I2CMasterNode) (maps : SlaveMaps) (h : constructor stoul lPars = some (m, maps))
    (lOrder : List (String × Nat) → List (String × Nat))
    (hOrder : ∀ l, (lOrder l).Perm l)
    (name : String) (w : World σ) :
    ((getSlaveAddress maps name w).1 = Result.raised (I2CException.I2CDeviceNotFound name) ↔
      name ∉ (getSlaves lOrder maps w).1) ∧
    ((getSlave maps name w).1 = Result.raised (I2CException.I2CDeviceNotFound name) ↔
      name ∉ (getSlaves lOrder maps w).1) ∧
    (name ∈ (getSlaves lOrder maps w).1 →
      (∃ a, (getSlaveAddress maps name w).1 = Result.ok a) ∧
      ∃ lSlave, (getSlave maps name w).1 = Result.ok lSlave) ∧
    (getSlaveAddress maps name w).2 = w ∧
    (getSlave maps name w).2 = w := by
  obtain ⟨_, hpair, _, _, _⟩ := constructor_spec stoul lPars m maps h
  have hnone := mapFind_none_iff name maps.mSlavesAddresses
  rw [← getSlaves_mem lOrder hOrder maps name w] at hnone
  have hfind : mapFind name maps.mSlaves = (mapFind name maps.mSlavesAddresses).map I2CSlave.mk := by
    rw [hpair]
    exact mapFind_map I2CSlave.mk name maps.mSlavesAddresses
  unfold getSlaveAddress getSlave
  rw [hfind]
  cases hf : mapFind name maps.mSlavesAddresses with
  | none =>
    have hn := hnone.mp hf
    simp [hn]
  | some a =>
    have hn : ¬ (name ∉ (getSlaves lOrder maps w).1) := by
      intro hcon
      rw [hnone.mpr hcon] at hf
      exact absurd hf (by simp)
    simp only [not_not] at hn
    simp [hn]

/-- Witness of C15: a registry with the device "dac" at "12", the map being
iterated in the reverse of the order of insertion. -/
theorem C15_device_not_found_witness :
    (constructor stoulDecimal [("dac", "12")] =
        some (⟨0x40⟩, ⟨[("dac", 12)], [("dac", ⟨12⟩)]⟩) ∧
      ∀ l : List (String × Nat), (List.reverse l).Perm l) ∧
    ((getSlaveAddress ⟨[("dac", 12)], [("dac", ⟨12⟩)]⟩ "pll" (World.init (0 : Nat))).1 =
      Result.raised (I2CException.I2CDeviceNotFound "pll") ↔
      "pll" ∉ (getSlaves List.reverse ⟨[("dac", 12)], [("dac", ⟨12⟩)]⟩
        (World.init (0 : Nat))).1) :=
  ⟨⟨rfl, fun l => List.reverse_perm l⟩,
    (C15_device_not_found stoulDecimal [("dac", "12")] ⟨0x40⟩ ⟨[("dac", 12)], [("dac", ⟨12⟩)]⟩
      rfl List.reverse (fun l => List.reverse_perm l) "pll" (World.init (0 : Nat))).1⟩

/-- C16: for every name among the parameters the master was constructed from,
`getSlaveAddress(name)` returns an address and `getSlave(name)` returns the
handle that was constructed with that same address; and `getSlaves` returns each
configured name once and no other name. -/
theorem C16_handle_address (stoul : String → Option Nat) (lPars : List (String × String))
    (m : I2CMasterNode) (maps : SlaveMaps) (h : constructor stoul lPars = some (m, maps))
    (lOrder : List (String × Nat) → List (String × Nat))
    (hOrder : ∀ l, (lOrder l).Perm l)
    (name : String) (hname : name ∈ lPars.map Prod.fst) (w : World σ) :
    (∃ a, (getSlaveAddress maps name w).1 = Result.ok a ∧
      (getSlave maps name w).1 = Result.ok (I2CSlave.mk a) ∧
      ∀ lSlave, (getSlave maps name w).1 = Result.ok lSlave → lSlave.aSlaveAddress = a) ∧
    (∀ n, n ∈ (getSlaves lOrder maps w).1 ↔ n ∈ lPars.map Prod.fst) ∧
    (getSlaves lOrder maps w).1.Nodup := by
  obtain ⟨_, hpair, hnd, _, _⟩ := constructor_spec stoul lPars m maps h
  have hfind : mapFind name maps.mSlaves = (mapFind name maps.mSlavesAddresses).map I2CSlave.mk := by
    rw [hpair]
    exact mapFind_map I2CSlave.mk name maps.mSlavesAddresses
  have hkeys : ∀ n, n ∈ maps.mSlavesAddresses.map Prod.fst ↔ n ∈ lPars.map Prod.fst := by
    intro n
    have h1 := constructor_names stoul lPars m maps h n
    have h2 := mapFind_none_iff n maps.mSlavesAddresses
    constructor
    · intro hn
      by_contra hcon
      exact (h2.mp (h1.mpr hcon)) hn
    · intro hn
      by_contra hcon
      exact (h1.mp (h2.mpr hcon)) hn
  have hkeys2 : ∀ n, n ∈ (getSlaves lOrder maps w).1 ↔ n ∈ lPars.map Prod.fst := by
    intro n
    rw [← hkeys n]
    exact not_iff_not.mp (getSlaves_mem lOrder hOrder maps n w)
  refine ⟨?_, hkeys2, getSlaves_nodup lOrder hOrder maps w hnd⟩
  cases hf : mapFind name maps.mSlavesAddresses with
  | none =>
    exact absurd hname ((constructor_names stoul lPars m maps h name).mp hf)
  | some a =>
    refine ⟨a, ?_, ?_, ?_⟩
    · simp [getSlaveAddress, hf]
    · simp [getSlave, hfind, hf]
    · intro lSlave hl
      simp only [getSlave, hfind, hf, Option.map_some', Result.ok.injEq] at hl
      rw [← hl]

/-- Witness of C16: a registry with the devices "dac" at "12" and "pll" at
"200", the map being iterated in the reverse of the order of insertion. -/
theorem C16_handle_address_witness :
    (constructor stoulDecimal [("dac", "12"), ("pll", "200")] =
        some (⟨0x40⟩, ⟨[("dac", 12), ("pll", 72)], [("dac", ⟨12⟩), ("pll", ⟨72⟩)]⟩) ∧
      (∀ l : List (String × Nat), (List.reverse l).Perm l) ∧
      "pll" ∈ ([("dac", "12"), ("pll", "200")] : List (String × String)).map Prod.fst) ∧
    ∃ a, (getSlaveAddress ⟨[("dac", 12), ("pll", 72)], [("dac", ⟨12⟩), ("pll", ⟨72⟩)]⟩ "pll"
        (World.init (0 : Nat))).1 = Result.ok a ∧
      (getSlave ⟨[("dac", 12), ("pll", 72)], [("dac", ⟨12⟩), ("pll", ⟨72⟩)]⟩ "pll"
        (World.init (0 : Nat))).1 = Result.ok (I2CSlave.mk a) ∧
      ∀ lSlave, (getSlave ⟨[("dac", 12), ("pll", 72)], [("dac", ⟨12⟩), ("pll", ⟨72⟩)]⟩ "pll"
        (World.init (0 : Nat))).1 = Result.ok lSlave → lSlave.aSlaveAddress = a :=
  ⟨⟨rfl, fun l => List.reverse_perm l, by decide⟩,
    (C16_handle_address stoulDecimal [("dac", "12"), ("pll", "200")] ⟨0x40⟩
      ⟨[("dac", 12), ("pll", 72)], [("dac", ⟨12⟩), ("pll", ⟨72⟩)]⟩ rfl List.reverse
      (fun l => List.reverse_perm l) "pll" (by decide) (World.init (0 : Nat))).1⟩

/-- C17: whatever the parser, for every configured pair (name, address string)
of a parameter map (names distinct) whose string parses to `n`, the registered
address is `n & 0x7F`: `getSlaveAddress(name)` returns it; every address in the
registry is at most 0x7F, so a number out of the 7-bit range is truncated and
not rejected; a string that parses to 200 is registered as 72 (0x48), as is
"200" with the decimal parser. -/
theorem C17_address_masked :
    (∀ (stoul : String → Option Nat) (lPars : List (String × String)) (m : I2CMasterNode)
      (maps : SlaveMaps), constructor stoul lPars = some (m, maps) →
      (lPars.map Prod.fst).Nodup →
      (∀ (name text : String) (n : Nat), (name, text) ∈ lPars → stoul text = some n →
        mapFind name maps.mSlavesAddresses = some (n &&& 0x7F) ∧
        mapFind name maps.mSlaves = some (I2CSlave.mk (n &&& 0x7F)) ∧
        ∀ w : World Nat, (getSlaveAddress maps name w).1 = Result.ok (n &&& 0x7F)) ∧
      (∀ p, p ∈ maps.mSlavesAddresses → p.2 ≤ 0x7F) ∧
      (∀ p, p ∈ maps.mSlaves → p.2.aSlaveAddress ≤ 0x7F)) ∧
    (∀ (stoul : String → Option Nat) (name text : String), stoul text = some 200 →
      constructor stoul [(name, text)] = some (⟨0x40⟩, ⟨[(name, 72)], [(name, ⟨72⟩)]⟩)) ∧
    (getSlaveAddress (⟨[("pll", 72)], [("pll", ⟨72⟩)]⟩ : SlaveMaps) "pll"
        (World.init (0 : Nat))).1 = Result.ok 72 ∧
    constructor stoulDecimal [("pll", "200")] =
      some (⟨0x40⟩, ⟨[("pll", 72)], [("pll", ⟨72⟩)]⟩) := by
  refine ⟨?_, ?_, rfl, rfl⟩
  · intro stoul lPars m maps h hnd
    obtain ⟨_, hpair, _, hle, hfind⟩ := constructor_spec stoul lPars m maps h
    refine ⟨?_, hle, ?_⟩
    · intro name text n hmem hparse
      have h1 : mapFind name maps.mSlavesAddresses = some (n &&& 0x7F) := by
        rw [hfind name, mapFind_of_mem_nodup name text lPars hnd hmem]
        simp [hparse]
      refine ⟨h1, ?_, ?_⟩
      · rw [hpair, mapFind_map I2CSlave.mk name maps.mSlavesAddresses, h1]
        rfl
      · intro w
        simp [getSlaveAddress, h1]
    · intro p hp
      rw [hpair] at hp
      obtain ⟨q, hq, hqp⟩ := List.mem_map.mp hp
      rw [← hqp]
      exact hle q hq
  · intro stoul name text hparse
    simp [constructor, buildSlaves, hparse, mapInsert, mapFind]
    decide

/-- A run of the write loop bounded to `j` iterations that all succeeded is the
beginning of every longer run. -/
theorem writeBytes_split (H : Hardware σ) (aArray : List Nat) (stop : Bool)
    (hlen : aArray.length < 4294967296) :
    ∀ (j extra i : Nat) (w wj : World σ), i + j ≤ aArray.length →
      writeBytes H aArray stop j i w = (Result.ok (), wj) →
      writeBytes H aArray stop (j + extra) i w = writeBytes H aArray stop extra (i + j) wj := by
  intro j
  induction j with
  | zero =>
    intro extra i w wj _ h
    simp only [writeBytes, Prod.mk.injEq, true_and] at h
    rw [h, Nat.zero_add, Nat.add_zero]
  | succ j ih =>
    intro extra i w wj hsum h
    have h1 : i < aArray.length := by omega
    have h2 : j + 1 + extra = (j + extra) + 1 := by omega
    have h3 : (i + 1) % 4294967296 = i + 1 := by omega
    have h4 : i + (j + 1) = i + 1 + j := by omega
    rw [h2, writeBytes_succ H aArray stop _ i w h1]
    rw [writeBytes_succ H aArray stop _ i w h1] at h
    obtain ⟨r, w1, hp⟩ : ∃ r w1, sendI2CCommandAndWriteData H
        (if (i == (aArray.length + 18446744073709551616 - 1) % 18446744073709551616)
            && stop then kStopCmd else 0x0) aArray[i] w = (r, w1) := ⟨_, _, rfl⟩
    rw [hp] at h
    simp only [hp]
    cases r with
    | ok u =>
      simp only [] at h ⊢
      rw [h3] at h ⊢
      rw [h4]
      exact ih extra (i + 1) w1 wj (by omega) h
    | raised e => simp at h
    | assertFailed => simp at h

/-- A run of the read loop bounded to `j` iterations that all succeeded is the
beginning of every longer run. -/
theorem readBytes_split (H : Hardware σ) (n : Nat) (hn : n < 4294967296) :
    ∀ (j extra i : Nat) (acc accj : List Nat) (w wj : World σ), i + j ≤ n →
      readBytes H n j i acc w = (Result.ok accj, wj) →
      readBytes H n (j + extra) i acc w = readBytes H n extra (i + j) accj wj := by
  intro j
  induction j with
  | zero =>
    intro extra i acc accj w wj _ h
    simp only [readBytes, Prod.mk.injEq, Result.ok.injEq] at h
    rw [h.1, h.2, Nat.zero_add, Nat.add_zero]
  | succ j ih =>
    intro extra i acc accj w wj hsum h
    have h1 : i < n := by omega
    have h2 : j + 1 + extra = (j + extra) + 1 := by omega
    have h3 : (i + 1) % 4294967296 = i + 1 := by omega
    have h4 : i + (j + 1) = i + 1 + j := by omega
    rw [h2, readBytes_succ H n _ i acc w h1]
    rw [readBytes_succ H n _ i acc w h1] at h
    obtain ⟨r, w1, hp⟩ : ∃ r w1, sendI2CCommandAndReadData H
        (if i == (n + 4294967296 - 1) % 4294967296 then kStopCmd ||| kAckCmd else 0x0) w =
        (r, w1) := ⟨_, _, rfl⟩
    rw [hp] at h
    simp only [hp]
    cases r with
    | ok b =>
      simp only [] at h ⊢
      rw [h3] at h ⊢
      rw [h4]
      exact ih extra (i + 1) (acc ++ [b]) accj w1 wj (by omega) h
    | raised e => simp at h
    | assertFailed => simp at h

/-- C19: on any device, in `writeBlockI2C` and `readBlockI2C` the first command
that throws a bus error `E` ends the operation: the operation throws the same
`E` and ends in the world `w1` in which that command ended.  This holds of the
start+address command, and of the command of byte `j` (from 0) once the address
command and the `j` commands before it succeeded (`writeBytes`/`readBytes`
bounded to `j` iterations returning normally).  A command throws exactly when
its completion wait does and ends where its wait ends, and a wait adds nothing
to the trace but polls of the status register; so after the failure nothing is
written: no retry, no later byte, no stop command. -/
theorem C19_first_error_propagates (H : Hardware σ) (m : I2CMasterNode) (a : Nat)
    (E : I2CException) (w : World σ) :
    (∀ (B : List Nat) (stop : Bool) (w1 : World σ),
      sendI2CCommandAndWriteData H kStartCmd (((a <<< 1) &&& 0xfe) % 256) (reset H m w) =
        (Result.raised E, w1) →
      writeBlockI2C H m a B stop w = (Result.raised E, w1)) ∧
    (∀ (B : List Nat) (stop : Bool) (j : Nat) (hj : j < B.length) (wa wj w1 : World σ),
      B.length < 4294967296 →
      sendI2CCommandAndWriteData H kStartCmd (((a <<< 1) &&& 0xfe) % 256) (reset H m w) =
        (Result.ok (), wa) →
      writeBytes H B stop j 0 wa = (Result.ok (), wj) →
      sendI2CCommandAndWriteData H (if (j == B.length - 1) && stop then kStopCmd else 0x0)
        B[j] wj = (Result.raised E, w1) →
      writeBlockI2C H m a B stop w = (Result.raised E, w1)) ∧
    (∀ (n : Nat) (w1 : World σ),
      sendI2CCommandAndWriteData H kStartCmd (((a <<< 1) ||| 0x01) % 256) (reset H m w) =
        (Result.raised E, w1) →
      readBlockI2C H m a n w = (Result.raised E, w1)) ∧
    (∀ (n j : Nat) (accj : List Nat) (wa wj w1 : World σ), j < n → n < 4294967296 →
      sendI2CCommandAndWriteData H kStartCmd (((a <<< 1) ||| 0x01) % 256) (reset H m w) =
        (Result.ok (), wa) →
      readBytes H n j 0 [] wa = (Result.ok accj, wj) →
      sendI2CCommandAndReadData H (if j == n - 1 then kStopCmd ||| kAckCmd else 0x0) wj =
        (Result.raised E, w1) →
      readBlockI2C H m a n w = (Result.raised E, w1)) ∧
    (∀ (c d : Nat) (w0 : World σ), c &&& kReadFromSlaveCmd = 0 →
      sendI2CCommandAndWriteData H c d w0 =
        waitUntilFinished H true (c &&& kStopCmd != 0)
          (dispatch H (write kCmdNode (c ||| kWriteToSlaveCmd)
            (dispatch H (write kTxNode d w0))))) ∧
    (∀ (c : Nat) (w0 w1 : World σ), c &&& kWriteToSlaveCmd = 0 →
      (sendI2CCommandAndReadData H c w0 = (Result.raised E, w1) ↔
        waitUntilFinished H false (c &&& kStopCmd != 0)
          (dispatch H (write kCmdNode (c ||| kReadFromSlaveCmd) w0)) =
          (Result.raised E, w1))) ∧
    (∀ (ack idle : Bool) (w0 : World σ), w0.queue = [] →
      ∃ rest, (waitUntilFinished H ack idle w0).2.trace = w0.trace ++ rest ∧
        busLog rest = []) := by
  refine ⟨?_, ?_, ?_, ?_, ?_, ?_, ?_⟩
  · intro B stop w1 h
    simp only [writeBlockI2C, h]
  · intro B stop j hj wa wj w1 hlen ha hpre hfail
    have hsz : (B.length + 18446744073709551616 - 1) % 18446744073709551616 = B.length - 1 := by
      omega
    have hfuel : B.length = j + ((B.length - j - 1) + 1) := by omega
    simp only [writeBlockI2C, ha]
    rw [hfuel, writeBytes_split H B stop hlen j _ 0 wa wj (by omega) hpre, Nat.zero_add,
      writeBytes_succ H B stop _ j wj hj, hsz, hfail]
  · intro n w1 h
    simp only [readBlockI2C, h]
  · intro n j accj wa wj w1 hj hn ha hpre hfail
    have hsz : (n + 4294967296 - 1) % 4294967296 = n - 1 := by omega
    have hfuel : n = j + ((n - j - 1) + 1) := by omega
    simp only [readBlockI2C, ha]
    have hrun : readBytes H n (j + ((n - j - 1) + 1)) 0 [] wa = (Result.raised E, w1) := by
      rw [readBytes_split H n hn j _ 0 [] accj wa wj (by omega) hpre, Nat.zero_add,
        readBytes_succ H n _ j accj wj hj, hsz, hfail]
    rw [← hfuel] at hrun
    exact hrun
  · intro c d w0 hc
    simp only [sendI2CCommandAndWriteData, hc, bne_self_eq_false, Bool.false_eq_true, if_false]
  · intro c w0 w1 hc
    simp only [sendI2CCommandAndReadData, hc, bne_self_eq_false, Bool.false_eq_true, if_false]
    obtain ⟨r, w3, hp⟩ : ∃ r w3, waitUntilFinished H false (c &&& kStopCmd != 0)
        (dispatch H (write kCmdNode (c ||| kReadFromSlaveCmd) w0)) = (r, w3) := ⟨_, _, rfl⟩
    simp only [hp]
    cases r <;> simp
  · intro ack idle w0 hq
    exact (waitUntilFinished_spec H ack idle w0 hq).2

/-- Witness of C19: writing 1, 2, 3 to address 0x55 on a bus that does not
acknowledge the second byte: the address command and the first byte succeed,
the command of the second byte throws `I2CNoAcknowledgeReceived`, and so does
`writeBlockI2C`, ending in the world that command left. -/
theorem C19_first_error_propagates_witness :
    writeBlockI2C (statusBus nackOnThird) ⟨0x40⟩ 0x55 [1, 2, 3] true (World.init 0) =
      (Result.raised I2CException.I2CNoAcknowledgeReceived,
        (sendI2CCommandAndWriteData (statusBus nackOnThird) 0x0 2
          (writeBytes (statusBus nackOnThird) [1, 2, 3] true 1 0
            (sendI2CCommandAndWriteData (statusBus nackOnThird) kStartCmd 0xAA
              (reset (statusBus nackOnThird) ⟨0x40⟩ (World.init 0))).2).2).2) ∧
    commandsOf (busLog
      (writeBlockI2C (statusBus nackOnThird) ⟨0x40⟩ 0x55 [1, 2, 3] true
        (World.init 0)).2.trace) = [0x00, 0x90, 0x10, 0x10] :=
  ⟨(C19_first_error_propagates (statusBus nackOnThird) ⟨0x40⟩ 0x55
      I2CException.I2CNoAcknowledgeReceived (World.init 0)).2.1 [1, 2, 3] true 1 (by decide)
      (sendI2CCommandAndWriteData (statusBus nackOnThird) kStartCmd 0xAA
        (reset (statusBus nackOnThird) ⟨0x40⟩ (World.init 0))).2
      (writeBytes (statusBus nackOnThird) [1, 2, 3] true 1 0
        (sendI2CCommandAndWriteData (statusBus nackOnThird) kStartCmd 0xAA
          (reset (statusBus nackOnThird) ⟨0x40⟩ (World.init 0))).2).2
      (sendI2CCommandAndWriteData (statusBus nackOnThird) 0x0 2
        (writeBytes (statusBus nackOnThird) [1, 2, 3] true 1 0
          (sendI2CCommandAndWriteData (statusBus nackOnThird) kStartCmd 0xAA
            (reset (statusBus nackOnThird) ⟨0x40⟩ (World.init 0))).2).2).2
      (by decide) (by rfl) (by rfl) (by rfl),
    by decide⟩

/-- C20: on any device, for every command byte `c` without the read-from-slave
flag (`c & 0x20 = 0`) and every data byte `d`, from a world with an empty queue
`sendI2CCommandAndWriteData` queues the write of `d` to the data register and
dispatches it, then queues the write of `c | 0x10` to the command register and
dispatches it, so the device receives the data byte before the command; its
outcome is then that of `waitUntilFinished` with acknowledgment required and
bus-idle-at-end required exactly when `c` has the stop flag 0x40, and the wait
adds nothing but polls of the status register. -/
theorem C20_sendWrite_order (H : Hardware σ) (c d : Nat) (w : World σ)
    (hq : w.queue = []) (hc : c &&& 0x20 = 0) :
    sendI2CCommandAndWriteData H c d w =
      waitUntilFinished H true (c &&& 0x40 != 0)
        (dispatch H (write Reg.cmd_stat (c ||| 0x10) (dispatch H (write Reg.data d w)))) ∧
    (dispatch H (write Reg.cmd_stat (c ||| 0x10) (dispatch H (write Reg.data d w)))).trace =
      w.trace ++ [Event.enqueue (Access.write Reg.data d),
        Event.dispatch [wrote Reg.data d],
        Event.enqueue (Access.write Reg.cmd_stat (c ||| 0x10)),
        Event.dispatch [wrote Reg.cmd_stat (c ||| 0x10)]] ∧
    (dispatch H (write Reg.cmd_stat (c ||| 0x10) (dispatch H (write Reg.data d w)))).hw =
      H.poke Reg.cmd_stat (c ||| 0x10) (H.poke Reg.data d w.hw) ∧
    ∃ rest, (sendI2CCommandAndWriteData H c d w).2.trace =
        (dispatch H (write Reg.cmd_stat (c ||| 0x10)
          (dispatch H (write Reg.data d w)))).trace ++ rest ∧
      busLog rest = [] ∧
      busLog ((sendI2CCommandAndWriteData H c d w).2.trace.drop w.trace.length) =
        [wrote Reg.data d, wrote Reg.cmd_stat (c ||| 0x10)] := by
  have hc2 : c &&& kReadFromSlaveCmd = 0 := hc
  have heq : sendI2CCommandAndWriteData H c d w =
      waitUntilFinished H true (c &&& 0x40 != 0)
        (dispatch H (write Reg.cmd_stat (c ||| 0x10) (dispatch H (write Reg.data d w)))) := by
    simp only [sendI2CCommandAndWriteData, hc2, bne_self_eq_false, Bool.false_eq_true, if_false]
    rfl
  have htr : (dispatch H (write Reg.cmd_stat (c ||| 0x10)
      (dispatch H (write Reg.data d w)))).trace =
      w.trace ++ [Event.enqueue (Access.write Reg.data d),
        Event.dispatch [wrote Reg.data d],
        Event.enqueue (Access.write Reg.cmd_stat (c ||| 0x10)),
        Event.dispatch [wrote Reg.cmd_stat (c ||| 0x10)]] := by
    simp [dispatch, write, hq, Hardware.run, wrote]
  obtain ⟨_, rest, h2, h3⟩ := waitUntilFinished_spec H true (c &&& 0x40 != 0)
    (dispatch H (write Reg.cmd_stat (c ||| 0x10) (dispatch H (write Reg.data d w)))) rfl
  refine ⟨heq, htr, ?_, rest, by rw [heq, h2], h3, ?_⟩
  · simp [dispatch, write, hq, Hardware.run]
  · rw [heq, h2, htr, List.append_assoc, List.drop_left, busLog_append, h3]
    simp [busLog, sentOf, wrote, kStatusNode]

/-- Witness of C20: the command 0x40 (stop) with the data byte 7 on a bus whose
status always reads 0. -/
theorem C20_sendWrite_order_witness :
    ((World.init (0 : Nat)).queue = [] ∧ (0x40 &&& 0x20 : Nat) = 0) ∧
    sendI2CCommandAndWriteData (statusBus (fun _ => 0)) 0x40 7 (World.init 0) =
      waitUntilFinished (statusBus (fun _ => 0)) true ((0x40 &&& 0x40 : Nat) != 0)
        (dispatch (statusBus (fun _ => 0)) (write Reg.cmd_stat (0x40 ||| 0x10)
          (dispatch (statusBus (fun _ => 0)) (write Reg.data 7 (World.init 0))))) :=
  ⟨⟨rfl, by decide⟩,
    (C20_sendWrite_order (statusBus (fun _ => 0)) 0x40 7 (World.init 0) rfl (by decide)).1⟩

/-! ## The read command -/

/-- The poll loop throws nothing but `I2CBusArbitrationLost`. -/
theorem pollStatus_raises (H : Hardware σ) (M : Nat) :
    ∀ (fuel att : Nat) (a b : Bool) (w : World σ) (e : I2CException),
      (pollStatus H M fuel att a b w).1 = Result.raised e →
      e = I2CException.I2CBusArbitrationLost := by
  intro fuel
  induction fuel with
  | zero => intro att a b w e h; simp [pollStatus] at h
  | succ f ih =>
    intro att a b w e h
    rw [pollStatus_succ] at h
    split_ifs at h
    · have h2 : Result.raised I2CException.I2CBusArbitrationLost = Result.raised e := h
      injection h2 with h3
      exact h3.symm
    · exact ih _ _ _ _ e h

/-- A wait that does not require the acknowledgment never throws
`I2CNoAcknowledgeReceived`, whatever the status words are. -/
theorem waitUntilFinished_no_nack (H : Hardware σ) (idle : Bool) (w : World σ) :
    (waitUntilFinished H false idle w).1 ≠
      Result.raised I2CException.I2CNoAcknowledgeReceived := by
  have h1 := pollStatus_raises H lMaxRetry lMaxRetry 1 false false w
  unfold waitUntilFinished
  obtain ⟨r, w1, hp⟩ : ∃ r w1, pollStatus H lMaxRetry lMaxRetry 1 false false w = (r, w1) :=
    ⟨_, _, rfl⟩
  rw [hp] at h1
  simp only [hp]
  cases r with
  | ok v =>
    simp only [checkFinished, Bool.false_and, Bool.false_eq_true, if_false]
    split_ifs <;> simp
  | raised e =>
    have h2 := h1 e rfl
    subst h2
    simp
  | assertFailed => simp

/-- With the write-to-slave flag absent, `sendI2CCommandAndReadData` is: write
the command with the read flag, dispatch, wait without requiring the
acknowledgment, and after a successful wait read the data register. -/
theorem sendRead_eq (H : Hardware σ) (c : Nat) (w : World σ) (hc : c &&& kWriteToSlaveCmd = 0) :
    sendI2CCommandAndReadData H c w =
      match waitUntilFinished H false (c &&& kStopCmd != 0)
        (dispatch H (write kCmdNode (c ||| kReadFromSlaveCmd) w)) with
      | (Result.ok _, w3) =>
        (Result.ok ((read kRxNode w3).1.value (dispatch H (read kRxNode w3).2) &&& 0xff),
          dispatch H (read kRxNode w3).2)
      | (Result.raised e, w3) => (Result.raised e, w3)
      | (Result.assertFailed, w3) => (Result.assertFailed, w3) := by
  simp only [sendI2CCommandAndReadData, hc, bne_self_eq_false, Bool.false_eq_true, if_false]

/-- C21: on any device, for every command byte `c` without the write-to-slave
flag (`c & 0x10 = 0`), from a world with an empty queue
`sendI2CCommandAndReadData` queues the write of `c | 0x20` to the command
register and dispatches it; waits with the acknowledgment not required and
bus-idle-at-end required exactly when `c` has the stop flag 0x40, so it never
throws `I2CNoAcknowledgeReceived`; when the wait returns, it queues a read of
the data register, dispatches it and returns the value read `& 0xFF`, the read
being the last thing sent to the device; when the wait throws, it throws the
same and the device has received the command and status polls only: the data
register is not read. -/
theorem C21_sendRead_contract (H : Hardware σ) (c : Nat) (w : World σ)
    (hq : w.queue = []) (hc : c &&& 0x10 = 0) :
    (dispatch H (write Reg.cmd_stat (c ||| 0x20) w)).trace =
      w.trace ++ [Event.enqueue (Access.write Reg.cmd_stat (c ||| 0x20)),
        Event.dispatch [wrote Reg.cmd_stat (c ||| 0x20)]] ∧
    (dispatch H (write Reg.cmd_stat (c ||| 0x20) w)).hw = H.poke Reg.cmd_stat (c ||| 0x20) w.hw ∧
    (sendI2CCommandAndReadData H c w).1 ≠
      Result.raised I2CException.I2CNoAcknowledgeReceived ∧
    (∀ w3, waitUntilFinished H false (c &&& 0x40 != 0)
        (dispatch H (write Reg.cmd_stat (c ||| 0x20) w)) = (Result.ok (), w3) →
      sendI2CCommandAndReadData H c w =
        (Result.ok ((H.peek Reg.data w3.hw).1 &&& 0xFF),
          { hw := (H.peek Reg.data w3.hw).2, queue := [], valid := [(H.peek Reg.data w3.hw).1],
            trace := w3.trace ++ [Event.enqueue (Access.read Reg.data),
              Event.dispatch [got Reg.data (H.peek Reg.data w3.hw).1]] }) ∧
      ∃ polls, w3.trace = (dispatch H (write Reg.cmd_stat (c ||| 0x20) w)).trace ++ polls ∧
        busLog polls = [] ∧
        busLog ((sendI2CCommandAndReadData H c w).2.trace.drop w.trace.length) =
          [wrote Reg.cmd_stat (c ||| 0x20), got Reg.data (H.peek Reg.data w3.hw).1]) ∧
    (∀ e w3, waitUntilFinished H false (c &&& 0x40 != 0)
        (dispatch H (write Reg.cmd_stat (c ||| 0x20) w)) = (Result.raised e, w3) →
      sendI2CCommandAndReadData H c w = (Result.raised e, w3) ∧
      busLog ((sendI2CCommandAndReadData H c w).2.trace.drop w.trace.length) =
        [wrote Reg.cmd_stat (c ||| 0x20)]) := by
  have hc2 : c &&& kWriteToSlaveCmd = 0 := hc
  have htr : (dispatch H (write Reg.cmd_stat (c ||| 0x20) w)).trace =
      w.trace ++ [Event.enqueue (Access.write Reg.cmd_stat (c ||| 0x20)),
        Event.dispatch [wrote Reg.cmd_stat (c ||| 0x20)]] := by
    simp [dispatch, write, hq, Hardware.run, wrote]
  have hlog : busLog [Event.enqueue (Access.write Reg.cmd_stat (c ||| 0x20)),
      Event.dispatch [wrote Reg.cmd_stat (c ||| 0x20)]] = [wrote Reg.cmd_stat (c ||| 0x20)] := by
    simp [busLog, sentOf, wrote, kStatusNode]
  have heq := sendRead_eq H c w hc2
  have hwait : waitUntilFinished H false (c &&& kStopCmd != 0)
      (dispatch H (write kCmdNode (c ||| kReadFromSlaveCmd) w)) =
      waitUntilFinished H false (c &&& 0x40 != 0)
        (dispatch H (write Reg.cmd_stat (c ||| 0x20) w)) := rfl
  rw [hwait] at heq
  obtain ⟨hq3, polls, hp1, hp2⟩ := waitUntilFinished_spec H false (c &&& 0x40 != 0)
    (dispatch H (write Reg.cmd_stat (c ||| 0x20) w)) rfl
  have hnn := waitUntilFinished_no_nack H (c &&& 0x40 != 0)
    (dispatch H (write Reg.cmd_stat (c ||| 0x20) w))
  refine ⟨htr, ?_, ?_, ?_, ?_⟩
  · simp [dispatch, write, hq, Hardware.run]
  · rw [heq]
    obtain ⟨r, w3, hp⟩ : ∃ r w3, waitUntilFinished H false (c &&& 0x40 != 0)
        (dispatch H (write Reg.cmd_stat (c ||| 0x20) w)) = (r, w3) := ⟨_, _, rfl⟩
    rw [hp] at hnn
    simp only [hp]
    cases r with
    | ok u => simp
    | raised e => simpa using hnn
    | assertFailed => simp
  · intro w3 h3
    rw [h3] at hq3 hp1
    simp only [] at hq3 hp1
    have hres : sendI2CCommandAndReadData H c w =
        (Result.ok ((H.peek Reg.data w3.hw).1 &&& 0xFF),
          { hw := (H.peek Reg.data w3.hw).2, queue := [], valid := [(H.peek Reg.data w3.hw).1],
            trace := w3.trace ++ [Event.enqueue (Access.read Reg.data),
              Event.dispatch [got Reg.data (H.peek Reg.data w3.hw).1]] }) := by
      rw [heq, h3]
      simp [dispatch, read, hq3, Hardware.run, ValWord.value, got, kRxNode]
    refine ⟨hres, polls, hp1, hp2, ?_⟩
    rw [hres]
    simp only []
    rw [hp1, htr, List.append_assoc, List.append_assoc, List.drop_left, busLog_append,
      busLog_append, hlog, hp2]
    simp [busLog, sentOf, got, kStatusNode]
  · intro e w3 h3
    rw [h3] at hp1
    simp only [] at hp1
    have hres : sendI2CCommandAndReadData H c w = (Result.raised e, w3) := by
      rw [heq, h3]
    refine ⟨hres, ?_⟩
    rw [hres]
    simp only []
    rw [hp1, htr, List.append_assoc, List.drop_left, busLog_append, hlog, hp2]
    rfl

/-- Witness of C21: the command 0x48 (stop|ack) on a bus whose status always
reads 0x80 (finished, idle, received-ack bit set): the read succeeds. -/
theorem C21_sendRead_contract_witness :
    ((World.init (0 : Nat)).queue = [] ∧ (0x48 &&& 0x10 : Nat) = 0) ∧
    (sendI2CCommandAndReadData (statusBus (fun _ => 0x80)) 0x48 (World.init 0)).1 ≠
      Result.raised I2CException.I2CNoAcknowledgeReceived ∧
    (sendI2CCommandAndReadData (statusBus (fun _ => 0x80)) 0x48 (World.init 0)).1 =
      Result.ok 0 :=
  ⟨⟨rfl, by decide⟩,
    (C21_sendRead_contract (statusBus (fun _ => 0x80)) 0x48 (World.init 0) rfl
      (by decide)).2.2.1,
    by decide⟩

/-! ## Register-addressed transfers: the block sent -/

theorem and_ff_mod (x : Nat) : (x &&& 0xff) % 256 = x &&& 0xff := by
  have h : x &&& 0xff ≤ 0xff := Nat.and_le_right
  omega

/-- The loop of `writeI2CArray` copies the bytes that remain into the zero
bytes that follow those already set. -/
theorem fillBlock_spec (first : Nat) :
    ∀ (rest done : List Nat), (done ++ rest).length + 1 < 18446744073709551616 →
      fillBlock (done ++ rest) rest.length done.length
        (first :: done ++ List.replicate rest.length 0) = first :: (done ++ rest) := by
  intro rest
  induction rest with
  | nil =>
    intro done _
    simp [fillBlock]
  | cons x t ih =>
    intro done hlen
    have hlt : done.length < (done ++ x :: t).length := by
      rw [List.length_append, List.length_cons]
      omega
    have hx : (done ++ x :: t)[done.length] = x := by
      rw [List.getElem_append_right (Nat.le_refl _)]
      simp
    have hnext : (done.length + 1) % 18446744073709551616 = (done ++ [x]).length := by
      simp only [List.length_append, List.length_cons, List.length_nil] at hlen ⊢
      omega
    have hsplit : done ++ x :: t = (done ++ [x]) ++ t := by simp
    have hset : (first :: done ++ List.replicate (x :: t).length 0).set (done ++ [x]).length x =
        first :: (done ++ [x]) ++ List.replicate t.length 0 := by
      have e1 : first :: done ++ List.replicate (x :: t).length 0 =
          (first :: done) ++ (0 :: List.replicate t.length 0) := by
        simp [List.replicate_succ]
      have e2 : (done ++ [x]).length = (first :: done).length := by simp
      rw [e1, e2, List.set_append_right _ _ (Nat.le_refl _)]
      simp
    simp only [List.length_cons]
    rw [fillBlock, dif_pos hlt, hx, hnext]
    simp only [List.length_cons] at hset
    rw [hset, hsplit]
    exact ih (done ++ [x]) (by rw [← hsplit]; exact hlen)

/-- What a normally returning `writeBlockI2C` sends after its reset: the address
byte with the start command, then the bytes of the array. -/
theorem writeBlockI2C_log (H : Hardware σ) (m : I2CMasterNode) (a : Nat) (B : List Nat)
    (stop : Bool) (w : World σ) (hlen : B.length < 4294967296)
    (hok : (writeBlockI2C H m a B stop w).1 = Result.ok ()) :
    (writeBlockI2C H m a B stop w).2.queue = [] ∧
    ∃ rest, (writeBlockI2C H m a B stop w).2.trace = (reset H m w).trace ++ rest ∧
      busLog rest =
        [wrote Reg.data ((a <<< 1) &&& 0xFE), wrote Reg.cmd_stat 0x90] ++ writeXfers stop B := by
  unfold writeBlockI2C at hok ⊢
  simp only [] at hok ⊢
  rw [and_fe_mod] at hok ⊢
  obtain ⟨h1, rest1, h2, h3⟩ := sendWrite_spec H kStartCmd ((a <<< 1) &&& 0xfe)
    (reset H m w) (reset_queue H m w) (by decide)
  obtain ⟨r, w2, hp⟩ : ∃ r w2,
      sendI2CCommandAndWriteData H kStartCmd ((a <<< 1) &&& 0xfe) (reset H m w) = (r, w2) :=
    ⟨_, _, rfl⟩
  rw [hp] at hok h1 h2
  simp only [hp]
  cases r with
  | ok u =>
    simp only [] at hok h1 h2 ⊢
    obtain ⟨g1, rest2, g2, g3⟩ := writeBytes_spec H stop B [] w2 h1 hlen hok
    have g1a : (writeBytes H B stop B.length 0 w2).2.queue = [] := g1
    have g2a : (writeBytes H B stop B.length 0 w2).2.trace = w2.trace ++ rest2 := g2
    refine ⟨g1a, rest1 ++ rest2, by rw [g2a, h2, List.append_assoc], ?_⟩
    rw [busLog_append, h3, g3]
    simp [kTxNode, kCmdNode, kStartCmd, kWriteToSlaveCmd]
  | raised e => simp at hok
  | assertFailed => simp at hok

/-- What a normally returning `readBlockI2C` sends after its reset and returns:
the address byte with the start command, then one read per byte; the result has
as many bytes as were asked for. -/
theorem readBlockI2C_log (H : Hardware σ) (m : I2CMasterNode) (a n : Nat) (w : World σ)
    (hn : n < 4294967296) (bytes : List Nat)
    (hok : (readBlockI2C H m a n w).1 = Result.ok bytes) :
    ∃ rest d, (readBlockI2C H m a n w).2.trace = (reset H m w).trace ++ rest ∧
      d.length = n ∧ bytes = d.map (fun x => x &&& 0xff) ∧ bytes.length = n ∧
      busLog rest =
        [wrote Reg.data (((a <<< 1) ||| 0x01) % 256), wrote Reg.cmd_stat 0x90] ++ readXfers d := by
  unfold readBlockI2C at hok ⊢
  simp only [] at hok ⊢
  obtain ⟨h1, rest1, h2, h3⟩ := sendWrite_spec H kStartCmd (((a <<< 1) ||| 0x01) % 256)
    (reset H m w) (reset_queue H m w) (by decide)
  obtain ⟨r, w2, hp⟩ : ∃ r w2,
      sendI2CCommandAndWriteData H kStartCmd (((a <<< 1) ||| 0x01) % 256) (reset H m w) =
        (r, w2) := ⟨_, _, rfl⟩
  rw [hp] at hok h1 h2
  simp only [hp]
  cases r with
  | ok u =>
    simp only [] at hok h1 h2 ⊢
    obtain ⟨_, rest2, d, g2, g3, g4, g5⟩ :=
      readBytes_spec H n hn n 0 [] w2 h1 (by omega) bytes hok
    refine ⟨rest1 ++ rest2, d, by rw [g2, h2, List.append_assoc], g3, by simpa using g4, ?_, ?_⟩
    · rw [g4]
      simpa using g3
    · rw [busLog_append, h3, g5]
      simp [kTxNode, kCmdNode, kStartCmd, kWriteToSlaveCmd]
  | raised e => simp at hok
  | assertFailed => simp at hok

/-- C22: for every slave address `a`, register address `r`, payload `d` (of
fewer than 2^64 - 1 bytes, as every vector is) and `aSendStop`, the block that
`writeI2CArray` builds, `d.size() + 1` zero bytes whose first is set to
`r & 0xff` and whose others are filled from `d` by its loop, is
`[r & 0xFF, d_0, ..., d_(n-1)]`, of length `n + 1`, and `writeI2CArray` is
`writeBlockI2C` of that block with the same `aSendStop`: same outcome, same
trace, same device state.  `writeI2C(a, r, x, aSendStop)` is the case
`d = [x]`. -/
theorem C22_writeI2CArray_block (H : Hardware σ) (m : I2CMasterNode) (a r : Nat) (d : List Nat)
    (aSendStop : Bool) (w : World σ) (hlen : d.length + 1 < 18446744073709551616) :
    fillBlock d d.length 0
      ((List.replicate ((d.length + 1) % 18446744073709551616) 0).set 0 ((r &&& 0xff) % 256)) =
      (r &&& 0xFF) :: d ∧
    (fillBlock d d.length 0
      ((List.replicate ((d.length + 1) % 18446744073709551616) 0).set 0
        ((r &&& 0xff) % 256))).length = d.length + 1 ∧
    writeI2CArray H m a r d aSendStop w = writeBlockI2C H m a ((r &&& 0xFF) :: d) aSendStop w ∧
    (∀ x, writeI2C H m a r x aSendStop w = writeI2CArray H m a r [x] aSendStop w ∧
      writeI2C H m a r x aSendStop w = writeBlockI2C H m a [r &&& 0xFF, x] aSendStop w) := by
  have hblock : ∀ d1 : List Nat, d1.length + 1 < 18446744073709551616 →
      fillBlock d1 d1.length 0
        ((List.replicate ((d1.length + 1) % 18446744073709551616) 0).set 0
          ((r &&& 0xff) % 256)) = (r &&& 0xFF) :: d1 := by
    intro d1 h1
    have e1 : (d1.length + 1) % 18446744073709551616 = d1.length + 1 := by omega
    have h2 := fillBlock_spec (r &&& 0xFF) d1 [] (by simpa using h1)
    rw [e1, and_ff_mod, List.replicate_succ, List.set_cons_zero]
    simpa using h2
  refine ⟨hblock d hlen, ?_, ?_, ?_⟩
  · rw [hblock d hlen]
    simp
  · unfold writeI2CArray
    simp only []
    rw [hblock d hlen]
  · intro x
    refine ⟨rfl, ?_⟩
    unfold writeI2C writeI2CArray
    simp only []
    rw [hblock [x] (by simp)]

/-- Witness of C22: the payload [1, 2] for register address 0x1234 (low byte
0x34) of address 0x55, with a stop, on a bus whose status always reads 0. -/
theorem C22_writeI2CArray_block_witness :
    ([1, 2] : List Nat).length + 1 < 18446744073709551616 ∧
    writeI2CArray (statusBus (fun _ => 0)) ⟨0x40⟩ 0x55 0x1234 [1, 2] true (World.init 0) =
      writeBlockI2C (statusBus (fun _ => 0)) ⟨0x40⟩ 0x55 ((0x1234 &&& 0xFF) :: [1, 2]) true
        (World.init 0) ∧
    commandsOf (busLog (writeI2CArray (statusBus (fun _ => 0)) ⟨0x40⟩ 0x55 0x1234 [1, 2] true
      (World.init 0)).2.trace) = [0x00, 0x90, 0x10, 0x10, 0x50] ∧
    dataWrites (busLog (writeI2CArray (statusBus (fun _ => 0)) ⟨0x40⟩ 0x55 0x1234 [1, 2] true
      (World.init 0)).2.trace) = [0x00, 0xAA, 0x34, 1, 2] :=
  ⟨by decide,
    (C22_writeI2CArray_block (statusBus (fun _ => 0)) ⟨0x40⟩ 0x55 0x1234 [1, 2] true
      (World.init 0) (by decide)).2.2.1,
    by decide, by decide⟩

/-- C23: on any device, for every slave address `a`, register address `r` and
count `n`, `readI2CArray` performs `writeBlockI2C(a, [r & 0xFF])` with the stop
flag sent (`aSendStop` at its default, true: when the block write returns, what
it sent after its reset is the address byte with command 0x90 and `r & 0xFF`
with command 0x50 = stop|write), then, from the world the write left,
`readBlockI2C(a, n)`, whose outcome it returns; when the block write throws,
`readI2CArray` throws the same and the block read is not started.  A
`readI2CArray` of one byte that returns, returns exactly one byte, so element 0
that `readI2C` takes exists and is its result; `readI2C` never reads out of
bounds, and throws what `readI2CArray` throws. -/
theorem C23_readI2CArray_sequence (H : Hardware σ) (m : I2CMasterNode) (a r : Nat)
    (w : World σ) :
    aSendStopDefault = true ∧
    (∀ n w1, writeBlockI2C H m a [r &&& 0xFF] true w = (Result.ok (), w1) →
      readI2CArray H m a r n w = readBlockI2C H m a n w1 ∧
      ∃ rest, w1.trace = (reset H m w).trace ++ rest ∧
        busLog rest = [wrote Reg.data ((a <<< 1) &&& 0xFE), wrote Reg.cmd_stat 0x90,
          wrote Reg.data (r &&& 0xFF), wrote Reg.cmd_stat 0x50]) ∧
    (∀ n e w1, writeBlockI2C H m a [r &&& 0xFF] true w = (Result.raised e, w1) →
      readI2CArray H m a r n w = (Result.raised e, w1)) ∧
    (∀ n, n < 4294967296 → ∀ l, (readI2CArray H m a r n w).1 = Result.ok l → l.length = n) ∧
    (∀ l w2, readI2CArray H m a r 1 w = (Result.ok l, w2) →
      l.length = 1 ∧ ∃ b, l = [b] ∧ l[0]? = some b ∧
        readI2C H m a r w = (Result.ok (some b), w2)) ∧
    (∀ e w2, readI2CArray H m a r 1 w = (Result.raised e, w2) →
      readI2C H m a r w = (Result.raised e, w2)) ∧
    (readI2C H m a r w).1 ≠ Result.ok none := by
  have hdef : ∀ n, readI2CArray H m a r n w =
      match writeBlockI2C H m a [r &&& 0xFF] true w with
      | (Result.ok _, w1) => readBlockI2C H m a n w1
      | (Result.raised e, w1) => (Result.raised e, w1)
      | (Result.assertFailed, w1) => (Result.assertFailed, w1) := by
    intro n
    unfold readI2CArray aSendStopDefault
    simp only []
    rw [and_ff_mod]
  have hlen : ∀ n, n < 4294967296 → ∀ l, (readI2CArray H m a r n w).1 = Result.ok l →
      l.length = n := by
    intro n hn l hl
    rw [hdef n] at hl
    obtain ⟨r1, w1, hp⟩ : ∃ r1 w1, writeBlockI2C H m a [r &&& 0xFF] true w = (r1, w1) :=
      ⟨_, _, rfl⟩
    rw [hp] at hl
    cases r1 with
    | ok u =>
      simp only [] at hl
      obtain ⟨_, _, _, _, _, h4, _⟩ := readBlockI2C_log H m a n w1 hn l hl
      exact h4
    | raised e => simp at hl
    | assertFailed => simp at hl
  have hone : ∀ l w2, readI2CArray H m a r 1 w = (Result.ok l, w2) →
      l.length = 1 ∧ ∃ b, l = [b] ∧ l[0]? = some b ∧
        readI2C H m a r w = (Result.ok (some b), w2) := by
    intro l w2 h
    have h1 : l.length = 1 := hlen 1 (by decide) l (by rw [h])
    obtain ⟨b, hb⟩ : ∃ b, l = [b] := List.length_eq_one.mp h1
    refine ⟨h1, b, hb, by rw [hb]; rfl, ?_⟩
    unfold readI2C
    rw [h, hb]
    rfl
  refine ⟨rfl, ?_, ?_, hlen, hone, ?_, ?_⟩
  · intro n w1 h
    refine ⟨by rw [hdef n, h], ?_⟩
    obtain ⟨_, rest, h2, h3⟩ := writeBlockI2C_log H m a [r &&& 0xFF] true w (by simp)
      (by rw [h])
    rw [h] at h2
    exact ⟨rest, h2, by rw [h3]; rfl⟩
  · intro n e w1 h
    rw [hdef n, h]
  · intro e w2 h
    unfold readI2C
    rw [h]
  · obtain ⟨r1, w2, hp⟩ : ∃ r1 w2, readI2CArray H m a r 1 w = (r1, w2) := ⟨_, _, rfl⟩
    cases r1 with
    | ok l =>
      obtain ⟨_, b, _, _, h4⟩ := hone l w2 hp
      rw [h4]
      simp
    | raised e =>
      unfold readI2C
      rw [hp]
      simp
    | assertFailed =>
      unfold readI2C
      rw [hp]
      simp

/-- Witness of C23: register 0x1234 of address 0x55 on a bus whose registers
always read 0: `readI2CArray` of 3 bytes sends the register byte 0x34 with the
command stop|write, resets again, sends the address byte with the read bit and
reads 3 bytes; `readI2C` returns the one byte read. -/
theorem C23_readI2CArray_sequence_witness :
    commandsOf (busLog (readI2CArray (statusBus (fun _ => 0)) ⟨0x40⟩ 0x55 0x1234 3
      (World.init 0)).2.trace) = [0x00, 0x90, 0x50, 0x00, 0x90, 0x20, 0x20, 0x68] ∧
    dataWrites (busLog (readI2CArray (statusBus (fun _ => 0)) ⟨0x40⟩ 0x55 0x1234 3
      (World.init 0)).2.trace) = [0x00, 0xAA, 0x34, 0x00, 0xAB] ∧
    (readI2CArray (statusBus (fun _ => 0)) ⟨0x40⟩ 0x55 0x1234 3 (World.init 0)).1 =
      Result.ok [0, 0, 0] ∧
    ([0, 0, 0] : List Nat).length = 3 ∧
    (readI2C (statusBus (fun _ => 0)) ⟨0x40⟩ 0x55 0x1234 (World.init 0)).1 ≠ Result.ok none ∧
    (readI2C (statusBus (fun _ => 0)) ⟨0x40⟩ 0x55 0x1234 (World.init 0)).1 =
      Result.ok (some 0) :=
  ⟨by decide, by decide, by decide,
    (C23_readI2CArray_sequence (statusBus (fun _ => 0)) ⟨0x40⟩ 0x55 0x1234
      (World.init 0)).2.2.2.1 3 (by decide) [0, 0, 0] (by decide),
    (C23_readI2CArray_sequence (statusBus (fun _ => 0)) ⟨0x40⟩ 0x55 0x1234
      (World.init 0)).2.2.2.2.2.2,
    by decide⟩

/-! ## The outcome of a wait, case by case -/

/-- The three ways a wait on the status stream `s` ends: at the first word with
the arbitration lost, at the first word with the transfer finished, or after 20
words that all showed the transfer in progress. -/
theorem statusBus_wait_cases (s : Nat → Nat) (ack idle : Bool) :
    (∃ k, k < 20 ∧ (∀ j, j < k → s j &&& 32 = 0 ∧ s j &&& 2 ≠ 0) ∧ s k &&& 32 ≠ 0 ∧
      waitUntilFinished (statusBus s) ack idle (World.init 0) =
        (Result.raised I2CException.I2CBusArbitrationLost,
          polled (statusBus s) (k + 1) (World.init 0))) ∨
    (∃ k, k < 20 ∧ (∀ j, j < k → s j &&& 32 = 0 ∧ s j &&& 2 ≠ 0) ∧
      s k &&& 32 = 0 ∧ s k &&& 2 = 0 ∧
      waitUntilFinished (statusBus s) ack idle (World.init 0) =
        (if ack && (s k &&& 128 != 0) then
            Result.raised I2CException.I2CNoAcknowledgeReceived
          else if idle && (s k &&& 64 != 0) then
            Result.raised I2CException.I2CTransferFinishedBusStillBusy
          else Result.ok (), polled (statusBus s) (k + 1) (World.init 0))) ∨
    ((∀ j, j < 20 → s j &&& 32 = 0 ∧ s j &&& 2 ≠ 0) ∧
      waitUntilFinished (statusBus s) ack idle (World.init 0) =
        (Result.raised I2CException.I2CTransactionTimeout,
          polled (statusBus s) 20 (World.init 0))) := by
  rcases first_decisive (fun j => s j &&& 32 = 0 ∧ s j &&& 2 ≠ 0) 20 with
    hall | ⟨k, hk, hpre, hnot⟩
  · exact Or.inr (Or.inr ⟨hall, statusBus_wait_exhausted s ack idle hall⟩)
  · by_cases hl : s k &&& 32 = 0
    · have ht : s k &&& 2 = 0 := by
        by_contra h2
        exact hnot ⟨hl, h2⟩
      exact Or.inr (Or.inl ⟨k, hk, hpre, hl, ht, statusBus_wait_done s ack idle k hk hpre hl ht⟩)
    · exact Or.inl ⟨k, hk, hpre, hl, statusBus_wait_lost s ack idle k hk hpre hl⟩

/-- The events of `k` polls depend on the first `k` status words only. -/
theorem pollTrace_congr (s t : Nat → Nat) :
    ∀ (k n : Nat), (∀ j, j < k → t (n + j) = s (n + j)) → pollTrace t n k = pollTrace s n k := by
  intro k
  induction k with
  | zero => intro n _; rfl
  | succ k ih =>
    intro n h
    have h0 : t n = s n := by simpa using h 0 (Nat.succ_pos k)
    have h1 : pollTrace t (n + 1) k = pollTrace s (n + 1) k :=
      ih (n + 1) (fun j hj => by
        have h2 := h (j + 1) (by omega)
        have e : n + (j + 1) = n + 1 + j := by omega
        rw [e] at h2
        exact h2)
    simp only [pollTrace, h0, h1]

/-- C24: for every stream of status words `s` (word `s j` answers poll `j+1`)
and both flags, `waitUntilFinished` returns normally if and only if there is an
attempt `k+1 <= 20` such that the words before it all have transfer-in-progress
(0x02) set and arbitration-lost (0x20) clear, word `s k` has both clear, and
(acknowledgment is not required or `s k` has 0x80 clear) and (bus idle is not
required or `s k` has 0x40 clear).  Whenever the loop ends at such a word, the
outcome is decided by the bits 0x80 and 0x40 of that word alone, and exactly
`k+1` status reads have been made. -/
theorem C24_success_iff (s : Nat → Nat) (aRequireAcknowledgement aRequireBusIdleAtEnd : Bool) :
    ((waitUntilFinished (statusBus s) aRequireAcknowledgement aRequireBusIdleAtEnd
        (World.init 0)).1 = Result.ok () ↔
      ∃ k, k < 20 ∧ (∀ j, j < k → s j &&& 0x02 ≠ 0 ∧ s j &&& 0x20 = 0) ∧
        s k &&& 0x02 = 0 ∧ s k &&& 0x20 = 0 ∧
        (aRequireAcknowledgement = false ∨ s k &&& 0x80 = 0) ∧
        (aRequireBusIdleAtEnd = false ∨ s k &&& 0x40 = 0)) ∧
    (∀ k, k < 20 → (∀ j, j < k → s j &&& 0x02 ≠ 0 ∧ s j &&& 0x20 = 0) →
      s k &&& 0x02 = 0 → s k &&& 0x20 = 0 →
      (waitUntilFinished (statusBus s) aRequireAcknowledgement aRequireBusIdleAtEnd
        (World.init 0)).1 =
        (if aRequireAcknowledgement && (s k &&& 0x80 != 0) then
            Result.raised I2CException.I2CNoAcknowledgeReceived
          else if aRequireBusIdleAtEnd && (s k &&& 0x40 != 0) then
            Result.raised I2CException.I2CTransferFinishedBusStillBusy
          else Result.ok ()) ∧
      (waitUntilFinished (statusBus s) aRequireAcknowledgement aRequireBusIdleAtEnd
        (World.init 0)).2.trace = pollTrace s 0 (k + 1) ∧
      statusLog (waitUntilFinished (statusBus s) aRequireAcknowledgement aRequireBusIdleAtEnd
        (World.init 0)).2.trace = (List.range (k + 1)).map s) := by
  constructor
  · constructor
    · intro h
      rcases statusBus_wait_cases s aRequireAcknowledgement aRequireBusIdleAtEnd with
        ⟨k, _, _, _, hw⟩ | ⟨k, hk, hpre, hl, ht, hw⟩ | ⟨_, hw⟩
      · rw [hw] at h
        simp at h
      · rw [hw] at h
        simp only [] at h
        split_ifs at h with h1 h2
        simp only [Bool.and_eq_true, bne_iff_ne, ne_eq, not_and, not_not] at h1 h2
        refine ⟨k, hk, fun j hj => ⟨(hpre j hj).2, (hpre j hj).1⟩, ht, hl, ?_, ?_⟩
        · by_cases ha : aRequireAcknowledgement = true
          · exact Or.inr (h1 ha)
          · exact Or.inl (by simpa using ha)
        · by_cases hi : aRequireBusIdleAtEnd = true
          · exact Or.inr (h2 hi)
          · exact Or.inl (by simpa using hi)
      · rw [hw] at h
        simp at h
    · rintro ⟨k, hk, hpre, ht, hl, hack, hidle⟩
      rw [statusBus_wait_done s _ _ k hk (fun j hj => ⟨(hpre j hj).2, (hpre j hj).1⟩) hl ht]
      rcases hack with hack | hack <;> rcases hidle with hidle | hidle <;> simp [hack, hidle]
  · intro k hk hpre ht hl
    rw [statusBus_wait_done s _ _ k hk (fun j hj => ⟨(hpre j hj).2, (hpre j hj).1⟩) hl ht]
    exact ⟨rfl, (statusBus_polled_init s (k + 1)).2.1, (statusBus_polled_init s (k + 1)).2.2⟩

/-- C25: for every (infinite) stream of status words `s` and both flags,
`waitUntilFinished` ends after some number `k` of polls with `1 <= k <= 20`:
its trace is `k` times a sleep of the fixed 10 microseconds, a status read and
a dispatch, and the device has answered `s 0 .. s (k-1)` and no more.  Its
outcome and its trace are a function of the flags and of these `k` words: on
every stream that agrees with `s` on the first `k` words it gives the same
outcome and the same trace, whatever the later words are.  The bound of 20 on
the iterations of the model is the loop guard of the source and never cuts the
loop short: with any larger bound the loop gives the same. -/
theorem C25_bounded_deterministic (s : Nat → Nat)
    (aRequireAcknowledgement aRequireBusIdleAtEnd : Bool) :
    (∃ k, 1 ≤ k ∧ k ≤ 20 ∧
      (waitUntilFinished (statusBus s) aRequireAcknowledgement aRequireBusIdleAtEnd
        (World.init 0)).2.trace = pollTrace s 0 k ∧
      statusLog (waitUntilFinished (statusBus s) aRequireAcknowledgement aRequireBusIdleAtEnd
        (World.init 0)).2.trace = (List.range k).map s ∧
      (waitUntilFinished (statusBus s) aRequireAcknowledgement aRequireBusIdleAtEnd
        (World.init 0)).2.hw = k ∧
      ∀ t : Nat → Nat, (∀ j, j < k → t j = s j) →
        (waitUntilFinished (statusBus t) aRequireAcknowledgement aRequireBusIdleAtEnd
          (World.init 0)).1 =
        (waitUntilFinished (statusBus s) aRequireAcknowledgement aRequireBusIdleAtEnd
          (World.init 0)).1 ∧
        (waitUntilFinished (statusBus t) aRequireAcknowledgement aRequireBusIdleAtEnd
          (World.init 0)).2.trace =
        (waitUntilFinished (statusBus s) aRequireAcknowledgement aRequireBusIdleAtEnd
          (World.init 0)).2.trace) ∧
    (∀ extra, pollStatus (statusBus s) lMaxRetry (lMaxRetry + extra) 1 false false
        (World.init 0) =
      pollStatus (statusBus s) lMaxRetry lMaxRetry 1 false false (World.init 0)) := by
  refine ⟨?_, fun extra => pollStatus_fuel (statusBus s) lMaxRetry lMaxRetry extra 1 false false
    (World.init 0) (by unfold lMaxRetry; omega)⟩
  have hsame : ∀ (t : Nat → Nat) (k : Nat), (∀ j, j < k → t j = s j) →
      pollTrace t 0 k = pollTrace s 0 k := by
    intro t k h
    exact pollTrace_congr s t k 0 (fun j hj => by simpa using h j hj)
  rcases statusBus_wait_cases s aRequireAcknowledgement aRequireBusIdleAtEnd with
    ⟨k, hk, hpre, hl, hw⟩ | ⟨k, hk, hpre, hl, ht, hw⟩ | ⟨hall, hw⟩
  · refine ⟨k + 1, by omega, by omega, ?_, ?_, ?_, ?_⟩
    · rw [hw]; exact (statusBus_polled_init s (k + 1)).2.1
    · rw [hw]; exact (statusBus_polled_init s (k + 1)).2.2
    · rw [hw]; exact (statusBus_polled_init s (k + 1)).1
    · intro t hts
      have hpre2 : ∀ j, j < k → t j &&& 32 = 0 ∧ t j &&& 2 ≠ 0 := by
        intro j hj
        rw [hts j (by omega)]
        exact hpre j hj
      have hl2 : t k &&& 32 ≠ 0 := by
        rw [hts k (by omega)]
        exact hl
      rw [hw, statusBus_wait_lost t _ _ k hk hpre2 hl2]
      refine ⟨rfl, ?_⟩
      simp only []
      rw [(statusBus_polled_init t (k + 1)).2.1, (statusBus_polled_init s (k + 1)).2.1]
      exact hsame t (k + 1) hts
  · refine ⟨k + 1, by omega, by omega, ?_, ?_, ?_, ?_⟩
    · rw [hw]; exact (statusBus_polled_init s (k + 1)).2.1
    · rw [hw]; exact (statusBus_polled_init s (k + 1)).2.2
    · rw [hw]; exact (statusBus_polled_init s (k + 1)).1
    · intro t hts
      have hpre2 : ∀ j, j < k → t j &&& 32 = 0 ∧ t j &&& 2 ≠ 0 := by
        intro j hj
        rw [hts j (by omega)]
        exact hpre j hj
      have hk2 : t k = s k := hts k (by omega)
      have hl2 : t k &&& 32 = 0 := by rw [hk2]; exact hl
      have ht2 : t k &&& 2 = 0 := by rw [hk2]; exact ht
      rw [hw, statusBus_wait_done t _ _ k hk hpre2 hl2 ht2, hk2]
      refine ⟨rfl, ?_⟩
      simp only []
      rw [(statusBus_polled_init t (k + 1)).2.1, (statusBus_polled_init s (k + 1)).2.1]
      exact hsame t (k + 1) hts
  · refine ⟨20, by omega, by omega, ?_, ?_, ?_, ?_⟩
    · rw [hw]; exact (statusBus_polled_init s 20).2.1
    · rw [hw]; exact (statusBus_polled_init s 20).2.2
    · rw [hw]; exact (statusBus_polled_init s 20).1
    · intro t hts
      have hall2 : ∀ j, j < 20 → t j &&& 32 = 0 ∧ t j &&& 2 ≠ 0 := by
        intro j hj
        rw [hts j hj]
        exact hall j hj
      rw [hw, statusBus_wait_exhausted t _ _ hall2]
      refine ⟨rfl, ?_⟩
      simp only []
      rw [(statusBus_polled_init t 20).2.1, (statusBus_polled_init s 20).2.1]
      exact hsame t 20 hts

/-- C28: when the status words of attempts 1..19 have transfer-in-progress
(0x02) set and arbitration-lost (0x20) clear and the word of attempt 20 has
transfer-in-progress clear, `waitUntilFinished` makes its 20 status reads and
does not throw `I2CTransactionTimeout`, for both flags; with arbitration-lost
clear in the 20th word too, its outcome is that of the acknowledgment and
bus-idle checks on the 20th word, and it returns normally when these pass. -/
theorem C28_last_attempt_completes (s : Nat → Nat)
    (aRequireAcknowledgement aRequireBusIdleAtEnd : Bool)
    (hbefore : ∀ j, j < 19 → s j &&& 0x02 ≠ 0 ∧ s j &&& 0x20 = 0)
    (hclear : s 19 &&& 0x02 = 0) :
    (waitUntilFinished (statusBus s) aRequireAcknowledgement aRequireBusIdleAtEnd
        (World.init 0)).1 ≠ Result.raised I2CException.I2CTransactionTimeout ∧
    statusLog (waitUntilFinished (statusBus s) aRequireAcknowledgement aRequireBusIdleAtEnd
        (World.init 0)).2.trace = (List.range 20).map s ∧
    (s 19 &&& 0x20 = 0 →
      (waitUntilFinished (statusBus s) aRequireAcknowledgement aRequireBusIdleAtEnd
        (World.init 0)).1 =
        (if aRequireAcknowledgement && (s 19 &&& 0x80 != 0) then
            Result.raised I2CException.I2CNoAcknowledgeReceived
          else if aRequireBusIdleAtEnd && (s 19 &&& 0x40 != 0) then
            Result.raised I2CException.I2CTransferFinishedBusStillBusy
          else Result.ok ()) ∧
      ((aRequireAcknowledgement = false ∨ s 19 &&& 0x80 = 0) →
        (aRequireBusIdleAtEnd = false ∨ s 19 &&& 0x40 = 0) →
        (waitUntilFinished (statusBus s) aRequireAcknowledgement aRequireBusIdleAtEnd
          (World.init 0)).1 = Result.ok ())) := by
  have hpre : ∀ j, j < 19 → s j &&& 32 = 0 ∧ s j &&& 2 ≠ 0 :=
    fun j hj => ⟨(hbefore j hj).2, (hbefore j hj).1⟩
  by_cases hl : s 19 &&& 32 = 0
  · have hw := statusBus_wait_done s aRequireAcknowledgement aRequireBusIdleAtEnd 19
      (by decide) hpre hl hclear
    rw [hw]
    refine ⟨?_, (statusBus_polled_init s 20).2.2, fun _ => ⟨rfl, ?_⟩⟩
    · simp only []
      split_ifs <;> simp
    · intro hack hidle
      rcases hack with hack | hack <;> rcases hidle with hidle | hidle <;> simp [hack, hidle]
  · have hw := statusBus_wait_lost s aRequireAcknowledgement aRequireBusIdleAtEnd 19
      (by decide) hpre hl
    rw [hw]
    exact ⟨by simp, (statusBus_polled_init s 20).2.2, fun h => absurd h hl⟩

/-- Witness of C28: transfer in progress on attempts 1..19, status 0 on attempt
20, both checks asked for: the wait returns normally after 20 reads. -/
theorem C28_last_attempt_completes_witness :
    ((∀ j, j < 19 → (fun n => if n < 19 then 0x02 else 0x00) j &&& 0x02 ≠ 0 ∧
        (fun n => if n < 19 then 0x02 else 0x00) j &&& 0x20 = 0) ∧
      (fun n => if n < 19 then 0x02 else 0x00) 19 &&& 0x02 = 0) ∧
    (waitUntilFinished (statusBus (fun n => if n < 19 then 0x02 else 0x00)) true true
        (World.init 0)).1 ≠ Result.raised I2CException.I2CTransactionTimeout ∧
    statusLog (waitUntilFinished (statusBus (fun n => if n < 19 then 0x02 else 0x00)) true true
        (World.init 0)).2.trace = (List.range 20).map (fun n => if n < 19 then 0x02 else 0x00) ∧
    (waitUntilFinished (statusBus (fun n => if n < 19 then 0x02 else 0x00)) true true
        (World.init 0)).1 = Result.ok () :=
  ⟨⟨by decide, by decide⟩,
    (C28_last_attempt_completes (fun n => if n < 19 then 0x02 else 0x00) true true
      (by decide) (by decide)).1,
    (C28_last_attempt_completes (fun n => if n < 19 then 0x02 else 0x00) true true
      (by decide) (by decide)).2.1,
    ((C28_last_attempt_completes (fun n => if n < 19 then 0x02 else 0x00) true true
      (by decide) (by decide)).2.2 (by decide)).2 (Or.inr (by decide)) (Or.inr (by decide))⟩

/-! ## The assertions of the two commands -/

theorem lor_land (x y z : Nat) : (x ||| y) &&& z = (x &&& z) ||| (y &&& z) := by
  rw [Nat.and_comm, Nat.and_or_distrib_left, Nat.and_comm z x, Nat.and_comm z y]

theorem lor_land_self (c b : Nat) : (c ||| b) &&& b = b := by
  apply Nat.eq_of_testBit_eq
  intro i
  rw [Nat.testBit_and, Nat.testBit_or]
  cases c.testBit i <;> cases b.testBit i <;> rfl

/-- A command without the read flag, written with the write flag forced on, has
the write flag and not the read flag. -/
theorem oneDirection_write (c : Nat) (h : c &&& kReadFromSlaveCmd = 0) :
    oneDirection (c ||| kWriteToSlaveCmd) = true := by
  have e : (kWriteToSlaveCmd &&& kReadFromSlaveCmd : Nat) = 0 := by decide
  have h1 : (c ||| kWriteToSlaveCmd) &&& kReadFromSlaveCmd = 0 := by
    rw [lor_land, h, e]
    rfl
  have h2 : (c ||| kWriteToSlaveCmd) &&& kWriteToSlaveCmd = kWriteToSlaveCmd :=
    lor_land_self c kWriteToSlaveCmd
  unfold oneDirection
  rw [h1, h2]
  decide

/-- A command without the write flag, written with the read flag forced on, has
the read flag and not the write flag. -/
theorem oneDirection_read (c : Nat) (h : c &&& kWriteToSlaveCmd = 0) :
    oneDirection (c ||| kReadFromSlaveCmd) = true := by
  have e : (kReadFromSlaveCmd &&& kWriteToSlaveCmd : Nat) = 0 := by decide
  have h1 : (c ||| kReadFromSlaveCmd) &&& kWriteToSlaveCmd = 0 := by
    rw [lor_land, h, e]
    rfl
  have h2 : (c ||| kReadFromSlaveCmd) &&& kReadFromSlaveCmd = kReadFromSlaveCmd :=
    lor_land_self c kReadFromSlaveCmd
  unfold oneDirection
  rw [h1, h2]
  decide

/-- The assertion of `sendI2CCommandAndWriteData` fails exactly for a command
with the read-from-slave flag. -/
theorem sendWrite_abort_iff (H : Hardware σ) (c d : Nat) (w : World σ) :
    (sendI2CCommandAndWriteData H c d w).1 = Result.assertFailed ↔
      c &&& kReadFromSlaveCmd ≠ 0 := by
  constructor
  · intro h hc
    exact sendWrite_no_abort H c d w hc h
  · intro hc
    simp [sendI2CCommandAndWriteData, hc]

/-- The assertion of `sendI2CCommandAndReadData` fails exactly for a command
with the write-to-slave flag. -/
theorem sendRead_abort_iff (H : Hardware σ) (c : Nat) (w : World σ) :
    (sendI2CCommandAndReadData H c w).1 = Result.assertFailed ↔
      c &&& kWriteToSlaveCmd ≠ 0 := by
  constructor
  · intro h hc
    exact sendRead_no_abort H c w hc h
  · intro hc
    simp [sendI2CCommandAndReadData, hc]

/-- The loop of `writeBlockI2C`, for any array and from any index, never fails
an assertion and writes to the command register nothing but 0x10 and 0x50. -/
theorem writeBytes_cmds (H : Hardware σ) (aArray : List Nat) (stop : Bool) :
    ∀ (fuel iByte : Nat) (w : World σ), w.queue = [] →
      (writeBytes H aArray stop fuel iByte w).1 ≠ Result.assertFailed ∧
      (writeBytes H aArray stop fuel iByte w).2.queue = [] ∧
      ∃ rest, (writeBytes H aArray stop fuel iByte w).2.trace = w.trace ++ rest ∧
        ∀ c, c ∈ commandsOf (busLog rest) → c = 0x10 ∨ c = 0x50 := by
  intro fuel
  induction fuel with
  | zero =>
    intro iByte w hq
    exact ⟨by simp [writeBytes], hq, [], by simp [writeBytes], by simp [busLog, sentOf, commandsOf]⟩
  | succ f ih =>
    intro iByte w hq
    by_cases h : iByte < aArray.length
    · rw [writeBytes_succ H aArray stop f iByte w h]
      have hcmd : (if (iByte == (aArray.length + 18446744073709551616 - 1) % 18446744073709551616)
          && stop then kStopCmd else 0x0) &&& kReadFromSlaveCmd = 0 := by
        split_ifs <;> decide
      obtain ⟨h1, rest1, h2, h3⟩ := sendWrite_spec H _ aArray[iByte] w hq hcmd
      have hna := sendWrite_no_abort H _ aArray[iByte] w hcmd
      have hc1 : ∀ c, c ∈ commandsOf (busLog rest1) → c = 0x10 ∨ c = 0x50 := by
        intro c hc
        rw [h3] at hc
        split_ifs at hc <;>
          simp [commandsOf, wrote, kTxNode, kCmdNode, kStopCmd, kWriteToSlaveCmd] at hc <;>
          simp [hc]
      obtain ⟨r, w1, hp⟩ : ∃ r w1, sendI2CCommandAndWriteData H
          (if (iByte == (aArray.length + 18446744073709551616 - 1) % 18446744073709551616)
              && stop then kStopCmd else 0x0) aArray[iByte] w = (r, w1) := ⟨_, _, rfl⟩
      rw [hp] at h1 h2 hna
      simp only [hp]
      cases r with
      | ok u =>
        simp only [] at h1 h2 ⊢
        obtain ⟨g0, g1, rest2, g2, g3⟩ := ih ((iByte + 1) % 4294967296) w1 h1
        refine ⟨g0, g1, rest1 ++ rest2, by rw [g2, h2, List.append_assoc], ?_⟩
        intro c hc
        rw [busLog_append, commandsOf_append, List.mem_append] at hc
        rcases hc with hc | hc
        · exact hc1 c hc
        · exact g3 c hc
      | raised e =>
        exact ⟨by simp, h1, rest1, h2, hc1⟩
      | assertFailed => exact absurd rfl hna
    · refine ⟨?_, ?_, [], ?_, by simp [busLog, sentOf, commandsOf]⟩
      · simp [writeBytes, h]
      · simp [writeBytes, h, hq]
      · simp [writeBytes, h]

/-- The loop of `readBlockI2C`, for any count and from any index, never fails
an assertion and writes to the command register nothing but 0x20 and 0x68. -/
theorem readBytes_cmds (H : Hardware σ) (n : Nat) :
    ∀ (fuel iByte : Nat) (acc : List Nat) (w : World σ), w.queue = [] →
      (readBytes H n fuel iByte acc w).1 ≠ Result.assertFailed ∧
      (readBytes H n fuel iByte acc w).2.queue = [] ∧
      ∃ rest, (readBytes H n fuel iByte acc w).2.trace = w.trace ++ rest ∧
        ∀ c, c ∈ commandsOf (busLog rest) → c = 0x20 ∨ c = 0x68 := by
  intro fuel
  induction fuel with
  | zero =>
    intro iByte acc w hq
    exact ⟨by simp [readBytes], hq, [], by simp [readBytes], by simp [busLog, sentOf, commandsOf]⟩
  | succ f ih =>
    intro iByte acc w hq
    by_cases h : iByte < n
    · rw [readBytes_succ H n f iByte acc w h]
      have hcmd : (if iByte == (n + 4294967296 - 1) % 4294967296 then kStopCmd ||| kAckCmd
          else 0x0) &&& kWriteToSlaveCmd = 0 := by
        split_ifs <;> decide
      have h1 := (sendRead_spec H _ w hq hcmd).1
      obtain ⟨rest1, h2, h3, _⟩ := sendRead_log H _ w hq hcmd
      have hna := sendRead_no_abort H _ w hcmd
      have hc1 : ∀ c, c ∈ commandsOf (busLog rest1) → c = 0x20 ∨ c = 0x68 := by
        intro c hc
        rw [h3] at hc
        split_ifs at hc <;>
          simp [kStopCmd, kAckCmd, kReadFromSlaveCmd] at hc <;>
          simp [hc]
      obtain ⟨r, w1, hp⟩ : ∃ r w1, sendI2CCommandAndReadData H
          (if iByte == (n + 4294967296 - 1) % 4294967296 then kStopCmd ||| kAckCmd else 0x0) w =
          (r, w1) := ⟨_, _, rfl⟩
      rw [hp] at h1 h2 hna
      simp only [hp]
      cases r with
      | ok b =>
        simp only [] at h1 h2 ⊢
        obtain ⟨g0, g1, rest2, g2, g3⟩ := ih ((iByte + 1) % 4294967296) (acc ++ [b]) w1 h1
        refine ⟨g0, g1, rest1 ++ rest2, by rw [g2, h2, List.append_assoc], ?_⟩
        intro c hc
        rw [busLog_append, commandsOf_append, List.mem_append] at hc
        rcases hc with hc | hc
        · exact hc1 c hc
        · exact g3 c hc
      | raised e =>
        exact ⟨by simp, h1, rest1, h2, hc1⟩
      | assertFailed => exact absurd rfl hna
    · refine ⟨?_, ?_, [], ?_, by simp [busLog, sentOf, commandsOf]⟩
      · simp [readBytes, h]
      · simp [readBytes, h, hq]
      · simp [readBytes, h]

/-- The loop of `scan` writes to the command register nothing but 0x90 and
0x68. -/
theorem scanLoop_cmds (H : Hardware σ) :
    ∀ (fuel iAddr : Nat) (acc : List Nat) (w : World σ), w.queue = [] → iAddr + fuel = 0x7f →
      ∃ rest, (scanLoop H fuel iAddr acc w).2.trace = w.trace ++ rest ∧
        ∀ c, c ∈ commandsOf (busLog rest) → c = 0x90 ∨ c = 0x68 := by
  intro fuel
  induction fuel with
  | zero =>
    intro iAddr acc w _ _
    exact ⟨[], by simp [scanLoop], by simp [busLog, sentOf, commandsOf]⟩
  | succ f ih =>
    intro iAddr acc w hq hsum
    have h1 : iAddr < 0x7f := by omega
    rw [scanLoop_succ H f iAddr acc w h1]
    obtain ⟨rest1, p1, _, p3⟩ := probe_log H iAddr w hq
    obtain ⟨rest2, q1, q2⟩ := ih (iAddr + 1)
      (if probeOk H iAddr w then acc ++ [iAddr] else acc) (probeWorld H iAddr w)
      (probeWorld_queue H iAddr w hq) (by omega)
    refine ⟨rest1 ++ rest2, by rw [q1, p1, List.append_assoc], ?_⟩
    intro c hc
    rw [busLog_append, commandsOf_append, List.mem_append] at hc
    rcases hc with hc | hc
    · rw [p3] at hc
      split_ifs at hc <;> simp at hc <;> simp [hc]
    · exact q2 c hc

/-- From an empty queue, `reset` writes to the command register the value 0x00
once, the default to which it sets the register, and nothing else. -/
theorem reset_commands (H : Hardware σ) (m : I2CMasterNode) (w : World σ) (hq : w.queue = []) :
    ∃ rest, (reset H m w).trace = w.trace ++ rest ∧ commandsOf (busLog rest) = [0x00] := by
  by_cases h : m.mClockPrescale = latchedPrescale H w.hw
  · rw [reset_light H m w hq h]
    refine ⟨_, List.append_assoc _ _ _, ?_⟩
    simp [busLog, sentOf, commandsOf, resetReads, wrote, got, kTxNode, kCmdNode, kCtrlNode,
      kPreHiNode, kPreLoNode, kStatusNode]
  · rw [reset_full H m w hq h]
    refine ⟨_, List.append_assoc _ _ _, ?_⟩
    simp [busLog, sentOf, commandsOf, resetReads, wrote, got, kTxNode, kCmdNode, kCtrlNode,
      kPreHiNode, kPreLoNode, kStatusNode]

/-- C26: on any device and from any world, no call that `writeBlockI2C`,
`readBlockI2C`, `ping` and `scan` make of the two command functions fails its
assertion, for all arguments.  The assertion of `sendI2CCommandAndWriteData`
fails exactly for flags with the read-from-slave flag 0x20 and that of
`sendI2CCommandAndReadData` exactly for flags with the write-to-slave flag 0x10;
the flags the four operations pass (start 0x80, stop 0x40, none, and stop|ack
0x48 to the read) have neither, none of the four ends in a failed assertion,
and every command they write to the command register after their reset (0x90,
0x10 or 0x50 by the write function, 0x20 or 0x68 by the read function) has
exactly one of the read and write bits.  The reset itself writes to the command
register its default 0x00 only. -/
theorem C26_asserts_never_fail (H : Hardware σ) (m : I2CMasterNode) (w : World σ) :
    (∀ c d w0, (sendI2CCommandAndWriteData H c d w0).1 = Result.assertFailed ↔
      c &&& 0x20 ≠ 0) ∧
    (∀ c w0, (sendI2CCommandAndReadData H c w0).1 = Result.assertFailed ↔ c &&& 0x10 ≠ 0) ∧
    (kStartCmd &&& 0x20 = 0 ∧ kStopCmd &&& 0x20 = 0 ∧ (0x0 : Nat) &&& 0x20 = 0 ∧
      (kStopCmd ||| kAckCmd) &&& 0x10 = 0 ∧ (0x0 : Nat) &&& 0x10 = 0) ∧
    (∀ c, c &&& 0x20 = 0 → oneDirection (c ||| 0x10) = true) ∧
    (∀ c, c &&& 0x10 = 0 → oneDirection (c ||| 0x20) = true) ∧
    (∀ a B stop, (writeBlockI2C H m a B stop w).1 ≠ Result.assertFailed ∧
      ∃ rest, (writeBlockI2C H m a B stop w).2.trace = (reset H m w).trace ++ rest ∧
        ∀ c, c ∈ commandsOf (busLog rest) →
          (c = 0x90 ∨ c = 0x10 ∨ c = 0x50) ∧ oneDirection c = true) ∧
    (∀ a n, (readBlockI2C H m a n w).1 ≠ Result.assertFailed ∧
      ∃ rest, (readBlockI2C H m a n w).2.trace = (reset H m w).trace ++ rest ∧
        ∀ c, c ∈ commandsOf (busLog rest) →
          (c = 0x90 ∨ c = 0x20 ∨ c = 0x68) ∧ oneDirection c = true) ∧
    (∀ a, (ping H m a w).1 ≠ Result.assertFailed ∧
      ∃ rest, (ping H m a w).2.trace = (reset H m w).trace ++ rest ∧
        ∀ c, c ∈ commandsOf (busLog rest) → (c = 0x90 ∨ c = 0x68) ∧ oneDirection c = true) ∧
    ((scan H m w).1 ≠ Result.assertFailed ∧
      ∃ rest, (scan H m w).2.trace = (reset H m w).trace ++ rest ∧
        ∀ c, c ∈ commandsOf (busLog rest) → (c = 0x90 ∨ c = 0x68) ∧ oneDirection c = true) ∧
    (w.queue = [] →
      ∃ rest, (reset H m w).trace = w.trace ++ rest ∧ commandsOf (busLog rest) = [0x00]) := by
  have hstart : ∀ d, ∃ rest,
      (sendI2CCommandAndWriteData H kStartCmd d (reset H m w)).2.trace =
        (reset H m w).trace ++ rest ∧
      (sendI2CCommandAndWriteData H kStartCmd d (reset H m w)).2.queue = [] ∧
      ∀ c, c ∈ commandsOf (busLog rest) → c = 0x90 := by
    intro d
    obtain ⟨h1, rest, h2, h3⟩ := sendWrite_spec H kStartCmd d (reset H m w) (reset_queue H m w)
      start_no_read_flag
    refine ⟨rest, h2, h1, ?_⟩
    intro c hc
    rw [h3] at hc
    simpa [commandsOf, wrote, kTxNode, kCmdNode, kStartCmd, kWriteToSlaveCmd] using hc
  refine ⟨fun c d w0 => sendWrite_abort_iff H c d w0, fun c w0 => sendRead_abort_iff H c w0,
    ⟨by decide, by decide, by decide, by decide, by decide⟩,
    fun c hc => oneDirection_write c hc, fun c hc => oneDirection_read c hc, ?_, ?_, ?_, ?_,
    fun hq => reset_commands H m w hq⟩
  · intro a B stop
    obtain ⟨rest1, h2, h1, h3⟩ := hstart (((a <<< 1) &&& 0xfe) % 256)
    have hna := sendWrite_no_abort H kStartCmd (((a <<< 1) &&& 0xfe) % 256) (reset H m w)
      start_no_read_flag
    unfold writeBlockI2C
    simp only []
    obtain ⟨r, w2, hp⟩ : ∃ r w2, sendI2CCommandAndWriteData H kStartCmd
        (((a <<< 1) &&& 0xfe) % 256) (reset H m w) = (r, w2) := ⟨_, _, rfl⟩
    rw [hp] at h1 h2 hna
    simp only [hp]
    cases r with
    | ok u =>
      simp only [] at h1 h2 ⊢
      obtain ⟨g0, _, rest2, g2, g3⟩ := writeBytes_cmds H B stop B.length 0 w2 h1
      refine ⟨g0, rest1 ++ rest2, by rw [g2, h2, List.append_assoc], ?_⟩
      intro c hc
      rw [busLog_append, commandsOf_append, List.mem_append] at hc
      rcases hc with hc | hc
      · rw [h3 c hc]
        exact ⟨Or.inl rfl, by decide⟩
      · rcases g3 c hc with h | h <;> rw [h]
        · exact ⟨Or.inr (Or.inl rfl), by decide⟩
        · exact ⟨Or.inr (Or.inr rfl), by decide⟩
    | raised e =>
      refine ⟨by simp, rest1, h2, ?_⟩
      intro c hc
      rw [h3 c hc]
      exact ⟨Or.inl rfl, by decide⟩
    | assertFailed => exact absurd rfl hna
  · intro a n
    obtain ⟨rest1, h2, h1, h3⟩ := hstart (((a <<< 1) ||| 0x01) % 256)
    have hna := sendWrite_no_abort H kStartCmd (((a <<< 1) ||| 0x01) % 256) (reset H m w)
      start_no_read_flag
    unfold readBlockI2C
    simp only []
    obtain ⟨r, w2, hp⟩ : ∃ r w2, sendI2CCommandAndWriteData H kStartCmd
        (((a <<< 1) ||| 0x01) % 256) (reset H m w) = (r, w2) := ⟨_, _, rfl⟩
    rw [hp] at h1 h2 hna
    simp only [hp]
    cases r with
    | ok u =>
      simp only [] at h1 h2 ⊢
      obtain ⟨g0, _, rest2, g2, g3⟩ := readBytes_cmds H n n 0 [] w2 h1
      refine ⟨g0, rest1 ++ rest2, by rw [g2, h2, List.append_assoc], ?_⟩
      intro c hc
      rw [busLog_append, commandsOf_append, List.mem_append] at hc
      rcases hc with hc | hc
      · rw [h3 c hc]
        exact ⟨Or.inl rfl, by decide⟩
      · rcases g3 c hc with h | h <;> rw [h]
        · exact ⟨Or.inr (Or.inl rfl), by decide⟩
        · exact ⟨Or.inr (Or.inr rfl), by decide⟩
    | raised e =>
      refine ⟨by simp, rest1, h2, ?_⟩
      intro c hc
      rw [h3 c hc]
      exact ⟨Or.inl rfl, by decide⟩
    | assertFailed => exact absurd rfl hna
  · intro a
    rw [ping_eq]
    refine ⟨by simp, ?_⟩
    obtain ⟨rest, p1, _, p3⟩ := probe_log H a (reset H m w) (reset_queue H m w)
    refine ⟨rest, p1, ?_⟩
    intro c hc
    rw [p3] at hc
    by_cases hs : (sendI2CCommandAndWriteData H kStartCmd (((a <<< 1) ||| 0x01) % 256)
        (reset H m w)).1 = Result.ok ()
    · rw [if_pos hs] at hc
      simp only [List.mem_cons, List.mem_singleton, List.not_mem_nil, or_false] at hc
      rcases hc with h | h <;> rw [h] <;> decide
    · rw [if_neg hs] at hc
      simp only [List.mem_singleton] at hc
      rw [hc]
      decide
  · unfold scan
    obtain ⟨l, hl, _⟩ := scanLoop_sublist H 0x7f 0 [] (reset H m w) (by decide)
    obtain ⟨rest, q1, q2⟩ := scanLoop_cmds H 0x7f 0 [] (reset H m w) (reset_queue H m w)
      (by decide)
    refine ⟨by rw [hl]; simp, rest, q1, ?_⟩
    intro c hc
    rcases q2 c hc with h | h <;> rw [h] <;> decide

/-- Witness of C26: writing 1, 2, 3 with a stop to address 0x55 and scanning, on
a bus whose status always reads 0: no assertion fails, and the values written to
the command register are the 0x00 of the reset and then commands with exactly
one of the two bits. -/
theorem C26_asserts_never_fail_witness :
    (writeBlockI2C (statusBus (fun _ => 0)) ⟨0x40⟩ 0x55 [1, 2, 3] true (World.init 0)).1 ≠
      Result.assertFailed ∧
    (scan (statusBus (fun _ => 0)) ⟨0x40⟩ (World.init 0)).1 ≠ Result.assertFailed ∧
    commandsOf (busLog (writeBlockI2C (statusBus (fun _ => 0)) ⟨0x40⟩ 0x55 [1, 2, 3] true
      (World.init 0)).2.trace) = [0x00, 0x90, 0x10, 0x10, 0x50] ∧
    [0x90, 0x10, 0x50, 0x20, 0x68].map oneDirection = [true, true, true, true, true] ∧
    oneDirection 0x00 = false :=
  ⟨((C26_asserts_never_fail (statusBus (fun _ => 0)) ⟨0x40⟩ (World.init 0)).2.2.2.2.2.1
      0x55 [1, 2, 3] true).1,
    (C26_asserts_never_fail (statusBus (fun _ => 0)) ⟨0x40⟩ (World.init 0)).2.2.2.2.2.2.2.2.1.1,
    by decide, by decide, by decide⟩

/-! ## Transfers of no byte -/

/-- C27: on any device and from any world, `writeBlockI2C` with an empty array,
for either value of `aSendStop`, and `readBlockI2C` with count 0 each run
`reset` and then only the start+address command: they end with the outcome (for
the read, the empty sequence when the command succeeds) and in the world of
that command, and what they send after the reset, polls of the status register
apart, is the address byte and the command 0x90 = start|write, so no command
with the stop flag 0x40.  The loops do nothing, whatever bound is put on their
iterations: the last-byte test, whose `size - 1` and `count - 1` wrap to
2^64 - 1 and 2^32 - 1, is never evaluated. -/
theorem C27_zero_length_open (H : Hardware σ) (m : I2CMasterNode) (a : Nat) (w : World σ) :
    (∀ stop,
      (writeBlockI2C H m a [] stop w).1 =
        (sendI2CCommandAndWriteData H kStartCmd (((a <<< 1) &&& 0xfe) % 256) (reset H m w)).1 ∧
      (writeBlockI2C H m a [] stop w).2 =
        (sendI2CCommandAndWriteData H kStartCmd (((a <<< 1) &&& 0xfe) % 256) (reset H m w)).2 ∧
      ∃ rest, (writeBlockI2C H m a [] stop w).2.trace = (reset H m w).trace ++ rest ∧
        busLog rest = [wrote Reg.data ((a <<< 1) &&& 0xFE), wrote Reg.cmd_stat 0x90] ∧
        (commandsOf (busLog rest)).filter (fun c => c &&& 0x40 != 0) = []) ∧
    ((readBlockI2C H m a 0 w).2 =
        (sendI2CCommandAndWriteData H kStartCmd (((a <<< 1) ||| 0x01) % 256) (reset H m w)).2 ∧
      ((readBlockI2C H m a 0 w).1 = Result.ok [] ↔
        (sendI2CCommandAndWriteData H kStartCmd (((a <<< 1) ||| 0x01) % 256)
          (reset H m w)).1 = Result.ok ()) ∧
      (∀ bytes, (readBlockI2C H m a 0 w).1 = Result.ok bytes → bytes = []) ∧
      (∀ e, (readBlockI2C H m a 0 w).1 = Result.raised e ↔
        (sendI2CCommandAndWriteData H kStartCmd (((a <<< 1) ||| 0x01) % 256)
          (reset H m w)).1 = Result.raised e) ∧
      ∃ rest, (readBlockI2C H m a 0 w).2.trace = (reset H m w).trace ++ rest ∧
        busLog rest = [wrote Reg.data (((a <<< 1) ||| 0x01) % 256), wrote Reg.cmd_stat 0x90] ∧
        (commandsOf (busLog rest)).filter (fun c => c &&& 0x40 != 0) = []) ∧
    (∀ stop fuel (w0 : World σ), writeBytes H [] stop fuel 0 w0 = (Result.ok (), w0)) ∧
    (∀ fuel (w0 : World σ), readBytes H 0 fuel 0 [] w0 = (Result.ok [], w0)) ∧
    (([] : List Nat).length + 18446744073709551616 - 1) % 18446744073709551616 =
      18446744073709551615 ∧
    (0 + 4294967296 - 1) % 4294967296 = 4294967295 := by
  have e2 : (144 &&& 64 : Nat) = 0 := by decide
  have hstop : ∀ d, List.filter (fun c => c &&& 0x40 != 0)
      (commandsOf [wrote kTxNode d, wrote kCmdNode (kStartCmd ||| kWriteToSlaveCmd)]) = [] := by
    intro d
    simp [commandsOf, wrote, kTxNode, kCmdNode, kStartCmd, kWriteToSlaveCmd, e2]
  refine ⟨?_, ?_, ?_, ?_, by decide, by decide⟩
  · intro stop
    obtain ⟨_, rest, h2, h3⟩ := sendWrite_spec H kStartCmd (((a <<< 1) &&& 0xfe) % 256)
      (reset H m w) (reset_queue H m w) start_no_read_flag
    have hw : writeBlockI2C H m a [] stop w =
        sendI2CCommandAndWriteData H kStartCmd (((a <<< 1) &&& 0xfe) % 256) (reset H m w) := by
      unfold writeBlockI2C
      simp only []
      obtain ⟨r, w2, hp⟩ : ∃ r w2, sendI2CCommandAndWriteData H kStartCmd
          (((a <<< 1) &&& 0xfe) % 256) (reset H m w) = (r, w2) := ⟨_, _, rfl⟩
      simp only [hp]
      cases r with
      | ok u => rfl
      | raised e => rfl
      | assertFailed => rfl
    rw [hw]
    refine ⟨rfl, rfl, rest, h2, ?_, ?_⟩
    · rw [h3, and_fe_mod]
      rfl
    · rw [h3]
      exact hstop _
  · obtain ⟨_, rest, h2, h3⟩ := sendWrite_spec H kStartCmd (((a <<< 1) ||| 0x01) % 256)
      (reset H m w) (reset_queue H m w) start_no_read_flag
    unfold readBlockI2C
    simp only []
    obtain ⟨r, w2, hp⟩ : ∃ r w2, sendI2CCommandAndWriteData H kStartCmd
        (((a <<< 1) ||| 0x01) % 256) (reset H m w) = (r, w2) := ⟨_, _, rfl⟩
    rw [hp] at h2
    simp only [hp]
    have hlog : busLog rest =
        [wrote Reg.data (((a <<< 1) ||| 0x01) % 256), wrote Reg.cmd_stat 0x90] := by
      rw [h3]
      rfl
    have hf : List.filter (fun c => c &&& 0x40 != 0) (commandsOf (busLog rest)) = [] := by
      rw [h3]
      exact hstop _
    cases r with
    | ok u =>
      simp only [readBytes] at h2 ⊢
      refine ⟨trivial, by simp, ?_, by simp, rest, h2, hlog, hf⟩
      intro bytes hb
      simp only [Result.ok.injEq] at hb
      exact hb.symm
    | raised e =>
      simp only [] at h2 ⊢
      refine ⟨trivial, by simp, ?_, by simp, rest, h2, hlog, hf⟩
      intro bytes hb
      simp at hb
    | assertFailed =>
      simp only [] at h2 ⊢
      refine ⟨trivial, by simp, ?_, by simp, rest, h2, hlog, hf⟩
      intro bytes hb
      simp at hb
  · intro stop fuel w0
    cases fuel with
    | zero => rfl
    | succ f => simp [writeBytes]
  · intro fuel w0
    cases fuel with
    | zero => rfl
    | succ f => simp [readBytes]

/-- Witness of C27: address 0x55 on a bus whose status always reads 0: the
empty write and the read of no byte succeed, and the values written to the
command register are the 0x00 of the reset and the start command 0x90. -/
theorem C27_zero_length_open_witness :
    (readBlockI2C (statusBus (fun _ => 0)) ⟨0x40⟩ 0x55 0 (World.init 0)).1 = Result.ok [] ∧
    commandsOf (busLog (writeBlockI2C (statusBus (fun _ => 0)) ⟨0x40⟩ 0x55 [] true
      (World.init 0)).2.trace) = [0x00, 0x90] ∧
    commandsOf (busLog (readBlockI2C (statusBus (fun _ => 0)) ⟨0x40⟩ 0x55 0
      (World.init 0)).2.trace) = [0x00, 0x90] :=
  ⟨(C27_zero_length_open (statusBus (fun _ => 0)) ⟨0x40⟩ 0x55 (World.init 0)).2.1.2.1.mpr
      (by decide),
    by decide, by decide⟩

/-! ## The async command buffer of the master node -/

theorem txPackets_append (t u : List MasterEvent) :
    txPackets (t ++ u) = txPackets t ++ txPackets u := by
  simp [txPackets]

theorem tlogs_append (t u : List MasterEvent) : tlogs (t ++ u) = tlogs t ++ tlogs u := by
  simp [tlogs]

theorem awaitBuffer_succ (B : AcmdBuf) (timeout : Int) (fuel i : Nat) (t : List MasterEvent) :
    awaitBuffer B timeout (fuel + 1) i t =
      if B.timeout i != 0 then
        (Outcome.thrown MasterException.VLCommandReplyTimeout,
          t ++ [MasterEvent.read "acmd_buf.stat.ready",
            MasterEvent.read "acmd_buf.stat.timeout", MasterEvent.dispatch])
      else if B.ready i != 0 then
        (Outcome.ok (),
          t ++ [MasterEvent.read "acmd_buf.stat.ready",
            MasterEvent.read "acmd_buf.stat.timeout", MasterEvent.dispatch])
      else if 50 * (i : Int) + (B.late i : Int) > timeout then
        (Outcome.thrown (MasterException.VLCommandReplyBufferFlagTimeout timeout),
          t ++ [MasterEvent.read "acmd_buf.stat.ready",
            MasterEvent.read "acmd_buf.stat.timeout", MasterEvent.dispatch])
      else
        awaitBuffer B timeout fuel (i + 1)
          (t ++ [MasterEvent.read "acmd_buf.stat.ready",
            MasterEvent.read "acmd_buf.stat.timeout", MasterEvent.dispatch] ++
            [MasterEvent.sleep_for 50]) := rfl

/-- Once the sleeps that the remaining iterations allow exceed the timeout, more
iterations change nothing: the bound on the iterations never cuts the loop of
the source short. -/
theorem awaitBuffer_fuel (B : AcmdBuf) (timeout : Int) :
    ∀ (fuel extra i : Nat) (t : List MasterEvent),
      timeout + 50 < 50 * ((i + (fuel + 1) : Nat) : Int) →
      awaitBuffer B timeout (fuel + 1 + extra) i t = awaitBuffer B timeout (fuel + 1) i t := by
  intro fuel
  induction fuel with
  | zero =>
    intro extra i t h
    have e : 0 + 1 + extra = extra + 1 := by omega
    rw [e, awaitBuffer_succ, awaitBuffer_succ]
    have hlate : 50 * (i : Int) + (B.late i : Int) > timeout := by omega
    simp only [hlate, if_true]
  | succ f ih =>
    intro extra i t h
    have e : f + 1 + 1 + extra = (f + 1 + extra) + 1 := by omega
    rw [e, awaitBuffer_succ, awaitBuffer_succ B timeout (f + 1)]
    rw [ih extra (i + 1) _ (by omega)]

/-- The iterations `transmit_async_packet` allows its wait are enough for every
timeout for which a reply is awaited. -/
theorem awaitBuffer_enough (B : AcmdBuf) (timeout : Int) (ht : 0 ≤ timeout) (extra : Nat)
    (t : List MasterEvent) :
    awaitBuffer B timeout (timeout.toNat / 50 + 2 + extra) 0 t =
      awaitBuffer B timeout (timeout.toNat / 50 + 2) 0 t :=
  awaitBuffer_fuel B timeout (timeout.toNat / 50 + 1) extra 0 t (by omega)

/-- The wait adds to the trace polls of the flags and sleeps only. -/
theorem awaitBuffer_trace (B : AcmdBuf) (timeout : Int) :
    ∀ (fuel i : Nat) (t : List MasterEvent),
      ∃ rest, (awaitBuffer B timeout fuel i t).2 = t ++ rest ∧
        txPackets rest = [] ∧ tlogs rest = [] := by
  intro fuel
  induction fuel with
  | zero =>
    intro i t
    exact ⟨[], by simp [awaitBuffer], rfl, rfl⟩
  | succ f ih =>
    intro i t
    rw [awaitBuffer_succ]
    split_ifs
    · exact ⟨_, rfl, rfl, rfl⟩
    · exact ⟨_, rfl, rfl, rfl⟩
    · exact ⟨_, rfl, rfl, rfl⟩
    · obtain ⟨rest, h1, h2, h3⟩ := ih (i + 1)
        (t ++ [MasterEvent.read "acmd_buf.stat.ready",
          MasterEvent.read "acmd_buf.stat.timeout", MasterEvent.dispatch] ++
          [MasterEvent.sleep_for 50])
      refine ⟨[MasterEvent.read "acmd_buf.stat.ready",
          MasterEvent.read "acmd_buf.stat.timeout", MasterEvent.dispatch] ++
          [MasterEvent.sleep_for 50] ++ rest, ?_, ?_, ?_⟩
      · rw [h1]
        simp
      · rw [txPackets_append, h2]
        rfl
      · rw [tlogs_append, h3]
        rfl

/-- The wait returns normally when the buffer is ready at poll `i + k`, after
polls that found no timeout flag, the buffer not ready and the clock not past
the timeout. -/
theorem awaitBuffer_ready (B : AcmdBuf) (timeout : Int) :
    ∀ (k fuel i : Nat) (t : List MasterEvent), k < fuel →
      (∀ j, j ≤ k → B.timeout (i + j) = 0) →
      (∀ j, j < k → B.ready (i + j) = 0 ∧
        50 * ((i + j : Nat) : Int) + (B.late (i + j) : Int) ≤ timeout) →
      B.ready (i + k) ≠ 0 →
      (awaitBuffer B timeout fuel i t).1 = Outcome.ok () := by
  intro k
  induction k with
  | zero =>
    intro fuel i t hf hto _ hr
    obtain ⟨f, rfl⟩ : ∃ f, fuel = f + 1 := ⟨fuel - 1, by omega⟩
    have h1 : B.timeout i = 0 := by simpa using hto 0 (Nat.le_refl 0)
    have h2 : B.ready i ≠ 0 := by simpa using hr
    rw [awaitBuffer_succ]
    simp [h1, h2]
  | succ k ih =>
    intro fuel i t hf hto hpre hr
    obtain ⟨f, rfl⟩ : ∃ f, fuel = f + 1 := ⟨fuel - 1, by omega⟩
    have h1 : B.timeout i = 0 := by simpa using hto 0 (Nat.zero_le _)
    have h2 := hpre 0 (Nat.succ_pos k)
    simp only [Nat.add_zero] at h2
    have h3 : ¬ (50 * (i : Int) + (B.late i : Int) > timeout) := by omega
    rw [awaitBuffer_succ]
    simp only [h1, h2.1, bne_self_eq_false, Bool.false_eq_true, if_false, h3]
    apply ih f (i + 1) _ (by omega)
    · intro j hj
      have h := hto (j + 1) (by omega)
      have e : i + (j + 1) = i + 1 + j := by omega
      rw [e] at h
      exact h
    · intro j hj
      have h := hpre (j + 1) (by omega)
      have e : i + (j + 1) = i + 1 + j := by omega
      rw [e] at h
      exact h
    · have e : i + (k + 1) = i + 1 + k := by omega
      rw [e] at hr
      exact hr

/-- Whatever its outcome, `transmit_async_packet` first writes the packet to
`acmd_buf.txbuf` and dispatches it, and writes no other block there and logs
nothing with `TLOG()`. -/
theorem transmit_trace (B : AcmdBuf) (packet : List Nat) (timeout : Int)
    (t : List MasterEvent) :
    ∃ rest, (transmit_async_packet B packet timeout t).2 =
        t ++ [MasterEvent.reset_sub_nodes "acmd_buf.txbuf",
          MasterEvent.writeBlock "acmd_buf.txbuf" packet, MasterEvent.dispatch] ++ rest ∧
      txPackets rest = [] ∧ tlogs rest = [] := by
  unfold transmit_async_packet
  simp only []
  by_cases ht : timeout < 0
  · rw [if_pos ht]
    exact ⟨[], by simp, rfl, rfl⟩
  · rw [if_neg ht]
    obtain ⟨rest, h1, h2, h3⟩ := awaitBuffer_trace B timeout (timeout.toNat / 50 + 2) 0
      (t ++ [MasterEvent.reset_sub_nodes "acmd_buf.txbuf",
        MasterEvent.writeBlock "acmd_buf.txbuf" packet, MasterEvent.dispatch])
    obtain ⟨r, t2, hp⟩ : ∃ r t2, awaitBuffer B timeout (timeout.toNat / 50 + 2) 0
        (t ++ [MasterEvent.reset_sub_nodes "acmd_buf.txbuf",
          MasterEvent.writeBlock "acmd_buf.txbuf" packet, MasterEvent.dispatch]) = (r, t2) :=
      ⟨_, _, rfl⟩
    rw [hp] at h1
    simp only [] at h1
    simp only [hp]
    cases r with
    | ok u =>
      simp only []
      split_ifs
      · exact ⟨rest ++ _, by rw [h1, List.append_assoc, List.append_assoc],
          by rw [txPackets_append, h2]; rfl, by rw [tlogs_append, h3]; rfl⟩
      · cases packet[2]? with
        | none =>
          exact ⟨rest ++ _, by simp only []; rw [h1, List.append_assoc],
            by rw [txPackets_append, h2]; rfl, by rw [tlogs_append, h3]; rfl⟩
        | some p2 =>
          simp only []
          split_ifs
          · exact ⟨rest ++ _, by rw [h1, List.append_assoc, List.append_assoc],
              by rw [txPackets_append, h2]; rfl, by rw [tlogs_append, h3]; rfl⟩
          · exact ⟨rest ++ _, by rw [h1, List.append_assoc],
              by rw [txPackets_append, h2]; rfl, by rw [tlogs_append, h3]; rfl⟩
    | thrown e => exact ⟨rest, h1, h2, h3⟩
    | outOfBounds => exact ⟨rest, h1, h2, h3⟩

/-- A reply that `transmit_async_packet` returns when a reply is awaited is the
block of 0x20 words of `acmd_buf.rxbuf`. -/
theorem transmit_reply (B : AcmdBuf) (packet : List Nat) (timeout : Int)
    (t : List MasterEvent) (ht : 0 ≤ timeout) (reply : List Nat)
    (h : (transmit_async_packet B packet timeout t).1 = Outcome.ok reply) :
    reply = (List.range 0x20).map B.rxbuf ∧ reply.length = 0x20 := by
  have hnot : ¬ timeout < 0 := by omega
  unfold transmit_async_packet at h
  simp only [] at h
  rw [if_neg hnot] at h
  obtain ⟨r, t2, hp⟩ : ∃ r t2, awaitBuffer B timeout (timeout.toNat / 50 + 2) 0
      (t ++ [MasterEvent.reset_sub_nodes "acmd_buf.txbuf",
        MasterEvent.writeBlock "acmd_buf.txbuf" packet, MasterEvent.dispatch]) = (r, t2) :=
    ⟨_, _, rfl⟩
  rw [hp] at h
  have key : Outcome.ok ((List.range 0x20).map B.rxbuf) = Outcome.ok reply →
      reply = (List.range 0x20).map B.rxbuf ∧ reply.length = 0x20 := by
    intro h1
    injection h1 with h2
    rw [← h2]
    exact ⟨rfl, by simp⟩
  cases r with
  | ok u =>
    simp only [] at h
    split_ifs at h
    · exact key h
    · cases hp2 : packet[2]? with
      | none =>
        rw [hp2] at h
        simp at h
      | some p2 =>
        rw [hp2] at h
        simp only [] at h
        split_ifs at h
        · exact key h
        · exact key h
  | thrown e => simp at h
  | outOfBounds => simp at h

/-- When a reply is awaited and the buffer becomes ready, `transmit_async_packet`
of a packet of at least three words returns the 0x20 words of `acmd_buf.rxbuf`. -/
theorem transmit_ready (B : AcmdBuf) (packet : List Nat) (timeout : Int)
    (t : List MasterEvent) (k : Nat) (ht : 0 ≤ timeout) (hready : readyAt B timeout k)
    (hlen : 3 ≤ packet.length) :
    (transmit_async_packet B packet timeout t).1 = Outcome.ok ((List.range 0x20).map B.rxbuf) := by
  have hnot : ¬ timeout < 0 := by omega
  obtain ⟨hto, hpre, hr⟩ := hready
  have hk : k < timeout.toNat / 50 + 2 := by
    rcases Nat.eq_zero_or_pos k with h0 | hpos
    · omega
    · have h1 := (hpre (k - 1) (by omega)).2
      omega
  have hw := awaitBuffer_ready B timeout k (timeout.toNat / 50 + 2) 0
    (t ++ [MasterEvent.reset_sub_nodes "acmd_buf.txbuf",
      MasterEvent.writeBlock "acmd_buf.txbuf" packet, MasterEvent.dispatch]) hk
    (fun j hj => by simpa using hto j hj) (fun j hj => by simpa using hpre j hj)
    (by simpa using hr)
  obtain ⟨p2, hp2⟩ : ∃ p2, packet[2]? = some p2 :=
    ⟨packet[2], List.getElem?_eq_getElem (by omega)⟩
  unfold transmit_async_packet
  simp only []
  rw [if_neg hnot]
  obtain ⟨r, t2, hp⟩ : ∃ r t2, awaitBuffer B timeout (timeout.toNat / 50 + 2) 0
      (t ++ [MasterEvent.reset_sub_nodes "acmd_buf.txbuf",
        MasterEvent.writeBlock "acmd_buf.txbuf" packet, MasterEvent.dispatch]) = (r, t2) :=
    ⟨_, _, rfl⟩
  rw [hp] at hw
  simp only [hp]
  cases r with
  | ok u =>
    simp only [hp2]
    split_ifs <;> rfl
  | thrown e => simp at hw
  | outOfBounds => simp at hw

theorem take_range_from (s n m : Nat) (h : n ≤ m) :
    List.take n (List.range' s m) = List.range' s n := by
  have e : List.range' s m = List.range' s n ++ List.range' (s + n) (m - n) := by
    rw [List.range'_append_1]
    congr 1
    omega
  rw [e, List.take_left' (by simp)]

/-- The trace of `read_endpoint_data` is that of its call of
`transmit_async_packet`, made after the length check for every length: the
request is written to `acmd_buf.txbuf`, and `TLOG()` has the message of the
length check when the length is 0 or above 0x3f and nothing otherwise. -/
theorem read_endpoint_data_trace (B : AcmdBuf) (timeout : Int) (e r n : Nat) (m : Bool)
    (t : List MasterEvent) :
    ∃ rest, (read_endpoint_data B timeout e r n m t).2 = t ++ rest ∧
      (txPackets rest).length = 1 ∧
      tlogs rest = (if n > 0x3f ∨ n = 0 then ["invalid data length"] else []) := by
  obtain ⟨rest, h1, h2, h3⟩ := transmit_trace B
    [(e &&& 0xff) % 4294967296, (e >>> 8) % 4294967296, 0xab, r,
      ((0x1 <<< 8) ||| (m.toNat <<< 7) ||| (0x3f &&& n)) % 4294967296] timeout
    (if n > 0x3f || n == 0 then t ++ [MasterEvent.tlog "invalid data length"] else t)
  have htr : (read_endpoint_data B timeout e r n m t).2 =
      (transmit_async_packet B
        [(e &&& 0xff) % 4294967296, (e >>> 8) % 4294967296, 0xab, r,
          ((0x1 <<< 8) ||| (m.toNat <<< 7) ||| (0x3f &&& n)) % 4294967296] timeout
        (if n > 0x3f || n == 0 then t ++ [MasterEvent.tlog "invalid data length"] else t)).2 := by
    unfold read_endpoint_data
    simp only []
    obtain ⟨o, t2, hp⟩ : ∃ o t2, transmit_async_packet B
        [(e &&& 0xff) % 4294967296, (e >>> 8) % 4294967296, 0xab, r,
          ((0x1 <<< 8) ||| (m.toNat <<< 7) ||| (0x3f &&& n)) % 4294967296] timeout
        (if n > 0x3f || n == 0 then t ++ [MasterEvent.tlog "invalid data length"] else t) =
        (o, t2) := ⟨_, _, rfl⟩
    simp only [hp]
    cases o with
    | ok result =>
      simp only []
      split_ifs
      · cases ((result.drop 3).take n).getLast? <;> rfl
      · rfl
    | thrown x => rfl
    | outOfBounds => rfl
  rw [htr, h1]
  by_cases hc : n > 0x3f ∨ n = 0
  · have hb : (n > 0x3f || n == 0) = true := by simpa using hc
    rw [hb, if_pos hc]
    refine ⟨_, by simp only [if_true, List.append_assoc]; rfl, ?_, ?_⟩
    · rw [txPackets_append, txPackets_append, h2]
      simp [txPackets]
    · rw [tlogs_append, tlogs_append, h3]
      simp [tlogs]
  · have hb : (n > 0x3f || n == 0) = false := by simpa using hc
    rw [hb, if_neg hc]
    refine ⟨_, by simp only [Bool.false_eq_true, if_false, List.append_assoc]; rfl, ?_, ?_⟩
    · rw [txPackets_append, h2]
      simp [txPackets]
    · rw [tlogs_append, h3]
      simp [tlogs]

/-- The result of `read_endpoint_data` when a reply is awaited and arrives. -/
theorem read_endpoint_data_ready (B : AcmdBuf) (timeout : Int) (e r n : Nat) (m : Bool)
    (t : List MasterEvent) (k : Nat) (ht : 0 ≤ timeout) (hready : readyAt B timeout k) :
    (read_endpoint_data B timeout e r n m t).1 =
      if 3 + n ≤ 0x20 then
        match ((((List.range 0x20).map B.rxbuf).drop 3).take n).getLast? with
        | none => Outcome.outOfBounds
        | some back =>
          Outcome.ok (((((List.range 0x20).map B.rxbuf).drop 3).take n).dropLast ++
            [back &&& 0xff])
      else Outcome.outOfBounds := by
  have h1 := transmit_ready B
    [(e &&& 0xff) % 4294967296, (e >>> 8) % 4294967296, 0xab, r,
      ((0x1 <<< 8) ||| (m.toNat <<< 7) ||| (0x3f &&& n)) % 4294967296] timeout
    (if n > 0x3f || n == 0 then t ++ [MasterEvent.tlog "invalid data length"] else t) k ht hready
    (by simp)
  unfold read_endpoint_data
  simp only []
  obtain ⟨o, t2, hp⟩ : ∃ o t2, transmit_async_packet B
      [(e &&& 0xff) % 4294967296, (e >>> 8) % 4294967296, 0xab, r,
        ((0x1 <<< 8) ||| (m.toNat <<< 7) ||| (0x3f &&& n)) % 4294967296] timeout
      (if n > 0x3f || n == 0 then t ++ [MasterEvent.tlog "invalid data length"] else t) =
      (o, t2) := ⟨_, _, rfl⟩
  rw [hp] at h1
  simp only [] at h1
  simp only [hp]
  rw [h1]
  simp only [List.length_map, List.length_range]
  split_ifs
  · cases ((((List.range 0x20).map B.rxbuf).drop 3).take n).getLast? <;> rfl
  · rfl

/-! ## Claims on the endpoint packets -/

/-- C29: when a reply is awaited (`timeout >= 0`) and the buffer becomes ready,
the reply of `transmit_async_packet` is the block of 0x20 words read from
`acmd_buf.rxbuf`, and `read_endpoint_data` stays within the bounds of its
vectors if and only if `1 <= data_length <= 29`: it then returns exactly
`data_length` words, words 3 .. 3+data_length-2 of the reply followed by word
3+data_length-1 masked to its low 8 bits.  With `data_length = 0` the access
`back()` is to an empty vector and with `data_length >= 30` the iterator range
ends past the reply.  The length check stops nothing: for every length the
request is written to `acmd_buf.txbuf`, and `TLOG()` gets the message of the
check when the length is 0 or above 0x3f, so the lengths 30..63 reach the
out-of-range access without even the message. -/
theorem C29_read_endpoint_bounds (B : AcmdBuf) (timeout : Int)
    (endpoint_address reg_address data_length : Nat) (address_mode : Bool)
    (t : List MasterEvent) (k : Nat) (ht : 0 ≤ timeout) (hready : readyAt B timeout k) :
    (∀ packet t0 reply, (transmit_async_packet B packet timeout t0).1 = Outcome.ok reply →
      reply = (List.range 0x20).map B.rxbuf ∧ reply.length = 0x20) ∧
    ((read_endpoint_data B timeout endpoint_address reg_address data_length address_mode t).1 ≠
        Outcome.outOfBounds ↔ 1 ≤ data_length ∧ data_length ≤ 29) ∧
    (1 ≤ data_length → data_length ≤ 29 →
      (read_endpoint_data B timeout endpoint_address reg_address data_length address_mode t).1 =
        Outcome.ok ((List.range' 3 (data_length - 1)).map B.rxbuf ++
          [B.rxbuf (3 + (data_length - 1)) &&& 0xFF]) ∧
      ((List.range' 3 (data_length - 1)).map B.rxbuf ++
        [B.rxbuf (3 + (data_length - 1)) &&& 0xFF]).length = data_length) ∧
    (data_length = 0 ∨ 30 ≤ data_length →
      (read_endpoint_data B timeout endpoint_address reg_address data_length address_mode t).1 =
        Outcome.outOfBounds) ∧
    (∃ rest,
      (read_endpoint_data B timeout endpoint_address reg_address data_length address_mode t).2 =
        t ++ rest ∧
      (txPackets rest).length = 1 ∧
      tlogs rest = (if data_length > 0x3F ∨ data_length = 0 then ["invalid data length"]
        else [])) := by
  have hres := read_endpoint_data_ready B timeout endpoint_address reg_address data_length
    address_mode t k ht hready
  have hin : 1 ≤ data_length → data_length ≤ 29 →
      (read_endpoint_data B timeout endpoint_address reg_address data_length address_mode t).1 =
        Outcome.ok ((List.range' 3 (data_length - 1)).map B.rxbuf ++
          [B.rxbuf (3 + (data_length - 1)) &&& 0xFF]) := by
    intro h1 h29
    obtain ⟨j, rfl⟩ : ∃ j, data_length = j + 1 := ⟨data_length - 1, by omega⟩
    have e : List.drop 3 (List.range 0x20) = List.range' 3 29 := by decide
    have hslice : (((List.range 0x20).map B.rxbuf).drop 3).take (j + 1) =
        (List.range' 3 j).map B.rxbuf ++ [B.rxbuf (3 + j)] := by
      rw [← List.map_drop, ← List.map_take, e, take_range_from 3 (j + 1) 29 h29,
        List.range'_concat]
      simp
    have hle : 3 + (j + 1) ≤ 0x20 := by omega
    rw [hres, if_pos hle, hslice, List.getLast?_concat, List.dropLast_concat]
    simp
  have hout : data_length = 0 ∨ 30 ≤ data_length →
      (read_endpoint_data B timeout endpoint_address reg_address data_length address_mode t).1 =
        Outcome.outOfBounds := by
    intro h
    rcases h with h0 | h30
    · subst h0
      rw [hres]
      simp
    · have hnle : ¬ (3 + data_length ≤ 0x20) := by omega
      rw [hres, if_neg hnle]
  refine ⟨fun packet t0 reply h => transmit_reply B packet timeout t0 ht reply h, ?_, ?_, hout,
    read_endpoint_data_trace B timeout endpoint_address reg_address data_length address_mode t⟩
  · constructor
    · intro h
      by_contra hn
      exact h (hout (by omega))
    · rintro ⟨h1, h29⟩
      rw [hin h1 h29]
      simp
  · intro h1 h29
    refine ⟨hin h1 h29, ?_⟩
    simp
    omega

/-- Witness of C29: a buffer that is ready at the first poll with the reply
0xff, 0xff, 0xab, 0x1c6 and zeros: reading one word from register 0x71 of
endpoint 0x1234 returns [0xc6]. -/
theorem C29_read_endpoint_bounds_witness :
    ((0 : Int) ≤ 500 ∧ readyAt (readyBuffer [0xff, 0xff, 0xab, 0x1c6]) 500 0) ∧
    ((read_endpoint_data (readyBuffer [0xff, 0xff, 0xab, 0x1c6]) 500 0x1234 0x71 1 true []).1 ≠
        Outcome.outOfBounds ↔ 1 ≤ 1 ∧ 1 ≤ 29) ∧
    (read_endpoint_data (readyBuffer [0xff, 0xff, 0xab, 0x1c6]) 500 0x1234 0x71 1 true []).1 =
      Outcome.ok [0xc6] ∧
    (read_endpoint_data (readyBuffer [0xff, 0xff, 0xab, 0x1c6]) 500 0x1234 0x71 0 true []).1 =
      Outcome.outOfBounds ∧
    (read_endpoint_data (readyBuffer [0xff, 0xff, 0xab, 0x1c6]) 500 0x1234 0x71 30 true []).1 =
      Outcome.outOfBounds ∧
    tlogs (read_endpoint_data (readyBuffer [0xff, 0xff, 0xab, 0x1c6]) 500 0x1234 0x71 30 true
      []).2 = [] :=
  ⟨⟨by decide, fun _ _ => rfl, fun j hj => absurd hj (Nat.not_lt_zero j), by decide⟩,
    (C29_read_endpoint_bounds (readyBuffer [0xff, 0xff, 0xab, 0x1c6]) 500 0x1234 0x71 1 true []
      0 (by decide)
      ⟨fun _ _ => rfl, fun j hj => absurd hj (Nat.not_lt_zero j), by decide⟩).2.1,
    by decide, by decide, by decide, by decide⟩

theorem lt_256_and_256 (x : Nat) (h : x < 256) : x &&& 256 = 0 := by
  have h1 : x &&& 255 = x := Nat.and_pow_two_sub_one_of_lt_two_pow (n := 8) h
  have e : (255 &&& 256 : Nat) = 0 := by decide
  calc x &&& 256 = (x &&& 255) &&& 256 := by rw [h1]
    _ = 0 := by rw [Nat.and_assoc, e, Nat.and_zero]

/-- The length word of a packet, the address mode in bit 7 and the low 6 bits
of the length, is a byte. -/
theorem length_word_lt (m : Bool) (n : Nat) : (m.toNat <<< 7) ||| (n &&& 0x3F) < 256 := by
  have h1 : n &&& 0x3F < 2 ^ 8 := by
    have h : n &&& 0x3F ≤ 0x3F := Nat.and_le_right
    omega
  have h2 : m.toNat <<< 7 < 2 ^ 8 := by cases m <;> decide
  exact Nat.or_lt_two_pow h2 h1

/-- Whatever its outcome, `write_endpoint_data` writes one block to
`acmd_buf.txbuf`: the five header words followed by the data, with bit 8 set in
the last word; `TLOG()` gets the message of the length check when the length is
0 or above 0x3f and nothing otherwise. -/
theorem write_endpoint_data_trace (B : AcmdBuf) (timeout : Int) (e r : Nat) (data : List Nat)
    (m : Bool) (t : List MasterEvent) (back : Nat)
    (hback : ([(e &&& 0xff) % 4294967296, (e >>> 8) % 4294967296, 0xab,
        ((0x1 <<< 7) ||| r) % 4294967296,
        ((m.toNat <<< 7) ||| (0x3f &&& data.length)) % 4294967296] ++ data).getLast? =
      some back) :
    ∃ rest, (write_endpoint_data B timeout e r data m t).2 = t ++ rest ∧
      txPackets rest =
        [([(e &&& 0xff) % 4294967296, (e >>> 8) % 4294967296, 0xab,
            ((0x1 <<< 7) ||| r) % 4294967296,
            ((m.toNat <<< 7) ||| (0x3f &&& data.length)) % 4294967296] ++ data).dropLast ++
          [(back ||| (0x1 <<< 8)) % 4294967296]] ∧
      tlogs rest =
        (if data.length > 0x3f ∨ data.length = 0 then ["invalid data length"] else []) := by
  obtain ⟨rest, h1, h2, h3⟩ := transmit_trace B
    (([(e &&& 0xff) % 4294967296, (e >>> 8) % 4294967296, 0xab,
        ((0x1 <<< 7) ||| r) % 4294967296,
        ((m.toNat <<< 7) ||| (0x3f &&& data.length)) % 4294967296] ++ data).dropLast ++
      [(back ||| (0x1 <<< 8)) % 4294967296]) timeout
    (if data.length > 0x3f || data.length == 0 then
      t ++ [MasterEvent.tlog "invalid data length"] else t)
  have htr : (write_endpoint_data B timeout e r data m t).2 =
      (transmit_async_packet B
        (([(e &&& 0xff) % 4294967296, (e >>> 8) % 4294967296, 0xab,
            ((0x1 <<< 7) ||| r) % 4294967296,
            ((m.toNat <<< 7) ||| (0x3f &&& data.length)) % 4294967296] ++ data).dropLast ++
          [(back ||| (0x1 <<< 8)) % 4294967296]) timeout
        (if data.length > 0x3f || data.length == 0 then
          t ++ [MasterEvent.tlog "invalid data length"] else t)).2 := by
    unfold write_endpoint_data
    simp only [hback]
    obtain ⟨o, t2, hp⟩ : ∃ o t2, transmit_async_packet B
        (([(e &&& 0xff) % 4294967296, (e >>> 8) % 4294967296, 0xab,
            ((0x1 <<< 7) ||| r) % 4294967296,
            ((m.toNat <<< 7) ||| (0x3f &&& data.length)) % 4294967296] ++ data).dropLast ++
          [(back ||| (0x1 <<< 8)) % 4294967296]) timeout
        (if data.length > 0x3f || data.length == 0 then
          t ++ [MasterEvent.tlog "invalid data length"] else t) = (o, t2) := ⟨_, _, rfl⟩
    simp only [hp]
    cases o <;> rfl
  rw [htr, h1]
  by_cases hc : data.length > 0x3f ∨ data.length = 0
  · have hb : (data.length > 0x3f || data.length == 0) = true := by simpa using hc
    rw [hb, if_pos hc]
    refine ⟨_, by simp only [if_true, List.append_assoc]; rfl, ?_, ?_⟩
    · rw [txPackets_append, txPackets_append, h2]
      simp [txPackets]
    · rw [tlogs_append, tlogs_append, h3]
      simp [tlogs]
  · have hb : (data.length > 0x3f || data.length == 0) = false := by simpa using hc
    rw [hb, if_neg hc]
    refine ⟨_, by simp only [Bool.false_eq_true, if_false, List.append_assoc]; rfl, ?_, ?_⟩
    · rw [txPackets_append, h2]
      simp [txPackets]
    · rw [tlogs_append, h3]
      simp [tlogs]

/-- C30: for every endpoint address `e` (16 bits), register address `r` (8
bits), address mode `m` and non-empty data `front ++ [last]` of bytes,
whatever the hardware answers, `write_endpoint_data` writes to
`acmd_buf.txbuf` exactly one block, of `n + 5` words:
`[e & 0xFF, e >> 8, 0xAB, 0x80 | r, (m << 7) | (n & 0x3F)]`, then the data in
order, with bit 8 (0x100) set in the last word and in no other.  With empty
data the block is the five header words with bit 8 set in the length word.  A
length above 0x3F (like the length 0) only puts a message in the log: the block
is written all the same, its length field being the low 6 bits of `n`. -/
theorem C30_write_endpoint_packet (B : AcmdBuf) (timeout : Int)
    (endpoint_address reg_address : Nat) (address_mode : Bool) (front : List Nat) (last : Nat)
    (t : List MasterEvent)
    (he : endpoint_address < 65536) (hr : reg_address < 256)
    (hd : ∀ x, x ∈ front ++ [last] → x < 256) :
    (∃ rest, (write_endpoint_data B timeout endpoint_address reg_address (front ++ [last])
        address_mode t).2 = t ++ rest ∧
      txPackets rest =
        [[endpoint_address &&& 0xFF, endpoint_address >>> 8, 0xAB, 0x80 ||| reg_address,
          (address_mode.toNat <<< 7) ||| ((front ++ [last]).length &&& 0x3F)] ++ front ++
          [last ||| 0x100]] ∧
      tlogs rest =
        (if (front ++ [last]).length > 0x3F then ["invalid data length"] else [])) ∧
    ([endpoint_address &&& 0xFF, endpoint_address >>> 8, 0xAB, 0x80 ||| reg_address,
        (address_mode.toNat <<< 7) ||| ((front ++ [last]).length &&& 0x3F)] ++ front ++
        [last ||| 0x100]).length = (front ++ [last]).length + 5 ∧
    (∀ x, x ∈ [endpoint_address &&& 0xFF, endpoint_address >>> 8, 0xAB, 0x80 ||| reg_address,
        (address_mode.toNat <<< 7) ||| ((front ++ [last]).length &&& 0x3F)] ++ front →
      x &&& 0x100 = 0) ∧
    (last ||| 0x100) &&& 0x100 = 0x100 ∧
    (∃ rest, (write_endpoint_data B timeout endpoint_address reg_address [] address_mode t).2 =
        t ++ rest ∧
      txPackets rest =
        [[endpoint_address &&& 0xFF, endpoint_address >>> 8, 0xAB, 0x80 ||| reg_address,
          (address_mode.toNat <<< 7) ||| 0x100]] ∧
      tlogs rest = ["invalid data length"]) := by
  have w0 : endpoint_address &&& 0xff < 256 := by
    have h : endpoint_address &&& 0xff ≤ 0xff := Nat.and_le_right
    omega
  have w1 : endpoint_address >>> 8 < 256 := by
    rw [Nat.shiftRight_eq_div_pow]
    have e8 : (2 : Nat) ^ 8 = 256 := by decide
    rw [e8]
    omega
  have w3 : 0x80 ||| reg_address < 256 :=
    Nat.or_lt_two_pow (n := 8) (by decide) hr
  have w4 : ∀ n : Nat, (address_mode.toNat <<< 7) ||| (n &&& 0x3F) < 256 :=
    fun n => length_word_lt address_mode n
  have hlast : last < 256 := hd last (by simp)
  have w5 : last ||| 0x100 < 4294967296 :=
    Nat.or_lt_two_pow (n := 32) (by omega) (by decide)
  have w6 : (address_mode.toNat <<< 7) ||| 0x100 < 4294967296 :=
    Nat.or_lt_two_pow (n := 32) (by cases address_mode <;> decide) (by decide)
  have m0 : (endpoint_address &&& 0xff) % 4294967296 = endpoint_address &&& 0xFF :=
    Nat.mod_eq_of_lt (by omega)
  have m1 : (endpoint_address >>> 8) % 4294967296 = endpoint_address >>> 8 :=
    Nat.mod_eq_of_lt (by omega)
  have m3 : ((0x1 <<< 7) ||| reg_address) % 4294967296 = 0x80 ||| reg_address :=
    Nat.mod_eq_of_lt (by
      have e7 : ((0x1 : Nat) <<< 7) = 0x80 := by decide
      rw [e7]
      omega)
  have m4 : ∀ n : Nat, ((address_mode.toNat <<< 7) ||| (0x3f &&& n)) % 4294967296 =
      (address_mode.toNat <<< 7) ||| (n &&& 0x3F) := by
    intro n
    rw [Nat.and_comm 0x3f n]
    exact Nat.mod_eq_of_lt (by have := w4 n; omega)
  have m5 : (last ||| (0x1 <<< 8)) % 4294967296 = last ||| 0x100 := Nat.mod_eq_of_lt w5
  refine ⟨?_, by simp, ?_, lor_land_self last 0x100, ?_⟩
  · obtain ⟨rest, h1, h2, h3⟩ := write_endpoint_data_trace B timeout endpoint_address
      reg_address (front ++ [last]) address_mode t last
      (by rw [← List.append_assoc, List.getLast?_concat])
    refine ⟨rest, h1, ?_, ?_⟩
    · rw [h2, ← List.append_assoc, List.dropLast_concat, m0, m1, m3, m4, m5]
    · rw [h3]
      have hne : (front ++ [last]).length ≠ 0 := by simp
      by_cases hc : (front ++ [last]).length > 0x3f
      · simp [hc]
      · simp [hc]
  · intro x hx
    apply lt_256_and_256
    rw [List.mem_append] at hx
    rcases hx with hx | hx
    · simp only [List.mem_cons, List.mem_singleton, List.not_mem_nil, or_false] at hx
      rcases hx with h | h | h | h | h <;> rw [h]
      · exact w0
      · exact w1
      · decide
      · exact w3
      · exact w4 _
    · exact hd x (List.mem_append_left _ hx)
  · obtain ⟨rest, h1, h2, h3⟩ := write_endpoint_data_trace B timeout endpoint_address
      reg_address [] address_mode t
      (((address_mode.toNat <<< 7) ||| (0x3f &&& ([] : List Nat).length)) % 4294967296) rfl
    refine ⟨rest, h1, ?_, ?_⟩
    · rw [h2]
      have e0 : (0x3f &&& ([] : List Nat).length) = 0 := by decide
      have e1 : ((address_mode.toNat <<< 7) ||| 0) % 4294967296 = address_mode.toNat <<< 7 := by
        cases address_mode <;> decide
      have e2 : ((address_mode.toNat <<< 7) ||| (0x1 <<< 8)) % 4294967296 =
          (address_mode.toNat <<< 7) ||| 0x100 := Nat.mod_eq_of_lt w6
      rw [e0, e1, e2, m0, m1, m3]
      rfl
    · rw [h3]
      simp

/-- Witness of C30: the bytes 7, 8 for register 0x60 of endpoint 0x1234 in
address mode: the block written is 0x34, 0x12, 0xab, 0xe0, 0x82, 7, 0x108. -/
theorem C30_write_endpoint_packet_witness :
    ((0x1234 : Nat) < 65536 ∧ (0x60 : Nat) < 256 ∧ ∀ x, x ∈ [7] ++ [8] → x < 256) ∧
    (∃ rest, (write_endpoint_data (readyBuffer []) 500 0x1234 0x60 ([7] ++ [8]) true []).2 =
        [] ++ rest ∧
      txPackets rest =
        [[0x1234 &&& 0xFF, 0x1234 >>> 8, 0xAB, 0x80 ||| 0x60,
          (true.toNat <<< 7) ||| (([7] ++ [8] : List Nat).length &&& 0x3F)] ++ [7] ++
          [8 ||| 0x100]] ∧
      tlogs rest =
        (if ([7] ++ [8] : List Nat).length > 0x3F then ["invalid data length"] else [])) ∧
    txPackets (write_endpoint_data (readyBuffer []) 500 0x1234 0x60 [7, 8] true []).2 =
      [[0x34, 0x12, 0xab, 0xe0, 0x82, 7, 0x108]] :=
  ⟨⟨by decide, by decide, by decide⟩,
    (C30_write_endpoint_packet (readyBuffer []) 500 0x1234 0x60 true [7] 8 [] (by decide)
      (by decide) (by decide)).1,
    by decide⟩

end pdt
